import Mathlib

/-!
Verification of the Pysheet in-memory data engine (src/pysheet.py, v3.6) by a
shallow embedding in Lean.  Python 2 byte strings are modelled by `String`
restricted to the ASCII behaviour of `lower`/`strip`/`isdigit`; cell values by
the `Cell` sum of strings, integers and (exact) floats; the row dictionary by
an association list whose operations mirror `dict` semantics.  Fallible code
paths (raised `PysheetException`, `AssertionError`, `TypeError`) are modelled
with `Except PErr`.
-/

set_option autoImplicit false

namespace Py

/-! ### Character/string primitives (CPython 2 `str` methods, ASCII) -/

/-- Models Python 2 `str.lower` on a single ASCII character. -/
def lowerChar (c : Char) : Char :=
  if 'A' ≤ c ∧ c ≤ 'Z' then Char.ofNat (c.toNat + 32) else c

/-- Whitespace recognised by Python 2 `str.strip`. -/
def isSpaceChar (c : Char) : Bool :=
  c = ' ' || c = '\t' || c = '\n' || c = '\x0d' || c = '\x0b' || c = '\x0c'

def trimChars (l : List Char) : List Char :=
  ((l.dropWhile isSpaceChar).reverse.dropWhile isSpaceChar).reverse

/-- Python 2 `str.lower`. -/
def pyLower (s : String) : String := ⟨s.data.map lowerChar⟩

/-- Python 2 `str.strip()`. -/
def pyStrip (s : String) : String := ⟨trimChars s.data⟩

/-- The `clean` utility of the source: `str(s).lower().strip()`. -/
def clean (s : String) : String := pyStrip (pyLower s)

/-- Python `x.replace("__", "")`: left-to-right, non-overlapping. -/
def removeUU : List Char → List Char
  | '_' :: '_' :: rest => removeUU rest
  | c :: rest => c :: removeUU rest
  | [] => []

/-- Python `s.startswith("__")`. -/
def startsUU (s : String) : Bool :=
  match s.data with
  | '_' :: '_' :: _ => true
  | _ => false

/-- Python `s.startswith("#")` (used on the first field of an input line). -/
def startsHash (s : String) : Bool :=
  match s.data with
  | '#' :: _ => true
  | _ => false

/-- Python 2 `str.isdigit` (ASCII). -/
def pyIsDigit (s : String) : Bool :=
  !s.data.isEmpty && s.data.all Char.isDigit

def digitsToNat (l : List Char) : Nat :=
  l.foldl (fun n c => n * 10 + (c.toNat - 48)) 0

/-- Python `needle in hay` on strings: contiguous-substring containment. -/
def pySubstr (needle hay : String) : Bool :=
  decide (needle.data <:+: hay.data)

/-- Python `c in s` for a single character. -/
def strContainsChar (s : String) (c : Char) : Bool := c ∈ s.data

/-- Python `s.split(sep, 1)` for a one-character separator, when present:
    the parts before and after the first occurrence. -/
def splitFirstAux (sep : Char) : List Char → Option (List Char × List Char)
  | [] => none
  | c :: cs =>
    if c = sep then some ([], cs)
    else (splitFirstAux sep cs).map (fun p => (c :: p.1, p.2))

def splitFirst (s : String) (sep : Char) : Option (String × String) :=
  (splitFirstAux sep s.data).map (fun p => (⟨p.1⟩, ⟨p.2⟩))

/-- Python `s.split(';')` (every occurrence, keeping empty parts). -/
def splitSemi : List Char → List (List Char)
  | [] => [[]]
  | c :: rest =>
    if c = ';' then [] :: splitSemi rest
    else
      match splitSemi rest with
      | g :: gs => (c :: g) :: gs
      | [] => [[c]]

/-! ### Cell values -/

/-- A cell of the sheet: a Python 2 `str`, `int`/`long`, or `float` (floats
    modelled exactly as rationals; no claim exercises float rounding). -/
inductive Cell where
  | str (s : String)
  | int (n : Int)
  | rat (q : Rat)
deriving DecidableEq, Repr

def BLANK : Cell := .str ""

/-- Python `str(cell)`.  For the `rat` constructor this models `str` on
    floats whose value prints exactly; no modelled claim evaluates it. -/
def cellStr : Cell → String
  | .str s => s
  | .int n => toString n
  | .rat q => toString q

/-- The source's `isBlank`: `cell in [None, '', BLANK_VALUE]` (scalar cells;
    list-valued cells never occur in the modelled operations). -/
def isBlank : Cell → Bool
  | .str s => s = ""
  | _ => false

/-- Python 2 `int(s)` on a string: optional surrounding whitespace, optional
    sign, nonempty digit run. -/
def pyParseInt (s : String) : Option Int :=
  let go : List Char → Option Int := fun ds =>
    if !ds.isEmpty && ds.all Char.isDigit then some (digitsToNat ds) else none
  match trimChars s.data with
  | '+' :: ds => go ds
  | '-' :: ds => (go ds).map (fun n => -n)
  | ds => go ds

/-- Python 2 `float(s)` on finite decimal literals: optional whitespace and
    sign, `digits[.digits]` or `.digits`, optional exponent.  The special
    literals `inf`/`infinity`/`nan` are outside the modelled fragment. -/
def pyParseFloat (s : String) : Option Rat :=
  let digv : List Char → Option Nat := fun ds =>
    if !ds.isEmpty && ds.all Char.isDigit then some (digitsToNat ds) else none
  let mant : List Char → Option Rat := fun ds =>
    match splitFirstAux '.' ds with
    | none => (digv ds).map (fun n => (n : Rat))
    | some (ip, fp) =>
      if ip.all Char.isDigit && fp.all Char.isDigit && !(ip.isEmpty && fp.isEmpty) then
        some ((digitsToNat ip : Rat) + (digitsToNat fp : Rat) / ((10 : Rat) ^ fp.length))
      else none
  let expo : List Char → Option Int := fun ds =>
    match ds with
    | '+' :: es => (digv es).map (fun n => (n : Int))
    | '-' :: es => (digv es).map (fun n => -(n : Int))
    | es => (digv es).map (fun n => (n : Int))
  let signed : List Char → Option Rat := fun body =>
    let split :=
      match splitFirstAux 'e' body with
      | some p => some p
      | none => splitFirstAux 'E' body
    match split with
    | none => mant body
    | some (m, e) => do
      let mv ← mant m
      let ev ← expo e
      pure (mv * (10 : Rat) ^ ev)
  match trimChars s.data with
  | '+' :: body => signed body
  | '-' :: body => (signed body).map (fun q => -q)
  | body => signed body

/-- Truncation toward zero, as Python `int(float)`. -/
def ratTrunc (q : Rat) : Int :=
  if 0 ≤ q then ⌊q⌋ else -⌊-q⌋

/-- The source's `tryNumber`: `int(x)`, else `float(x)`, else `x` itself
    (on an `int` it is the identity; on a `float` Python `int()` truncates). -/
def tryNumber : Cell → Cell
  | .str s =>
    match pyParseInt s with
    | some n => .int n
    | none =>
      match pyParseFloat s with
      | some q => .rat q
      | none => .str s
  | .int n => .int n
  | .rat q => .int (ratTrunc q)

/-! ### Errors -/

/-- Failure modes of the modelled operations: raised `PysheetException`s,
    failed `assert`s and Python-level `TypeError`/`StopIteration`. -/
inductive PErr where
  | invalidMode (mode : String)
  | columnUnparseable (tok : String)
  | removeIdColumn
  | assertError
  | noSuchKey (k : String)
  | noSuchHeader (h : String)
  | typeError
  | invalidIdColumn
  | stopIteration
  | autoIdEmpty
deriving DecidableEq, Repr

instance {e a : Type} [DecidableEq e] [DecidableEq a] : DecidableEq (Except e a) := fun
  | .error x, .error y =>
    if h : x = y then isTrue (by rw [h]) else isFalse (fun hc => by injection hc; contradiction)
  | .error _, .ok _ => isFalse (fun hc => Except.noConfusion hc)
  | .ok _, .error _ => isFalse (fun hc => Except.noConfusion hc)
  | .ok x, .ok y =>
    if h : x = y then isTrue (by rw [h]) else isFalse (fun hc => by injection hc; contradiction)

/-- Python `a + b` on cell values: numeric addition, string concatenation,
    `TypeError` on a mixed pair. -/
def pyAdd : Cell → Cell → Except PErr Cell
  | .str a, .str b => .ok (.str (a ++ b))
  | .int a, .int b => .ok (.int (a + b))
  | .int a, .rat b => .ok (.rat ((a : Rat) + b))
  | .rat a, .int b => .ok (.rat (a + (b : Rat)))
  | .rat a, .rat b => .ok (.rat (a + b))
  | _, _ => .error .typeError

/-! ### Value Merge Policy -/

def mergeModes : List String := ["smart_append", "append", "overwrite", "add"]

/-- The source's `Pysheet.mergedValue` (it reads no sheet state). -/
def mergedValue (cellA cellB : Cell) (mode : String) : Except PErr Cell :=
  let m := pyLower mode
  if m ∉ mergeModes then .error (.invalidMode mode)
  else if isBlank cellA then .ok cellB
  else if m = "smart_append" then
    if !isBlank cellB && !((cellStr cellB).data ∈ splitSemi (cellStr cellA).data) then
      .ok (.str ((cellStr cellA) ++ ";" ++ (cellStr cellB)))
    else .ok cellA
  else if m = "append" then
    if !isBlank cellB then
      .ok (.str ((cellStr cellA) ++ ";" ++ (cellStr cellB)))
    else .ok cellA
  else if m = "overwrite" then
    if !isBlank cellB then .ok cellB else .ok cellA
  else -- m = "add"
    if !isBlank cellB then
      if !isBlank cellA then pyAdd (tryNumber cellA) (tryNumber cellB)
      else .ok (tryNumber cellB)
    else .ok cellA

/-- A mode accepted by `mergedValue`. -/
def validMode (m : String) : Prop := pyLower m ∈ mergeModes

instance (m : String) : Decidable (validMode m) := by
  unfold validMode; infer_instance

/-! ### Row dictionary

The source keeps rows in a Python `dict` keyed by cleaned ID strings and
mutates row lists in place.  We model the dictionary as an association list
(the source's iteration order over `keys()` becomes list order) with
`dict`-style lookup, assignment and deletion.  All keys stored through the
public API are `clean`ed, so an in-place mutation `self[k][i] = v` with `k`
taken from `rows.keys()` hits the entry holding `k` itself; the model updates
that entry directly and the well-formedness hypotheses of the theorems record
the cleaned-keys invariant. -/

abbrev Row := List Cell
abbrev Dict := List (String × Row)

/-- `rows.get(k)` / `rows[k]`. -/
def dfind : Dict → String → Option Row
  | [], _ => none
  | (k, r) :: d, key => if k = key then some r else dfind d key

/-- `rows[k] = v`: update in place if present, else add. -/
def dset : Dict → String → Row → Dict
  | [], key, v => [(key, v)]
  | (k, r) :: d, key, v => if k = key then (key, v) :: d else (k, r) :: dset d key v

/-- `del rows[k]` / `rows.pop(k, None)` (no-op when absent). -/
def derase : Dict → String → Dict
  | [], _ => []
  | (k, r) :: d, key => if k = key then d else (k, r) :: derase d key

/-! ### The Pysheet object -/

def HEADERS_ID : String := "__header__"
def EXCLUDE_HEADER : String := "__exclude__"
def AUTO_ID_HEADER : String := "__AutoID__"

structure Pysheet where
  rows : Dict
  idColumn : Nat
deriving DecidableEq, Repr

/-- `self[HEADERS_ID]` (the source would raise on a sheet without a header
    row; theorems that need the header carry its presence as a hypothesis). -/
def getHeaders (p : Pysheet) : Row := (dfind p.rows HEADERS_ID).getD []

/-- `len(self)`: the length of the header row. -/
def hlen (p : Pysheet) : Nat := (getHeaders p).length

/-- Header normalisation used on stored header cells:
    `l.lower().replace('__','')` (no strip). -/
def lowerRep (c : Cell) : String := ⟨removeUU (pyLower (cellStr c)).data⟩

/-- The source's `headerIndex`: case/lock-marker-insensitive name lookup with
    a digit-string index fallback, `-1` as the error sentinel. -/
def headerIndex (p : Pysheet) (header : String) : Int :=
  let h : String := ⟨removeUU (clean header).data⟩
  match (getHeaders p).map lowerRep |>.findIdx? (fun x => x = h) with
  | some i => (i : Int)
  | none =>
    if pyIsDigit h then
      let n := digitsToNat h.data
      if n < hlen p then (n : Int) else -1
    else -1

/-- Python `row[i] = v` including negative-index wrap-around (the source
    indexes with `headerIndex` results, which are `-1` on a miss). -/
def pySetIdx (row : Row) (i : Int) (v : Cell) : Row :=
  if 0 ≤ i then row.set i.toNat v
  else row.set (row.length - (-i).toNat) v

/-- Python `row[i]` with negative-index wrap-around, blank when out of range
    (the source would raise `IndexError` there; rectangular sheets never do). -/
def pyGetIdx (row : Row) (i : Int) : Cell :=
  if 0 ≤ i then row.getD i.toNat BLANK
  else row.getD (row.length - (-i).toNat) BLANK

/-- Python `list.insert(index, v)` (an index past the end appends). -/
def pyInsert (row : Row) (index : Nat) (v : Cell) : Row :=
  if row.length ≤ index then row ++ [v] else row.insertIdx index v

/-- The source's `expand`: pad every row to the header length; a row longer
    than the header fails the `assert` (modelled as an error, dropping the
    partially padded state the source would leave behind). -/
def expand (p : Pysheet) : Except PErr Pysheet :=
  let headlen := hlen p
  if p.rows.all (fun e => e.2.length ≤ headlen) then
    .ok ⟨p.rows.map (fun e => (e.1, e.2 ++ List.replicate (headlen - e.2.length) BLANK)), p.idColumn⟩
  else .error .assertError

/-- Count of the leading lock-marked headers after position 0; `1 +` it is
    the insertion index the source's `while` loop computes. -/
def lockedRunLen : List Cell → Nat
  | [] => 0
  | c :: rest => if startsUU (cellStr c) then lockedRunLen rest + 1 else 0

/-- Insertion step shared by both `insertColumn` index cases: the header row
    receives the (lock-prefixed when not already) name, every other row a
    blank, and `idColumn` shifts when the insertion is at or before it. -/
def insertColumnAt (p : Pysheet) (header : String) (index : Nat) : Pysheet :=
  let hdr : Cell := .str (if startsUU (pyStrip header) then header else "__" ++ pyStrip header)
  { rows := p.rows.map (fun e =>
      (e.1, if e.1 = HEADERS_ID then pyInsert e.2 index hdr else pyInsert e.2 index BLANK)),
    idColumn := if index ≤ p.idColumn then p.idColumn + 1 else p.idColumn }

/-- The source's `insertColumn`: no-op when the normalised name already
    exists; a missing index defaults to the first non-locked slot after
    position 0; a given index is `assert`-checked against `[0, len]`. -/
def insertColumn (p : Pysheet) (header : String) (index? : Option Nat) : Except PErr Pysheet :=
  if (⟨removeUU (pyLower header).data⟩ : String) ∈ (getHeaders p).map lowerRep then .ok p
  else
    match index? with
    | none => .ok (insertColumnAt p header (1 + lockedRunLen ((getHeaders p).drop 1)))
    | some i =>
      if i ≤ hlen p then .ok (insertColumnAt p header i)
      else .error .assertError

/-- Return value of `removeCell`: nothing, a removed cell's old value, or a
    removed row. -/
inductive RemoveRet where
  | nothing
  | cell (c : Cell)
  | row (r : Row)
deriving DecidableEq, Repr

/-- The source's `removeCell`: with a header, blank that cell; without one,
    delete the whole row; silently do nothing when the key is absent. -/
def removeCell (p : Pysheet) (key : String) (header? : Option String) : RemoveRet × Pysheet :=
  match dfind p.rows (clean key) with
  | none => (.nothing, p)
  | some row =>
    match header? with
    | some h =>
      if headerIndex p (pyStrip h) ≠ -1 then
        (.cell (pyGetIdx row (headerIndex p (pyStrip h))),
         ⟨dset p.rows (clean key) (pySetIdx row (headerIndex p (pyStrip h)) BLANK), p.idColumn⟩)
      else (.nothing, p)
    | none => (.row row, ⟨derase p.rows (clean key), p.idColumn⟩)

/-- First paragraph of the source's `addCell`: create the row under the
    cleaned key if missing (ID cell from the stripped key, the rest blank). -/
def addCellEnsureRow (p : Pysheet) (key : String) : Pysheet :=
  match dfind p.rows (clean key) with
  | none =>
    ⟨dset p.rows (clean key) (.str (pyStrip key) :: List.replicate (hlen p - 1) BLANK),
     p.idColumn⟩
  | some _ => p

/-- Second paragraph of the source's `addCell`: create the (stripped) header
    if missing -- lock-prefixed names through `insertColumn`, others appended
    to the header row and the sheet re-expanded. -/
def addCellEnsureHeader (p : Pysheet) (h : String) : Except PErr Pysheet :=
  if headerIndex p h = -1 then
    if startsUU h then insertColumn p h none
    else expand ⟨dset p.rows HEADERS_ID (getHeaders p ++ [.str h]), p.idColumn⟩
  else .ok p

/-- Last paragraph of the source's `addCell`: write the value into the row's
    header column (index `-1` when headerless) through `mergedValue`. -/
def addCellWrite (p : Pysheet) (cleankey h : String) (v : Cell) (mode : String) :
    Except PErr Pysheet :=
  match dfind p.rows cleankey with
  | none => .error .typeError
  | some row => do
    let hi := headerIndex p h
    let merged ← mergedValue (pyGetIdx row hi) v mode
    .ok ⟨dset p.rows cleankey (pySetIdx row hi merged), p.idColumn⟩

/-- The source's `addCell`: create the row if missing, create the header if
    missing, then write the cell through `mergedValue`. -/
def addCell (p : Pysheet) (key : String) (header? : Option String) (value? : Option Cell)
    (mode : String) : Except PErr Pysheet := do
  let p := addCellEnsureRow p key
  match header? with
  | none => .ok p
  | some h => do
    let p ← addCellEnsureHeader p (pyStrip h)
    addCellWrite p (clean key) (pyStrip h) (value?.getD BLANK) mode

/-- Key-rename path of the source's `rename` (shared with `contract`):
    re-key the row under the cleaned new name, updating its ID cell; a falsy
    key or the header sentinel is silently ignored; a missing key raises. -/
def renameKeyOp (d : Dict) (idCol : Nat) (newName : Cell) (key : String) : Except PErr Dict :=
  if key ≠ "" ∧ key ≠ HEADERS_ID then
    let cleanKey := clean key
    let cleanNewKey := clean (cellStr newName)
    match dfind d cleanKey with
    | some row =>
      if cleanKey ≠ cleanNewKey then
        .ok (dset (derase d cleanKey) cleanNewKey (row.set idCol newName))
      else .ok d
    | none => .error (.noSuchKey key)
  else .ok d

/-- The source's `rename`: a truthy `header` renames that column header, else
    a truthy non-sentinel `key` re-keys that row, else nothing happens. -/
def rename (p : Pysheet) (newName : Cell) (header? : Option String) (key? : Option String) :
    Except PErr Pysheet :=
  if header?.getD "" ≠ "" then
    let hi := headerIndex p (header?.getD "")
    if 0 ≤ hi then
      .ok ⟨dset p.rows HEADERS_ID ((getHeaders p).set hi.toNat (.str (pyStrip (cellStr newName)))), p.idColumn⟩
    else .error (.noSuchHeader (header?.getD ""))
  else
    match key? with
    | some k => (renameKeyOp p.rows p.idColumn newName k).map (fun d => ⟨d, p.idColumn⟩)
    | none => .ok p

/-! ### Merge engine: `__add__` (combine) -/

/-- First phase of `__add__`: walk A's entries, popping the same (cleaned)
    key out of B and concatenating a found non-empty row onto A's row;
    the boolean records whether anything merged. -/
def combineLoop1 : Dict → Dict → Bool → Dict × Dict × Bool
  | [], b, m => ([], b, m)
  | (k, row) :: rest, b, m =>
    let item := dfind b (clean k)
    let b' := derase b (clean k)
    match item with
    | some r =>
      if 0 < r.length then
        let (rest', b'', m') := combineLoop1 rest b' true
        ((k, row ++ r) :: rest', b'', m')
      else
        let (rest', b'', m') := combineLoop1 rest b' m
        ((k, row) :: rest', b'', m')
    | none =>
      let (rest', b'', m') := combineLoop1 rest b' m
      ((k, row) :: rest', b'', m')

/-- Second phase of `__add__`: every ID left in B becomes a new row in A,
    blank-padded on the left by A's original width. -/
def combineLoop2 (oldlen : Nat) : Dict → Dict → Dict
  | a, [] => a
  | a, (k, row) :: rest =>
    combineLoop2 oldlen (dset a (clean k) (List.replicate oldlen BLANK ++ row)) rest

/-- The source's `__add__` with its default `mergeHeaders=False` (as invoked
    by `main`): structural union of B into A, re-expansion, and the rewrite
    of B's ID-column header name to A's. -/
def combine (A B : Pysheet) : Except PErr Pysheet :=
  match expand ⟨combineLoop2 (hlen A) (combineLoop1 A.rows B.rows false).1
                  (combineLoop1 A.rows B.rows false).2.1, A.idColumn⟩ with
  | .error e => .error e
  | .ok p =>
    if (combineLoop1 A.rows B.rows false).2.2 ||
        !(combineLoop1 A.rows B.rows false).2.1.isEmpty then
      .ok ⟨dset p.rows HEADERS_ID ((getHeaders p).set (hlen A + B.idColumn)
              ((getHeaders p).getD A.idColumn BLANK)), p.idColumn⟩
    else .ok p

/-! ### `removeColumns` -/

def insertDesc (x : Nat) : List Nat → List Nat
  | [] => [x]
  | y :: ys => if y ≤ x then x :: y :: ys else y :: insertDesc x ys

/-- Python `cols.sort(); cols.reverse()`. -/
def sortDesc (l : List Nat) : List Nat := l.foldr insertDesc []

/-- The source's `unique` utility (first occurrences kept, in order). -/
def pyUnique (l : List Nat) : List Nat :=
  l.foldl (fun acc e => if e ∈ acc then acc else acc ++ [e]) []

/-- Check loop of `removeColumns`: the ID column is not removable, indices
    must be in range, and `idColumn` is decremented per removed index before
    it. -/
def rcCheck : List Nat → Nat → Nat → Except PErr Nat
  | [], _, idc => .ok idc
  | c :: rest, n, idc =>
    if c = idc then .error .removeIdColumn
    else if n ≤ c then .error .assertError
    else rcCheck rest n (if c < idc then idc - 1 else idc)

/-- The source's `removeColumns` on a list argument. -/
def removeColumns (p : Pysheet) (cols0 : List Nat) : Except PErr Pysheet :=
  if cols0.isEmpty then .ok p
  else
    let cols := pyUnique (sortDesc cols0)
    match rcCheck cols (hlen p) p.idColumn with
    | .error e => .error e
    | .ok idc =>
      .ok ⟨p.rows.map (fun e => (e.1, cols.foldl (fun r c => r.eraseIdx c) e.2)), idc⟩

/-! ### `contract` -/

/-- Row step of `contract`'s inner loop for matching columns `(i, j)`: merge
    cell `j` into cell `i`, with the `overwrite` policy and a re-keying
    `rename` when `i` is the ID column. -/
def contractMergeRow (d : Dict) (idCol i j : Nat) (mode : String) (k : String) :
    Except PErr Dict :=
  if k = HEADERS_ID then .ok d
  else
    match dfind d k with
    | none => .error .typeError
    | some row =>
      if i = idCol then do
        let v ← mergedValue (row.getD i BLANK) (row.getD j BLANK) "overwrite"
        renameKeyOp (dset d k (row.set i v)) idCol v k
      else do
        let v ← mergedValue (row.getD i BLANK) (row.getD j BLANK) mode
        .ok (dset d k (row.set i v))

def contractInner (idCol : Nat) (mode : String) (i j : Nat) :
    List String → Dict → Except PErr Dict
  | [], d => .ok d
  | k :: rest, d => do
    let d' ← contractMergeRow d idCol i j mode k
    contractInner idCol mode i j rest d'

/-- One `(i, j)` iteration of `contract`'s pair scan: when the (current)
    normalised headers at `i` and `j` coincide, mark `j` for deletion and
    fold column `j` into `i` over a snapshot of the keys. -/
def contractPair (idCol : Nat) (mode : String) (d : Dict) (del : List Nat) (ij : Nat × Nat) :
    Except PErr (Dict × List Nat) :=
  let hs := (dfind d HEADERS_ID).getD []
  if lowerRep (hs.getD ij.1 BLANK) = lowerRep (hs.getD ij.2 BLANK) then do
    let d' ← contractInner idCol mode ij.1 ij.2 (d.map Prod.fst) d
    .ok (d', del ++ [ij.2])
  else .ok (d, del)

/-- The source's pair order: `i` in `range(0, n-1)`, `j` in `range(i+1, n)`. -/
def pairList (n : Nat) : List (Nat × Nat) :=
  (List.range (n - 1)).flatMap (fun i => (List.range' (i + 1) (n - 1 - i)).map (fun j => (i, j)))

def contractPairs (idCol : Nat) (mode : String) :
    List (Nat × Nat) → Dict → List Nat → Except PErr (Dict × List Nat)
  | [], d, del => .ok (d, del)
  | ij :: rest, d, del => do
    let (d', del') ← contractPair idCol mode d del ij
    contractPairs idCol mode rest d' del'

/-- The source's `contract`. -/
def contract (p : Pysheet) (mode : String) : Except PErr Pysheet := do
  let (d, del) ← contractPairs p.idColumn mode (pairList (hlen p)) p.rows []
  if del.isEmpty then .ok ⟨d, p.idColumn⟩
  else removeColumns ⟨d, p.idColumn⟩ del

/-! ### `grab` (cell path), `excluded`, `getIds` -/

/-- The `key` + `header` path of the source's `grab`: a single cell, `none`
    when the key or header is unknown. -/
def grabCell (p : Pysheet) (key : String) (header : String) : Option Cell :=
  match dfind p.rows (clean key) with
  | none => none
  | some row =>
    let h := pyStrip header
    if headerIndex p h = -1 then none
    else some (pyGetIdx row (headerIndex p h))

def isBlankOpt : Option Cell → Bool
  | none => true
  | some c => isBlank c

/-- The source's `excluded`: a non-blank value in the `__exclude__` column. -/
def excluded (p : Pysheet) (key : String) : Bool :=
  if key = HEADERS_ID then false
  else !isBlankOpt (grabCell p key EXCLUDE_HEADER)

/-- The source's `getIds`: the ID-cell values of the non-sentinel, non-locked,
    non-excluded rows. -/
def getIds (p : Pysheet) : List Cell :=
  (p.rows.filter (fun e => !(e.1 == HEADERS_ID) && !startsUU e.1 && !excluded p e.1)).map
    (fun e => e.2.getD p.idColumn BLANK)

/-! ### `consolidate` -/

/-- Keyword list for one consolidation group: the header itself when the
    group has no keywords, else the keywords after the header, lowercased. -/
def consolGroupKeywords (g : List String) : List String :=
  if g.length = 1 then g.map pyLower else (g.drop 1).map pyLower

/-- Does group `g` (with target header `g[0]`) capture existing column `i`? -/
def consolMatch (p : Pysheet) (i : Nat) (g : List String) : Bool :=
  let hi := headerIndex p (g.headD "")
  let hname := cellStr ((getHeaders p).getD i BLANK)
  (consolGroupKeywords g).any (fun kw =>
    !(hi == (i : Int)) && !startsUU hname && pySubstr kw (pyLower hname))

/-- Merge loop of a matched consolidation: fold column `i` into the target
    column for every non-locked, non-excluded data row (looked up again by
    its ID value, as the source does). -/
def consolMergeFold (hi : Int) (i : Nat) (mode : String) :
    List Cell → Dict → Except PErr Dict
  | [], d => .ok d
  | idv :: rest, d =>
    match dfind d (clean (cellStr idv)) with
    | none => .error .typeError
    | some row => do
      let v ← mergedValue (pyGetIdx row hi) (row.getD i BLANK) mode
      consolMergeFold hi i mode rest (dset d (clean (cellStr idv)) (pySetIdx row hi v))

/-- One column `i` of `consolidate`'s scan: the first matching group wins
    (the source's `StopIteration` break), merging `i` into its target and
    marking `i` for deletion. -/
def consolStep (mode : String) (cons : List (List String)) (st : Pysheet × List Nat) (i : Nat) :
    Except PErr (Pysheet × List Nat) :=
  let (p, del) := st
  match cons.find? (fun g => consolMatch p i g) with
  | none => .ok (p, del)
  | some g => do
    let hi := headerIndex p (g.headD "")
    let d ← consolMergeFold hi i mode (getIds p) p.rows
    .ok (⟨d, p.idColumn⟩, del ++ [i])

/-- The source's `consolidate` (arguments already in nested-list form, as the
    CLI supplies them). -/
def consolidate (p : Pysheet) (cons : List (List String)) (cleanUp : Bool) (mode : String) :
    Except PErr Pysheet := do
  let p ← contract p mode
  if cons.isEmpty || (cons.headD []).isEmpty then .ok p
  else if cons.any (fun g => g.isEmpty) then .error .stopIteration
  else do
    let hdrs := cons.map (fun g => g.headD "")
    let p ← hdrs.foldlM (fun q h => insertColumn q h none) p
    let st ← (List.range (hlen p)).foldlM (consolStep mode cons) (p, [])
    if cleanUp then removeColumns st.1 st.2 else .ok st.1

/-! ### Column Spec Parser -/

def opChars : List Char := ['<', '>', '=', '!', '~', '+']

/-- The distinct operator characters present in a token, accumulated in the
    source's fixed test order `< > = ! ~ +`. -/
def distinctOps (c : String) : List Char :=
  opChars.filter (fun ch => strContainsChar c ch)

/-- Range branch of `parseColumns`: `'A-B'` (inclusive, in bounds) or open
    `'A-'`; `none` falls through to the operator branch. -/
def rangeAdd (p : Pysheet) (c : String) : Option (List Nat × List String × List Cell) :=
  match splitFirst c '-' with
  | none => none
  | some (frm, tto) =>
    if pyIsDigit frm then
      let f := digitsToNat frm.data
      if pyIsDigit tto then
        let t := digitsToNat tto.data
        if f ≤ t ∧ f < hlen p ∧ t < hlen p then
          let rng := List.range' f (t + 1 - f)
          some (rng, List.replicate rng.length "", List.replicate rng.length (.str ""))
        else none
      else if tto = "" then
        let rng := List.range' f (hlen p - f)
        some (rng, List.replicate rng.length "", List.replicate rng.length (.str ""))
      else none
    else none

/-- Operator branch of `parseColumns`: exactly one distinct operator
    character, split at its first occurrence, non-empty argument, resolvable
    column part. -/
def opAdd (p : Pysheet) (c : String) : Option (List Nat × List String × List Cell) :=
  match distinctOps c with
  | [op] =>
    match splitFirst c op with
    | some (col, arg) =>
      if arg ≠ "" then
        let hi := headerIndex p col
        if 0 ≤ hi then some ([hi.toNat], [String.mk [op]], [tryNumber (.str arg)])
        else none
      else none
    | none => none
  | _ => none

/-- One token of `parseColumns`, tried in the source's order. -/
def parseToken (p : Pysheet) (c : String) : Option (List Nat × List String × List Cell) :=
  let hi := headerIndex p c
  if 0 ≤ hi then some ([hi.toNat], [""], [.str ""])
  else
    match rangeAdd p c with
    | some r => some r
    | none => opAdd p c

/-- `ALL` expansion: every non-ID column index. -/
def allRng (p : Pysheet) : List Nat :=
  List.range p.idColumn ++ List.range' (p.idColumn + 1) (hlen p - (p.idColumn + 1))

def parseFold (p : Pysheet) :
    List String → (List Nat × List String × List Cell) →
    Except PErr (List Nat × List String × List Cell)
  | [], acc => .ok acc
  | c :: rest, acc =>
    match parseToken p c with
    | some (is, ops, args) => parseFold p rest (acc.1 ++ is, acc.2.1 ++ ops, acc.2.2 ++ args)
    | none => .error (.columnUnparseable c)

/-- The source's `parseColumns` on a token list. -/
def parseColumns (p : Pysheet) (cols0 : List String) :
    Except PErr (List Nat × List String × List Cell) :=
  if cols0.isEmpty then .ok ([], [], [])
  else
    let hasAll := "ALL" ∈ cols0
    let init : List Nat × List String × List Cell :=
      if hasAll then
        (allRng p, List.replicate (allRng p).length "", List.replicate (allRng p).length (.str ""))
      else ([], [], [])
    parseFold p (if hasAll then cols0.erase "ALL" else cols0) init

/-! ### `load` -/

/-- Zero-padded decimal, as the source's `"%03d"` / `"%05d"` formats. -/
def padNum (width : Nat) (n : Nat) : String :=
  let s := toString n
  (⟨List.replicate (width - s.length) '0'⟩ : String) ++ s

/-- Synthesised headers `C001, C002, ...` for header-less input (suffixed
    with the object id except under `vstack`). -/
def synthHeaders (headLen : Nat) (vstack : Bool) (objId : String) : Row :=
  (List.range headLen).map (fun col =>
    .str ("C" ++ padNum 3 (col + 1) ++ (if vstack then "" else objId)))

/-- Loader state: the line counter, the header length once established, and
    the row dictionary (the ID-column setting is fixed before the loop). -/
structure LoadSt where
  row : Nat
  headLen : Option Nat
  rows : Dict
deriving Repr

/-- Header part of one `load` line: the first accepted line fixes the header
    row (synthesised names under `noHeader`, plus the auto-ID column). -/
def loadHeaderStep (noHeader vstack : Bool) (objId : String) (idc : Int)
    (st : LoadSt) (line : List String) : Except PErr LoadSt :=
  if st.row = 0 then
    if 0 ≤ idc ∧ (line.length : Int) ≤ idc then .error .invalidIdColumn
    else
      let hdr : Row :=
        if noHeader then synthHeaders line.length vstack objId
        else line.map (fun v => .str (pyStrip v))
      let hdr := if idc = -1 then hdr ++ [.str AUTO_ID_HEADER] else hdr
      .ok ⟨if noHeader then st.row + 1 else st.row, some line.length,
           dset st.rows HEADERS_ID hdr⟩
  else .ok st

/-- Data part of one `load` line: truncate/pad to the header length, append
    the auto-ID cell, and store under the cleaned ID-cell key. -/
def loadDataStep (hstack : Bool) (objId : String) (idc : Int)
    (st : LoadSt) (line : List String) : LoadSt :=
  if 0 < st.row then
    match st.headLen with
    | none => st -- unreachable: a positive row count implies a header
    | some headLen =>
      let thisline := line.take headLen
      let thisline := thisline ++ List.replicate (headLen - thisline.length) ""
      let thisline :=
        if idc = -1 then
          thisline ++ [if hstack then "R" ++ padNum 5 st.row
                       else "R" ++ padNum 5 st.row ++ objId]
        else thisline
      let key :=
        if idc = -1 then clean (thisline.getLastD "")
        else clean (thisline.getD idc.toNat "")
      ⟨st.row, st.headLen, dset st.rows key (thisline.map Cell.str)⟩
  else st

/-- One input line of `load`'s reading loop. -/
def loadStep (noHeader vstack hstack : Bool) (objId : String) (minL : Nat) (idc : Int)
    (st : LoadSt) (line : List String) : Except PErr LoadSt := do
  if line.length < max minL 1 ∨ startsHash (line.headD "") then .ok st
  else do
    let st ← loadHeaderStep noHeader vstack objId idc st line
    let st := loadDataStep hstack objId idc st line
    .ok ⟨st.row + 1, st.headLen, st.rows⟩

def CLEARED : Dict := [(HEADERS_ID, [Cell.str "ID"])]

/-- One line of the transpose pre-pass: skip short/comment lines, keep the
    accumulated column list square. -/
def transStep (minL : Nat) (acc : List (List String) × Nat) (line : List String) :
    List (List String) × Nat :=
  let (cols, maxL) := acc
  if line.length < max minL 1 ∨ startsHash (line.headD "") then acc
  else if line.length < maxL then
    (cols ++ [line ++ List.replicate (maxL - line.length) ""], maxL)
  else if maxL < line.length then
    (cols.map (fun c => c ++ List.replicate (line.length - c.length) "") ++ [line], line.length)
  else (cols ++ [line], maxL)

/-- Python `zip(*cols)` (rows of the transposed matrix, truncated to the
    shortest column; the pre-pass keeps all columns equally long). -/
def pyZip (cols : List (List String)) : List (List String) :=
  match cols with
  | [] => []
  | c0 :: rest =>
    let n := rest.foldl (fun m c => min m c.length) c0.length
    (List.range n).map (fun i => cols.map (fun c => c.getD i ""))

def transposePre (minL : Nat) (lines : List (List String)) : List (List String) :=
  pyZip (lines.foldl (transStep minL) ([], 0)).1

/-- The source's `load` from an in-memory iterable (single call on a fresh
    object: the `MIN_LINE_LEN` instance decrement is local here).  An
    auto-ID load that accepts no lines leaves the source's `idColumn` at
    `-1`, a state outside this model's `Nat` index; it is reported as an
    error instead. -/
def load (p : Pysheet) (input : List (List String)) (idColumn? : Option Int) (skip : Nat)
    (noHeader vstack hstack trans : Bool) (objId : String) : Except PErr Pysheet := do
  if input.isEmpty then .ok ⟨CLEARED, p.idColumn⟩
  else
    let noHeader := noHeader || vstack
    let idColumn? := if hstack then some (-1) else idColumn?
    let idc : Int :=
      match idColumn? with
      | none => (p.idColumn : Int)
      | some i => if i < 0 then -1 else i
    let minL : Nat := if idc = -1 then 1 else 2
    let lines := input.drop skip
    let lines := if trans then transposePre minL lines else lines
    let st ← lines.foldlM (loadStep noHeader vstack hstack objId minL idc) ⟨0, none, CLEARED⟩
    match st.headLen with
    | some headLen => .ok ⟨st.rows, if idc = -1 then headLen else idc.toNat⟩
    | none =>
      if idc = -1 then .error .autoIdEmpty
      else .ok ⟨st.rows, idc.toNat⟩

/-! ### The mutating operations of the engine, as one sum type -/

inductive MutOp where
  | loadIt (input : List (List String)) (idColumn? : Option Int) (skip : Nat)
      (noHeader vstack hstack trans : Bool) (objId : String)
  | addCellOp (key : String) (header? : Option String) (value? : Option Cell) (mode : String)
  | removeCellOp (key : String) (header? : Option String)
  | insertColumnOp (header : String) (index? : Option Nat)
  | removeColumnsOp (cols : List Nat)
  | combineOp (other : Pysheet)
  | contractOp (mode : String)
  | consolidateOp (cons : List (List String)) (cleanUp : Bool) (mode : String)
  | renameOp (newName : Cell) (header? : Option String) (key? : Option String)

def applyOp (p : Pysheet) : MutOp → Except PErr Pysheet
  | .loadIt input idc skip nh vs hs tr obj => load p input idc skip nh vs hs tr obj
  | .addCellOp k h v m => addCell p k h v m
  | .removeCellOp k h => .ok (removeCell p k h).2
  | .insertColumnOp h i => insertColumn p h i
  | .removeColumnsOp cols => removeColumns p cols
  | .combineOp other => combine p other
  | .contractOp m => contract p m
  | .consolidateOp cons cu m => consolidate p cons cu m
  | .renameOp n h k => rename p n h k

/-! ### Well-formedness -/

def KeysNodup (d : Dict) : Prop := (d.map Prod.fst).Nodup

/-- Keys stored through the public API are always `clean`ed. -/
def KeysClean (d : Dict) : Prop := ∀ e ∈ d, clean e.1 = e.1

def HasHeader (p : Pysheet) : Prop := (dfind p.rows HEADERS_ID).isSome = true

/-- The rectangularity invariant: every row as long as the header row. -/
def Rectangular (p : Pysheet) : Prop := ∀ e ∈ p.rows, e.2.length = hlen p

/-- Well-formed table: the state every sheet reachable through the public
    API satisfies between operations. -/
def WF (p : Pysheet) : Prop :=
  KeysNodup p.rows ∧ KeysClean p.rows ∧ HasHeader p ∧ Rectangular p ∧ 0 < hlen p

def isStrCell : Cell → Bool
  | .str _ => true
  | _ => false

/-- All header cells are strings (the source calls `str` methods on them). -/
def StrHeaders (p : Pysheet) : Prop :=
  ∀ c ∈ getHeaders p, isStrCell c = true

/-- No data cell's cleaned string form collides with the header sentinel key
    (so no `contract` re-keying can overwrite the header row). -/
def NoSentinelCells (p : Pysheet) : Prop :=
  ∀ e ∈ p.rows, e.1 ≠ HEADERS_ID → ∀ c ∈ e.2, clean (cellStr c) ≠ HEADERS_ID

instance (d : Dict) : Decidable (KeysNodup d) := by
  unfold KeysNodup; infer_instance

instance (d : Dict) : Decidable (KeysClean d) := by
  unfold KeysClean; infer_instance

instance (p : Pysheet) : Decidable (HasHeader p) := by
  unfold HasHeader; infer_instance

instance (p : Pysheet) : Decidable (Rectangular p) := by
  unfold Rectangular; infer_instance

instance (p : Pysheet) : Decidable (WF p) := by
  unfold WF; infer_instance

instance (p : Pysheet) : Decidable (StrHeaders p) := by
  unfold StrHeaders; infer_instance

instance (p : Pysheet) : Decidable (NoSentinelCells p) := by
  unfold NoSentinelCells; infer_instance

/-- The shape every intermediate row dictionary of a mutating operation
    keeps: the header sentinel is present and every row has length `L`. -/
def RectInv (L : Nat) (d : Dict) : Prop :=
  (dfind d HEADERS_ID).isSome = true ∧ ∀ e ∈ d, e.2.length = L

instance (L : Nat) (d : Dict) : Decidable (RectInv L d) := by
  unfold RectInv; infer_instance

/-- Sentinel safety restricted to columns at or right of the ID column: the
    only cells a `contract` ID-column fold ever re-keys by. -/
def NoSentinelHi (idc : Nat) (d : Dict) : Prop :=
  ∀ e ∈ d, e.1 ≠ HEADERS_ID → ∀ col, idc ≤ col →
    clean (cellStr (e.2.getD col BLANK)) ≠ HEADERS_ID

/-! ### Supporting lemmas on the dictionary -/

theorem dfind_mapVal (g : String → Row → Row) (d : Dict) (k : String) :
    dfind (d.map (fun e => (e.1, g e.1 e.2))) k = (dfind d k).map (g k) := by
  induction d with
  | nil => rfl
  | cons e d ih =>
    by_cases h : e.1 = k
    · simp [dfind, h]
    · simp [dfind, h, ih]

theorem dfind_eq_none_of_not_mem (d : Dict) (k : String) (h : k ∉ d.map Prod.fst) :
    dfind d k = none := by
  induction d with
  | nil => rfl
  | cons e d ih =>
    obtain ⟨k0, r0⟩ := e
    simp only [List.map_cons, List.mem_cons, not_or] at h
    have h0 : k0 ≠ k := fun hk => h.1 hk.symm
    simp only [dfind, if_neg h0]
    exact ih h.2

theorem dfind_dset (d : Dict) (k k' : String) (v : Row) :
    dfind (dset d k v) k' = if k = k' then some v else dfind d k' := by
  induction d with
  | nil =>
    by_cases h : k = k' <;> simp [dset, dfind, h]
  | cons e d ih =>
    obtain ⟨k0, r0⟩ := e
    by_cases h0 : k0 = k
    · subst h0
      by_cases h : k0 = k' <;> simp [dset, dfind, h]
    · by_cases h' : k0 = k'
      · subst h'
        have hkk : ¬ k = k0 := fun hk => h0 hk.symm
        simp [dset, dfind, h0, hkk, ih]
      · simp [dset, dfind, h0, h', ih]

theorem dfind_derase_self (d : Dict) (k : String) (hnd : KeysNodup d) :
    dfind (derase d k) k = none := by
  induction d with
  | nil => rfl
  | cons e d ih =>
    obtain ⟨k0, r0⟩ := e
    simp only [KeysNodup, List.map_cons, List.nodup_cons] at hnd
    by_cases h0 : k0 = k
    · subst h0
      simp only [derase, if_pos rfl]
      exact dfind_eq_none_of_not_mem d k0 hnd.1
    · simp only [derase, if_neg h0, dfind]
      exact ih hnd.2

theorem dfind_derase_ne (d : Dict) (k k' : String) (h : k ≠ k') :
    dfind (derase d k) k' = dfind d k' := by
  induction d with
  | nil => rfl
  | cons e d ih =>
    obtain ⟨k0, r0⟩ := e
    by_cases h0 : k0 = k
    · subst h0
      have hne : k0 ≠ k' := h
      simp [derase, dfind, hne]
    · simp only [derase, if_neg h0, dfind]
      by_cases h1 : k0 = k'
      · rw [if_pos h1, if_pos h1]
      · rw [if_neg h1, if_neg h1]
        exact ih

theorem keys_dset_of_mem (d : Dict) (k : String) (v : Row)
    (h : k ∈ d.map Prod.fst) : (dset d k v).map Prod.fst = d.map Prod.fst := by
  induction d with
  | nil => simp at h
  | cons e d ih =>
    obtain ⟨k0, r0⟩ := e
    by_cases h0 : k0 = k
    · subst h0
      simp [dset]
    · simp only [List.map_cons, List.mem_cons] at h
      rcases h with h | h
    

      · exact absurd h.symm h0
      · simp only [dset, if_neg h0, List.map_cons]
        rw [ih h]

theorem dset_of_not_mem (d : Dict) (k : String) (v : Row)
    (h : k ∉ d.map Prod.fst) : dset d k v = d ++ [(k, v)] := by
  induction d with
  | nil => rfl
  | cons e d ih =>
    obtain ⟨k0, r0⟩ := e
    simp only [List.map_cons, List.mem_cons, not_or] at h
    have h0 : k0 ≠ k := fun hk => h.1 hk.symm
    simp only [dset, if_neg h0, List.cons_append]
    rw [ih h.2]

theorem mem_dset (d : Dict) (k : String) (v : Row) (e : String × Row)
    (h : e ∈ dset d k v) : e ∈ d ∨ e = (k, v) := by
  induction d with
  | nil =>
    simp only [dset] at h
    right
    simpa using h
  | cons f d ih =>
    obtain ⟨k0, r0⟩ := f
    by_cases h0 : k0 = k
    · simp only [dset, if_pos h0] at h
      rcases List.mem_cons.mp h with h1 | h1
      · right; exact h1
      · left; exact List.mem_cons_of_mem _ h1
    · simp only [dset, if_neg h0] at h
      rcases List.mem_cons.mp h with h1 | h1
      · left; exact h1 ▸ List.mem_cons_self _ _
      · rcases ih h1 with h2 | h2
        · left; exact List.mem_cons_of_mem _ h2
        · right; exact h2

theorem mem_derase (d : Dict) (k : String) (e : String × Row)
    (h : e ∈ derase d k) : e ∈ d := by
  induction d with
  | nil => simp [derase] at h
  | cons f d ih =>
    obtain ⟨k0, r0⟩ := f
    by_cases h0 : k0 = k
    · simp only [derase, if_pos h0] at h
      exact List.mem_cons_of_mem _ h
    · simp only [derase, if_neg h0] at h
      rcases List.mem_cons.mp h with h1 | h1
      · exact h1 ▸ List.mem_cons_self _ _
      · exact List.mem_cons_of_mem _ (ih h1)

theorem dfind_isSome_iff_mem (d : Dict) (k : String) :
    (dfind d k).isSome = true ↔ k ∈ d.map Prod.fst := by
  induction d with
  | nil => simp [dfind]
  | cons e d ih =>
    obtain ⟨k0, r0⟩ := e
    by_cases h0 : k0 = k
    · simp [dfind, h0]
    · have hne : ¬ k = k0 := fun hk => h0 hk.symm
      simp [dfind, h0, hne, ih]

theorem dfind_mem (d : Dict) (k : String) (r : Row) (h : dfind d k = some r) :
    (k, r) ∈ d := by
  induction d with
  | nil => simp [dfind] at h
  | cons e d ih =>
    obtain ⟨k0, r0⟩ := e
    by_cases h0 : k0 = k
    · subst h0
      simp [dfind] at h
      subst h
      exact List.mem_cons_self _ _
    · simp only [dfind, if_neg h0] at h
      exact List.mem_cons_of_mem _ (ih h)

/-! ## Claims -/

/-- C2: blank is an identity for the Value Merge Policy: for every valid mode
    and every cell `b`, `mergedValue blank b mode = b` (even when `b` is
    itself blank); and for every non-blank `a`, `mergedValue a blank mode
    = a`. -/
theorem C2_mergedValue_blank_identity (m : String) (a b : Cell) (hm : validMode m) :
    (isBlank a = true → mergedValue a b m = .ok b) ∧
    (isBlank a = false → isBlank b = true → mergedValue a b m = .ok a) := by
  have hm' : pyLower m ∈ mergeModes := hm
  constructor
  · intro ha
    unfold mergedValue
    simp [hm', ha]
  · intro ha hb
    unfold mergedValue
    simp only [mergeModes, List.mem_cons, List.not_mem_nil, or_false] at hm'
    rcases hm' with h | h | h | h <;>
      simp [mergeModes, h, ha, hb]

/-- Witness for C2 at mode `"append"`, `a = blank`, `b = "x"`. -/
theorem C2_witness :
    validMode "append" ∧
    ((isBlank (Cell.str "") = true → mergedValue (Cell.str "") (Cell.str "x") "append" = .ok (Cell.str "x")) ∧
     (isBlank (Cell.str "") = false → isBlank (Cell.str "x") = true →
       mergedValue (Cell.str "") (Cell.str "x") "append" = .ok (Cell.str ""))) :=
  ⟨by decide, C2_mergedValue_blank_identity "append" (Cell.str "") (Cell.str "x") (by decide)⟩

/-- C10: for two non-blank string cells neither of which coerces to a number,
    `mergedValue a b "add"` is the separator-free string concatenation of `a`
    and `b` (the numeric coercions fall back to the strings and Python `+`
    concatenates them). -/
theorem C10_add_concatenates_strings (a b : String) (ha : a ≠ "") (hb : b ≠ "")
    (hna : tryNumber (Cell.str a) = Cell.str a) (hnb : tryNumber (Cell.str b) = Cell.str b) :
    mergedValue (Cell.str a) (Cell.str b) "add" = .ok (Cell.str (a ++ b)) := by
  have hmode : pyLower "add" = "add" := by decide
  unfold mergedValue
  rw [hmode]
  simp [mergeModes, isBlank, ha, hb, hna, hnb, pyAdd]

/-- Witness for C10 at `a = "abc"`, `b = "xy"`. -/
theorem C10_witness :
    "abc" ≠ "" ∧ "xy" ≠ "" ∧ tryNumber (Cell.str "abc") = Cell.str "abc" ∧
    tryNumber (Cell.str "xy") = Cell.str "xy" ∧
    mergedValue (Cell.str "abc") (Cell.str "xy") "add" = .ok (Cell.str "abcxy") :=
  ⟨by decide, by decide, by decide, by decide,
    C10_add_concatenates_strings "abc" "xy" (by decide) (by decide) (by decide) (by decide)⟩

/-- C6 counterexample: inserting the ordinary (non-lock-prefixed) name
    `"Note"` at index 1 into the spec's own scenario table stores the
    lock-prefixed header `"__Note"`, not the user-visible `"Note"` the claim
    requires. -/
theorem C6_counterexample :
    insertColumn ⟨[(HEADERS_ID, [.str "ID", .str "H1"]),
                   ("1", [.str "1", .str "a"]), ("2", [.str "2", .str "b"])], 0⟩
        "Note" (some 1) =
      .ok ⟨[(HEADERS_ID, [.str "ID", .str "__Note", .str "H1"]),
            ("1", [.str "1", .str "", .str "a"]), ("2", [.str "2", .str "", .str "b"])], 0⟩ ∧
    Cell.str "__Note" ≠ Cell.str "Note" :=
  ⟨rfl, by decide⟩

/-- C6 (amended): for a column name that does not already exist under
    normalisation and a valid explicit index, `insertColumn` succeeds; a
    lock-prefixed name (after stripping) is inserted verbatim, while an
    ordinary name is inserted with the lock prefix prepended to its stripped
    form — the inserted header cell is always lock-prefixed.  Every other row
    gains a blank at the index and `idColumn` shifts when the insertion is at
    or before it. -/
theorem insertColumnAt_find (p : Pysheet) (header : String) (i : Nat) (k : String) :
    dfind (insertColumnAt p header i).rows k =
      (dfind p.rows k).map (fun row =>
        if k = HEADERS_ID then
          pyInsert row i
            (.str (if startsUU (pyStrip header) then header else "__" ++ pyStrip header))
        else pyInsert row i BLANK) :=
  dfind_mapVal (fun k row =>
    if k = HEADERS_ID then
      pyInsert row i
        (.str (if startsUU (pyStrip header) then header else "__" ++ pyStrip header))
    else pyInsert row i BLANK) p.rows k

theorem C6_insertColumn_prefixes (p : Pysheet) (header : String) (i : Nat)
    (habs : ¬ ((⟨removeUU (pyLower header).data⟩ : String) ∈ (getHeaders p).map lowerRep))
    (hle : i ≤ hlen p) (hh : HasHeader p) :
    ∃ q, insertColumn p header (some i) = .ok q ∧
      getHeaders q = pyInsert (getHeaders p) i
        (.str (if startsUU (pyStrip header) then header else "__" ++ pyStrip header)) ∧
      (∀ k, k ≠ HEADERS_ID →
        dfind q.rows k = (dfind p.rows k).map (fun row => pyInsert row i BLANK)) ∧
      q.idColumn = (if i ≤ p.idColumn then p.idColumn + 1 else p.idColumn) := by
  refine ⟨insertColumnAt p header i, ?_, ?_, ?_, ?_⟩
  · unfold insertColumn
    rw [if_neg habs]
    show (if i ≤ hlen p then Except.ok (insertColumnAt p header i)
          else Except.error PErr.assertError) = Except.ok (insertColumnAt p header i)
    rw [if_pos hle]
  · show (dfind (insertColumnAt p header i).rows HEADERS_ID).getD [] = _
    rw [insertColumnAt_find]
    obtain ⟨hs, hhs⟩ := Option.isSome_iff_exists.mp hh
    unfold getHeaders
    rw [hhs]
    simp
  · intro k hk
    rw [insertColumnAt_find]
    cases dfind p.rows k <;> simp [hk]
  · rfl

/-- Witness for C6 (amended) on the scenario table with name `"Note"` at
    index 1. -/
theorem C6_witness :
    ∃ q, insertColumn ⟨[(HEADERS_ID, [.str "ID", .str "H1"]),
                   ("1", [.str "1", .str "a"]), ("2", [.str "2", .str "b"])], 0⟩
        "Note" (some 1) = .ok q ∧
      getHeaders q = pyInsert [Cell.str "ID", Cell.str "H1"] 1
        (.str (if startsUU (pyStrip "Note") then "Note" else "__" ++ pyStrip "Note")) ∧
      (∀ k, k ≠ HEADERS_ID →
        dfind q.rows k = (dfind ([(HEADERS_ID, [Cell.str "ID", Cell.str "H1"]),
                   ("1", [Cell.str "1", Cell.str "a"]),
                   ("2", [Cell.str "2", Cell.str "b"])] : Dict) k).map
          (fun row => pyInsert row 1 BLANK)) ∧
      q.idColumn = (if 1 ≤ 0 then 0 + 1 else 0) :=
  C6_insertColumn_prefixes ⟨[(HEADERS_ID, [.str "ID", .str "H1"]),
      ("1", [.str "1", .str "a"]), ("2", [.str "2", .str "b"])], 0⟩ "Note" 1
    (by decide) (by decide) (by decide)

/-- C7 counterexample: `removeCell` with the header-sentinel key and no
    header deletes the header row itself — nothing disallows it, refuting
    the claim that the header row survives every delete call. -/
theorem C7_counterexample :
    (removeCell ⟨[(HEADERS_ID, [.str "ID"]), ("1", [.str "1"])], 0⟩ "__header__" none).2 =
      ⟨[("1", [Cell.str "1"])], 0⟩ ∧
    dfind (removeCell ⟨[(HEADERS_ID, [.str "ID"]), ("1", [.str "1"])], 0⟩
        "__header__" none).2.rows HEADERS_ID = none :=
  ⟨rfl, rfl⟩

/-- C7 (amended): the row-delete (`removeCell` with a key and no header) is a
    silent no-op returning an empty result when the cleaned key is absent;
    but deleting the header-sentinel row is not disallowed: called with a key
    cleaning to the sentinel it removes and returns the header row. -/
theorem C7_removeCell_row_delete (p : Pysheet) (k : String) :
    (dfind p.rows (clean k) = none → removeCell p k none = (.nothing, p)) ∧
    (∀ hs, clean k = HEADERS_ID → dfind p.rows HEADERS_ID = some hs →
      removeCell p k none = (.row hs, ⟨derase p.rows HEADERS_ID, p.idColumn⟩)) := by
  constructor
  · intro habs
    unfold removeCell
    rw [habs]
  · intro hs hk hfind
    unfold removeCell
    rw [hk, hfind]


/-- Witness for C7 (amended): absent key `"zz"` is a no-op; the sentinel key
    deletes the header row. -/
theorem C7_witness :
    removeCell ⟨[(HEADERS_ID, [.str "ID"]), ("1", [.str "1"])], 0⟩ "zz" none =
      (.nothing, ⟨[(HEADERS_ID, [.str "ID"]), ("1", [.str "1"])], 0⟩) ∧
    removeCell ⟨[(HEADERS_ID, [.str "ID"]), ("1", [.str "1"])], 0⟩ "__header__" none =
      (.row [Cell.str "ID"],
       ⟨derase ([(HEADERS_ID, [Cell.str "ID"]), ("1", [Cell.str "1"])] : Dict) HEADERS_ID, 0⟩) :=
  ⟨(C7_removeCell_row_delete ⟨[(HEADERS_ID, [.str "ID"]), ("1", [.str "1"])], 0⟩ "zz").1 rfl,
   (C7_removeCell_row_delete ⟨[(HEADERS_ID, [.str "ID"]), ("1", [.str "1"])], 0⟩ "__header__").2
     [Cell.str "ID"] rfl rfl⟩

/-! ### Parser claims: supporting lemmas -/

theorem splitFirstAux_append_ne (sep x : Char) (hx : x ≠ sep) (l : List Char) :
    splitFirstAux sep (l ++ [x]) =
      (splitFirstAux sep l).map (fun p => (p.1, p.2 ++ [x])) := by
  induction l with
  | nil => simp [splitFirstAux, hx]
  | cons c l ih =>
    by_cases hc : c = sep
    · simp [splitFirstAux, hc]
    · cases hsp : splitFirstAux sep l <;>
        simp [splitFirstAux, hc, ih, hsp]

theorem splitFirstAux_concat_self (sep : Char) (l : List Char) (hne : sep ∉ l) :
    splitFirstAux sep (l ++ [sep]) = some (l, []) := by
  induction l with
  | nil => simp [splitFirstAux]
  | cons c l ih =>
    simp only [List.mem_cons, not_or] at hne
    have hc : ¬ (c = sep) := fun h => hne.1 h.symm
    simp [splitFirstAux, hc, ih hne.2]

theorem distinctOps_concat (colData : List Char) (opc : Char) (hop : opc ∈ opChars)
    (hcol : ∀ ch ∈ colData, ch ∉ opChars) :
    distinctOps (String.mk (colData ++ [opc])) = [opc] := by
  unfold distinctOps strContainsChar
  have key : ∀ ch ∈ opChars,
      (decide (ch ∈ (String.mk (colData ++ [opc])).data)) = (decide (ch = opc)) := by
    intro ch hch
    show (decide (ch ∈ colData ++ [opc])) = decide (ch = opc)
    by_cases h : ch = opc
    · subst h; simp
    · have h1 : ch ∉ colData ++ [opc] := by
        intro hm
        rcases List.mem_append.mp hm with h2 | h2
        · exact (hcol ch h2) hch
        · exact h (by simpa using h2)
      simp [h1, h]
  rw [List.filter_congr key]
  fin_cases hop <;> rfl

theorem parseColumns_single_ok (p : Pysheet) (c : String)
    (t : List Nat × List String × List Cell)
    (hA : c ≠ "ALL") (htok : parseToken p c = some t) :
    parseColumns p [c] = .ok t := by
  obtain ⟨is, ops, args⟩ := t
  unfold parseColumns
  have h2 : ¬ (("ALL" : String) ∈ [c]) := by
    simp only [List.mem_singleton]
    exact fun h => hA h.symm
  simp only [List.isEmpty_cons, Bool.false_eq_true, if_false, h2, if_neg]
  unfold parseFold
  rw [htok]
  simp [parseFold]

theorem parseColumns_single_err (p : Pysheet) (c : String)
    (hA : c ≠ "ALL") (htok : parseToken p c = none) :
    parseColumns p [c] = .error (.columnUnparseable c) := by
  unfold parseColumns
  have h2 : ¬ (("ALL" : String) ∈ [c]) := by
    simp only [List.mem_singleton]
    exact fun h => hA h.symm
  simp only [List.isEmpty_cons, Bool.false_eq_true, if_false, h2, if_neg]
  unfold parseFold
  rw [htok]

/-- C5 counterexample: the token `"Age<20<30"` contains two occurrences of
    the operator character `<` (and no other operator character), yet
    `parseColumns` accepts it as an operator expression, splitting at the
    first occurrence — the claim's exactly-one-occurrence condition would
    reject it. -/
theorem C5_counterexample :
    parseColumns ⟨[(HEADERS_ID, [.str "ID", .str "Age"])], 0⟩ ["Age<20<30"] =
      .ok ([1], ["<"], [.str "20<30"]) ∧
    ("Age<20<30".data.count '<') = 2 :=
  ⟨rfl, rfl⟩

/-- C5 (amended): for a token that is neither `ALL`, nor a header/index
    match, nor a numeric range, `parseColumns` accepts it as an operator
    expression iff exactly one distinct operator character occurs in it (any
    positive number of times — the split is at the first occurrence), the
    argument part is non-empty, and the column part resolves through
    `headerIndex`; a token with no operator characters, or with two or more
    distinct ones, fails the whole spec with the invalid-column error. -/
theorem C5_operator_token_criterion (p : Pysheet) (c : String) (hA : c ≠ "ALL")
    (hh : headerIndex p c < 0) (hr : rangeAdd p c = none) :
    (distinctOps c = [] → parseColumns p [c] = .error (.columnUnparseable c)) ∧
    (2 ≤ (distinctOps c).length → parseColumns p [c] = .error (.columnUnparseable c)) ∧
    (∀ op col arg, distinctOps c = [op] → splitFirst c op = some (col, arg) →
      ((arg ≠ "" ∧ 0 ≤ headerIndex p col) →
        parseColumns p [c] =
          .ok ([(headerIndex p col).toNat], [String.mk [op]], [tryNumber (.str arg)])) ∧
      ((arg = "" ∨ headerIndex p col < 0) →
        parseColumns p [c] = .error (.columnUnparseable c))) := by
  have hbase : ∀ t, opAdd p c = t → parseToken p c = t := by
    intro t hop
    unfold parseToken
    rw [if_neg (not_le.mpr hh), hr]
    exact hop
  refine ⟨?_, ?_, ?_⟩
  · intro hd
    apply parseColumns_single_err p c hA
    apply hbase
    unfold opAdd
    rw [hd]
  · intro hlen2
    apply parseColumns_single_err p c hA
    apply hbase
    unfold opAdd
    rcases hd : distinctOps c with _ | ⟨x, rest2⟩
    · rfl
    · rcases rest2 with _ | ⟨y, rest3⟩
      · rw [hd] at hlen2; simp at hlen2
      · rfl
  · intro op col arg hd hsplit
    constructor
    · rintro ⟨harg, hcol⟩
      apply parseColumns_single_ok p c _ hA
      apply hbase
      unfold opAdd
      simp only [hd, hsplit]
      rw [if_pos harg]
      show (if 0 ≤ headerIndex p col then _ else none) = _
      rw [if_pos hcol]
    · intro hfail
      apply parseColumns_single_err p c hA
      apply hbase
      unfold opAdd
      simp only [hd, hsplit]
      rcases hfail with hfail | hfail
      · rw [if_neg (by simp [hfail])]
      · by_cases hemp : arg = ""
        · rw [if_neg (by simp [hemp])]
        · rw [if_pos hemp]
          show (if 0 ≤ headerIndex p col then _ else none) = _
          rw [if_neg (not_le.mpr hfail)]

/-- Witness for C5 (amended) on a sheet with header `Age`: the two-operator
    token `"Age<1>2"` is rejected, and the single-operator token criterion is
    exercised through the inner clauses. -/
theorem C5_witness :
    (distinctOps "Age<1>2" = [] →
      parseColumns ⟨[(HEADERS_ID, [.str "ID", .str "Age"])], 0⟩ ["Age<1>2"] =
        .error (.columnUnparseable "Age<1>2")) ∧
    (2 ≤ (distinctOps "Age<1>2").length →
      parseColumns ⟨[(HEADERS_ID, [.str "ID", .str "Age"])], 0⟩ ["Age<1>2"] =
        .error (.columnUnparseable "Age<1>2")) ∧
    (∀ op col arg, distinctOps "Age<1>2" = [op] →
      splitFirst "Age<1>2" op = some (col, arg) →
      ((arg ≠ "" ∧ 0 ≤ headerIndex ⟨[(HEADERS_ID, [.str "ID", .str "Age"])], 0⟩ col) →
        parseColumns ⟨[(HEADERS_ID, [.str "ID", .str "Age"])], 0⟩ ["Age<1>2"] =
          .ok ([(headerIndex ⟨[(HEADERS_ID, [.str "ID", .str "Age"])], 0⟩ col).toNat],
               [String.mk [op]], [tryNumber (.str arg)])) ∧
      ((arg = "" ∨ headerIndex ⟨[(HEADERS_ID, [.str "ID", .str "Age"])], 0⟩ col < 0) →
        parseColumns ⟨[(HEADERS_ID, [.str "ID", .str "Age"])], 0⟩ ["Age<1>2"] =
          .error (.columnUnparseable "Age<1>2"))) :=
  C5_operator_token_criterion ⟨[(HEADERS_ID, [.str "ID", .str "Age"])], 0⟩ "Age<1>2"
    (by decide) (by decide) (by decide)

/-- C9: a column-spec token consisting of a resolvable column reference
    followed by exactly one operator character and an empty argument (for
    example `"Age>"`) is unparseable: `parseColumns` raises the
    invalid-column error naming that token, because an operator expression
    is only accepted when the argument after the split is non-empty. -/
theorem C9_operator_empty_argument (p : Pysheet) (colData : List Char) (opc : Char)
    (hop : opc ∈ opChars) (hcol : ∀ ch ∈ colData, ch ∉ opChars)
    (_hres : 0 ≤ headerIndex p (String.mk colData))
    (hh : headerIndex p (String.mk (colData ++ [opc])) < 0) :
    parseColumns p [String.mk (colData ++ [opc])] =
      .error (.columnUnparseable (String.mk (colData ++ [opc]))) := by
  have hopL : opc ≠ 'L' ∧ opc ≠ '-' ∧ opc.isDigit = false := by
    simp only [opChars, List.mem_cons, List.not_mem_nil, or_false] at hop
    rcases hop with h | h | h | h | h | h <;> subst h <;> refine ⟨by decide, by decide, by decide⟩
  have hA : String.mk (colData ++ [opc]) ≠ "ALL" := by
    intro h
    have hd : colData ++ [opc] = ['A', 'L', 'L'] := congrArg String.data h
    have h1 : (colData ++ [opc]).getLast? = some opc := List.getLast?_concat _
    rw [hd] at h1
    simp at h1
    exact hopL.1 h1.symm
  have hops : distinctOps (String.mk (colData ++ [opc])) = [opc] :=
    distinctOps_concat colData opc hop hcol
  have hnotmem : opc ∉ colData := fun hm => (hcol opc hm) hop
  have hsplit : splitFirst (String.mk (colData ++ [opc])) opc = some (String.mk colData, "") := by
    unfold splitFirst
    rw [show (String.mk (colData ++ [opc])).data = colData ++ [opc] from rfl,
        splitFirstAux_concat_self opc colData hnotmem]
    rfl
  have hrange : rangeAdd p (String.mk (colData ++ [opc])) = none := by
    unfold rangeAdd splitFirst
    rw [show (String.mk (colData ++ [opc])).data = colData ++ [opc] from rfl,
        splitFirstAux_append_ne '-' opc hopL.2.1 colData]
    cases hsp : splitFirstAux '-' colData with
    | none => rfl
    | some pr =>
      obtain ⟨a, b⟩ := pr
      have hdig : pyIsDigit (⟨b ++ [opc]⟩ : String) = false := by
        unfold pyIsDigit
        have hall : (b ++ [opc]).all Char.isDigit = false := by
          rw [List.all_append]
          simp [hopL.2.2]
        rw [show ((⟨b ++ [opc]⟩ : String)).data = b ++ [opc] from rfl, hall]
        simp
      have hne : (⟨b ++ [opc]⟩ : String) ≠ "" := by
        intro h
        have := congrArg String.data h
        simp at this
      by_cases hfd : pyIsDigit (⟨a⟩ : String) = true <;>
        simp [hfd, hdig, hne]
  have htok : parseToken p (String.mk (colData ++ [opc])) = none := by
    unfold parseToken
    rw [if_neg (not_le.mpr hh)]
    simp only [hrange]
    unfold opAdd
    simp only [hops, hsplit]
    simp
  exact parseColumns_single_err p _ hA htok

/-- Witness for C9 at the sheet with header `Age` and token `"Age>"`. -/
theorem C9_witness :
    parseColumns ⟨[(HEADERS_ID, [.str "ID", .str "Age"])], 0⟩
        [String.mk (['A', 'g', 'e'] ++ ['>'])] =
      .error (.columnUnparseable (String.mk (['A', 'g', 'e'] ++ ['>']))) :=
  C9_operator_empty_argument ⟨[(HEADERS_ID, [.str "ID", .str "Age"])], 0⟩
    ['A', 'g', 'e'] '>' (by decide) (by decide) (by decide) (by decide)

/-! ### C1: supporting lemmas on `combine` -/

theorem derase_sublist (d : Dict) (k : String) : (derase d k).Sublist d := by
  induction d with
  | nil => simp [derase]
  | cons e d ih =>
    obtain ⟨k0, r0⟩ := e
    by_cases h0 : k0 = k
    · simp only [derase, if_pos h0]
      exact List.sublist_cons_self _ _
    · simp only [derase, if_neg h0]
      exact List.Sublist.cons₂ _ ih

theorem keysNodup_derase (d : Dict) (k : String) (h : KeysNodup d) :
    KeysNodup (derase d k) :=
  ((derase_sublist d k).map Prod.fst).nodup h

/-- Unfolding equations for `combineLoop1` on a cons cell, one per branch of
    the pop, with the recursive triple accessed through projections. -/
theorem combineLoop1_cons_none (k0 : String) (r0 : Row) (rest b : Dict) (m : Bool)
    (h : dfind b (clean k0) = none) :
    combineLoop1 ((k0, r0) :: rest) b m =
      ((k0, r0) :: (combineLoop1 rest (derase b (clean k0)) m).1,
       (combineLoop1 rest (derase b (clean k0)) m).2.1,
       (combineLoop1 rest (derase b (clean k0)) m).2.2) := by
  simp only [combineLoop1, h]

theorem combineLoop1_cons_merge (k0 : String) (r0 : Row) (rest b : Dict) (m : Bool) (r : Row)
    (h : dfind b (clean k0) = some r) (hlen : 0 < r.length) :
    combineLoop1 ((k0, r0) :: rest) b m =
      ((k0, r0 ++ r) :: (combineLoop1 rest (derase b (clean k0)) true).1,
       (combineLoop1 rest (derase b (clean k0)) true).2.1,
       (combineLoop1 rest (derase b (clean k0)) true).2.2) := by
  simp only [combineLoop1, h, if_pos hlen]

theorem combineLoop1_cons_empty (k0 : String) (r0 : Row) (rest b : Dict) (m : Bool) (r : Row)
    (h : dfind b (clean k0) = some r) (hlen : ¬ 0 < r.length) :
    combineLoop1 ((k0, r0) :: rest) b m =
      ((k0, r0) :: (combineLoop1 rest (derase b (clean k0)) m).1,
       (combineLoop1 rest (derase b (clean k0)) m).2.1,
       (combineLoop1 rest (derase b (clean k0)) m).2.2) := by
  simp only [combineLoop1, h, if_neg hlen]

/-- Row-shape of the first merge phase: every resulting row of A is either
    A's row unchanged or A's row with one of B's rows appended. -/
theorem combineLoop1_lengths (wA wB : Nat) (a : Dict) :
    ∀ (b : Dict) (m : Bool), (∀ e ∈ a, e.2.length = wA) → (∀ e ∈ b, e.2.length = wB) →
    ∀ e ∈ (combineLoop1 a b m).1, e.2.length = wA ∨ e.2.length = wA + wB := by
  induction a with
  | nil => intro b m _ _ e he; simp [combineLoop1] at he
  | cons e0 rest ih =>
    intro b m ha hb e he
    obtain ⟨k0, r0⟩ := e0
    have hrest : ∀ e1 ∈ rest, e1.2.length = wA :=
      fun e1 he1 => ha e1 (List.mem_cons_of_mem _ he1)
    have hbd : ∀ e1 ∈ derase b (clean k0), e1.2.length = wB :=
      fun e1 he1 => hb e1 (mem_derase _ _ _ he1)
    rcases hitem : dfind b (clean k0) with _ | r
    · rw [combineLoop1_cons_none k0 r0 rest b m hitem] at he
      rcases List.mem_cons.mp he with h1 | h1
      · left; rw [h1]; exact ha (k0, r0) (List.mem_cons_self _ _)
      · exact ih (derase b (clean k0)) m hrest hbd e h1
    · have hrB : r.length = wB := hb (clean k0, r) (dfind_mem _ _ _ hitem)
      by_cases hlen : 0 < r.length
      · rw [combineLoop1_cons_merge k0 r0 rest b m r hitem hlen] at he
        rcases List.mem_cons.mp he with h1 | h1
        · right; rw [h1]
          simp [ha (k0, r0) (List.mem_cons_self _ _), hrB]
        · exact ih (derase b (clean k0)) true hrest hbd e h1
      · rw [combineLoop1_cons_empty k0 r0 rest b m r hitem hlen] at he
        rcases List.mem_cons.mp he with h1 | h1
        · left; rw [h1]; exact ha (k0, r0) (List.mem_cons_self _ _)
        · exact ih (derase b (clean k0)) m hrest hbd e h1

/-- Lookup in the first phase's A-side result. -/
theorem combineLoop1_find (a : Dict) :
    ∀ (b : Dict) (m : Bool) (k : String), KeysNodup a → KeysClean a →
    dfind (combineLoop1 a b m).1 k =
      (dfind a k).map (fun ra =>
        match dfind b k with
        | some rb => if 0 < rb.length then ra ++ rb else ra
        | none => ra) := by
  induction a with
  | nil => intro b m k _ _; simp [combineLoop1, dfind]
  | cons e0 rest ih =>
    intro b m k hnd hcl
    obtain ⟨k0, r0⟩ := e0
    have hclk0 : clean k0 = k0 := hcl (k0, r0) (List.mem_cons_self _ _)
    have hnd1 : KeysNodup rest := by
      simpa [KeysNodup] using (List.nodup_cons.mp hnd).2
    have hcl1 : KeysClean rest := fun e he => hcl e (List.mem_cons_of_mem _ he)
    by_cases hk : k0 = k
    · subst hk
      rcases hitem : dfind b (clean k0) with _ | r
      · rw [combineLoop1_cons_none k0 r0 rest b m hitem]
        rw [hclk0] at hitem
        simp [dfind, hitem]
      · rw [hclk0] at hitem
        by_cases hlen : 0 < r.length
        · rw [combineLoop1_cons_merge k0 r0 rest b m r (by rw [hclk0]; exact hitem) hlen]
          simp [dfind, hitem, hlen]
        · rw [combineLoop1_cons_empty k0 r0 rest b m r (by rw [hclk0]; exact hitem) hlen]
          simp [dfind, hitem, hlen]
    · have hck : clean k0 ≠ k := by rw [hclk0]; exact hk
      have tailgoal : ∀ m1 : Bool,
          dfind (combineLoop1 rest (derase b (clean k0)) m1).1 k =
            (dfind rest k).map (fun ra =>
              match dfind b k with
              | some rb => if 0 < rb.length then ra ++ rb else ra
              | none => ra) := by
        intro m1
        rw [ih (derase b (clean k0)) m1 k hnd1 hcl1]
        simp only [dfind_derase_ne b (clean k0) k hck]
      rcases hitem : dfind b (clean k0) with _ | r
      · rw [combineLoop1_cons_none k0 r0 rest b m hitem]
        simp only [dfind, if_neg hk]
        exact tailgoal m
      · by_cases hlen : 0 < r.length
        · rw [combineLoop1_cons_merge k0 r0 rest b m r hitem hlen]
          simp only [dfind, if_neg hk]
          exact tailgoal true
        · rw [combineLoop1_cons_empty k0 r0 rest b m r hitem hlen]
          simp only [dfind, if_neg hk]
          exact tailgoal m

/-- Lookup in the first phase's B-side leftover. -/
theorem combineLoop1_b_find (a : Dict) :
    ∀ (b : Dict) (m : Bool) (k : String), KeysClean a → KeysNodup b →
    dfind (combineLoop1 a b m).2.1 k =
      if k ∈ a.map Prod.fst then none else dfind b k := by
  induction a with
  | nil => intro b m k _ _; simp [combineLoop1]
  | cons e0 rest ih =>
    intro b m k hcl hndb
    obtain ⟨k0, r0⟩ := e0
    have hclk0 : clean k0 = k0 := hcl (k0, r0) (List.mem_cons_self _ _)
    have hcl1 : KeysClean rest := fun e he => hcl e (List.mem_cons_of_mem _ he)
    have final : ∀ m1 : Bool,
        dfind (combineLoop1 rest (derase b (clean k0)) m1).2.1 k =
          if k ∈ ((k0, r0) :: rest).map Prod.fst then none else dfind b k := by
      intro m1
      rw [ih (derase b (clean k0)) m1 k hcl1 (keysNodup_derase _ _ hndb)]
      by_cases h2 : k ∈ rest.map Prod.fst
      · simp [h2]
      · by_cases h1 : k = k0
        · subst h1
          rw [if_neg h2, hclk0, dfind_derase_self b k hndb]
          simp
        · rw [if_neg h2, dfind_derase_ne _ _ _ (by rw [hclk0]; exact fun h => h1 h.symm)]
          simp [h1, h2]
    rcases hitem : dfind b (clean k0) with _ | r
    · rw [combineLoop1_cons_none k0 r0 rest b m hitem]
      exact final m
    · by_cases hlen : 0 < r.length
      · rw [combineLoop1_cons_merge k0 r0 rest b m r hitem hlen]
        exact final true
      · rw [combineLoop1_cons_empty k0 r0 rest b m r hitem hlen]
        exact final m

/-- Membership in the first phase's leftover B. -/
theorem combineLoop1_b_mem (a : Dict) :
    ∀ (b : Dict) (m : Bool) (e : String × Row), e ∈ (combineLoop1 a b m).2.1 → e ∈ b := by
  induction a with
  | nil => intro b m e he; simpa [combineLoop1] using he
  | cons e0 rest ih =>
    intro b m e he
    obtain ⟨k0, r0⟩ := e0
    rcases hitem : dfind b (clean k0) with _ | r
    · rw [combineLoop1_cons_none k0 r0 rest b m hitem] at he
      exact mem_derase _ _ _ (ih (derase b (clean k0)) m e he)
    · by_cases hlen : 0 < r.length
      · rw [combineLoop1_cons_merge k0 r0 rest b m r hitem hlen] at he
        exact mem_derase _ _ _ (ih (derase b (clean k0)) true e he)
      · rw [combineLoop1_cons_empty k0 r0 rest b m r hitem hlen] at he
        exact mem_derase _ _ _ (ih (derase b (clean k0)) m e he)

theorem combineLoop2_cons (oldlen : Nat) (a : Dict) (k0 : String) (r0 : Row) (rest : Dict) :
    combineLoop2 oldlen a ((k0, r0) :: rest) =
      combineLoop2 oldlen (dset a (clean k0) (List.replicate oldlen BLANK ++ r0)) rest := rfl

/-- Lookup after the second phase, key not among the leftover B rows. -/
theorem combineLoop2_find_not (b : Dict) :
    ∀ (a : Dict) (oldlen : Nat) (k : String), KeysClean b →
    dfind b k = none → dfind (combineLoop2 oldlen a b) k = dfind a k := by
  induction b with
  | nil => intro a oldlen k _ _; rfl
  | cons e0 rest ih =>
    intro a oldlen k hcl hnone
    obtain ⟨k0, r0⟩ := e0
    have hclk0 : clean k0 = k0 := hcl (k0, r0) (List.mem_cons_self _ _)
    have hk : ¬ (k0 = k) := by
      intro h
      simp [dfind, h] at hnone
    simp only [dfind, if_neg hk] at hnone
    rw [combineLoop2_cons,
        ih _ oldlen k (fun e he => hcl e (List.mem_cons_of_mem _ he)) hnone,
        hclk0, dfind_dset, if_neg hk]

/-- Lookup after the second phase, key among the leftover B rows. -/
theorem combineLoop2_find_mem (b : Dict) :
    ∀ (a : Dict) (oldlen : Nat) (k : String) (rb : Row), KeysClean b → KeysNodup b →
    dfind b k = some rb →
    dfind (combineLoop2 oldlen a b) k = some (List.replicate oldlen BLANK ++ rb) := by
  induction b with
  | nil => intro a oldlen k rb _ _ h; simp [dfind] at h
  | cons e0 rest ih =>
    intro a oldlen k rb hcl hnd hfind
    obtain ⟨k0, r0⟩ := e0
    have hclk0 : clean k0 = k0 := hcl (k0, r0) (List.mem_cons_self _ _)
    have hcl1 : KeysClean rest := fun e he => hcl e (List.mem_cons_of_mem _ he)
    have hnd1 : KeysNodup rest := by
      simpa [KeysNodup] using (List.nodup_cons.mp hnd).2
    by_cases hk : k0 = k
    · subst hk
      simp [dfind] at hfind
      subst hfind
      have hrest : dfind rest k0 = none :=
        dfind_eq_none_of_not_mem rest k0 (List.nodup_cons.mp hnd).1
      rw [combineLoop2_cons, combineLoop2_find_not rest _ oldlen k0 hcl1 hrest,
          hclk0, dfind_dset, if_pos rfl]
    · simp only [dfind, if_neg hk] at hfind
      rw [combineLoop2_cons]
      exact ih _ oldlen k rb hcl1 hnd1 hfind

/-- Membership after the second phase. -/
theorem combineLoop2_mem (b : Dict) :
    ∀ (a : Dict) (oldlen : Nat) (e : String × Row), e ∈ combineLoop2 oldlen a b →
    e ∈ a ∨ ∃ eb ∈ b, e.2 = List.replicate oldlen BLANK ++ eb.2 := by
  induction b with
  | nil => intro a oldlen e he; exact Or.inl he
  | cons e0 rest ih =>
    intro a oldlen e he
    obtain ⟨k0, r0⟩ := e0
    rw [combineLoop2_cons] at he
    rcases ih _ oldlen e he with h1 | h1
    · rcases mem_dset _ _ _ _ h1 with h2 | h2
      · exact Or.inl h2
      · right
        exact ⟨(k0, r0), List.mem_cons_self _ _, by rw [h2]⟩
    · right
      obtain ⟨eb, hmem, hlen⟩ := h1
      exact ⟨eb, List.mem_cons_of_mem _ hmem, hlen⟩

theorem combineLoop1_b_sublist (a : Dict) :
    ∀ (b : Dict) (m : Bool), ((combineLoop1 a b m).2.1).Sublist b := by
  induction a with
  | nil => intro b m; simp [combineLoop1]
  | cons e0 rest ih =>
    intro b m
    obtain ⟨k0, r0⟩ := e0
    rcases hitem : dfind b (clean k0) with _ | r
    · rw [combineLoop1_cons_none k0 r0 rest b m hitem]
      exact (ih (derase b (clean k0)) m).trans (derase_sublist b (clean k0))
    · by_cases hlen : 0 < r.length
      · rw [combineLoop1_cons_merge k0 r0 rest b m r hitem hlen]
        exact (ih (derase b (clean k0)) true).trans (derase_sublist b (clean k0))
      · rw [combineLoop1_cons_empty k0 r0 rest b m r hitem hlen]
        exact (ih (derase b (clean k0)) m).trans (derase_sublist b (clean k0))

theorem hlen_mk (d : Dict) (i : Nat) :
    hlen ⟨d, i⟩ = ((dfind d HEADERS_ID).getD []).length := rfl

/-- `expand` succeeds and pads every row when all rows fit under the header
    length. -/
theorem expand_ok (p : Pysheet) (w : Nat) (hw : hlen p = w)
    (hfit : ∀ e ∈ p.rows, e.2.length ≤ w) :
    expand p = .ok ⟨p.rows.map (fun e => (e.1, e.2 ++ List.replicate (w - e.2.length) BLANK)),
      p.idColumn⟩ := by
  unfold expand
  simp only [hw]
  rw [if_pos (List.all_eq_true.mpr (fun e he => decide_eq_true (hfit e he)))]

/-- C1: `combine` (the `__add__` merge) produces a table whose ID set is the
    union of A's and B's: an ID in both maps to A's row with B's fields
    concatenated on the right; an ID only in A maps to A's row blank-padded
    on the right to the new width; an ID only in B maps to A's original width
    of blanks followed by B's row verbatim. -/
theorem C1_combine_union (A B : Pysheet) (wA wB : Nat)
    (hndA : KeysNodup A.rows) (hclA : KeysClean A.rows)
    (hndB : KeysNodup B.rows) (hclB : KeysClean B.rows)
    (hrectA : ∀ e ∈ A.rows, e.2.length = wA)
    (hrectB : ∀ e ∈ B.rows, e.2.length = wB)
    (hhA : (dfind A.rows HEADERS_ID).isSome = true)
    (hhB : (dfind B.rows HEADERS_ID).isSome = true)
    (hwB : 0 < wB) :
    ∃ C, combine A B = .ok C ∧
      ∀ k, k ≠ HEADERS_ID →
        (∀ ra rb, dfind A.rows k = some ra → dfind B.rows k = some rb →
            dfind C.rows k = some (ra ++ rb)) ∧
        (∀ ra, dfind A.rows k = some ra → dfind B.rows k = none →
            dfind C.rows k = some (ra ++ List.replicate wB BLANK)) ∧
        (∀ rb, dfind A.rows k = none → dfind B.rows k = some rb →
            dfind C.rows k = some (List.replicate wA BLANK ++ rb)) ∧
        (dfind A.rows k = none → dfind B.rows k = none → dfind C.rows k = none) ∧
        (dfind C.rows k).isSome = ((dfind A.rows k).isSome || (dfind B.rows k).isSome) := by
  obtain ⟨hsA, hfA⟩ := Option.isSome_iff_exists.mp hhA
  obtain ⟨hsB, hfB⟩ := Option.isSome_iff_exists.mp hhB
  have hlsA : hsA.length = wA := hrectA (HEADERS_ID, hsA) (dfind_mem _ _ _ hfA)
  have hlsB : hsB.length = wB := hrectB (HEADERS_ID, hsB) (dfind_mem _ _ _ hfB)
  have hlenA : hlen A = wA := by
    unfold hlen getHeaders
    rw [hfA]
    exact hlsA
  have hb1sub : ((combineLoop1 A.rows B.rows false).2.1).Sublist B.rows :=
    combineLoop1_b_sublist A.rows B.rows false
  have hclb1 : KeysClean (combineLoop1 A.rows B.rows false).2.1 :=
    fun e he => hclB e (hb1sub.mem he)
  have hndb1 : KeysNodup (combineLoop1 A.rows B.rows false).2.1 :=
    (hb1sub.map Prod.fst).nodup hndB
  have ha1 : ∀ k, dfind (combineLoop1 A.rows B.rows false).1 k =
      (dfind A.rows k).map (fun ra =>
        match dfind B.rows k with
        | some rb => if 0 < rb.length then ra ++ rb else ra
        | none => ra) :=
    fun k => combineLoop1_find A.rows B.rows false k hndA hclA
  have hb1 : ∀ k, dfind (combineLoop1 A.rows B.rows false).2.1 k =
      if k ∈ A.rows.map Prod.fst then none else dfind B.rows k :=
    fun k => combineLoop1_b_find A.rows B.rows false k hclA hndB
  have ha2 : ∀ k, dfind (combineLoop2 (hlen A) (combineLoop1 A.rows B.rows false).1
      (combineLoop1 A.rows B.rows false).2.1) k =
      if k ∈ A.rows.map Prod.fst then
        dfind (combineLoop1 A.rows B.rows false).1 k
      else
        match dfind B.rows k with
        | some rb => some (List.replicate wA BLANK ++ rb)
        | none => dfind (combineLoop1 A.rows B.rows false).1 k := by
    intro k
    by_cases hk : k ∈ A.rows.map Prod.fst
    · have hz : dfind (combineLoop1 A.rows B.rows false).2.1 k = none := by
        rw [hb1 k, if_pos hk]
      rw [combineLoop2_find_not _ _ _ _ hclb1 hz, if_pos hk]
    · rw [if_neg hk]
      rcases hfind : dfind B.rows k with _ | rb
      · have hz : dfind (combineLoop1 A.rows B.rows false).2.1 k = none := by
          rw [hb1 k, if_neg hk, hfind]
        rw [combineLoop2_find_not _ _ _ _ hclb1 hz]
      · have hz : dfind (combineLoop1 A.rows B.rows false).2.1 k = some rb := by
          rw [hb1 k, if_neg hk, hfind]
        rw [combineLoop2_find_mem _ _ _ _ _ hclb1 hndb1 hz, hlenA]
  have hsentA : HEADERS_ID ∈ A.rows.map Prod.fst :=
    (dfind_isSome_iff_mem _ _).mp (by rw [hfA]; rfl)
  have ha2sent : dfind (combineLoop2 (hlen A) (combineLoop1 A.rows B.rows false).1
      (combineLoop1 A.rows B.rows false).2.1) HEADERS_ID = some (hsA ++ hsB) := by
    rw [ha2 HEADERS_ID, if_pos hsentA, ha1 HEADERS_ID, hfA, hfB]
    simp [hlsB, hwB]
  have hheadlen : hlen ⟨combineLoop2 (hlen A) (combineLoop1 A.rows B.rows false).1
      (combineLoop1 A.rows B.rows false).2.1, A.idColumn⟩ = wA + wB := by
    rw [hlen_mk, ha2sent]
    simp [hlsA, hlsB]
  have hfit : ∀ e ∈ combineLoop2 (hlen A) (combineLoop1 A.rows B.rows false).1
      (combineLoop1 A.rows B.rows false).2.1, e.2.length ≤ wA + wB := by
    intro e he
    rcases combineLoop2_mem _ _ _ _ he with h1 | ⟨eb, hmem, hlen2⟩
    · rcases combineLoop1_lengths wA wB A.rows B.rows false hrectA hrectB e h1 with h2 | h2
      · rw [h2]; exact Nat.le_add_right _ _
      · rw [h2]
    · rw [hlen2]
      simp [hlenA, hrectB eb (hb1sub.mem hmem)]
  have hexp := expand_ok ⟨combineLoop2 (hlen A) (combineLoop1 A.rows B.rows false).1
      (combineLoop1 A.rows B.rows false).2.1, A.idColumn⟩ (wA + wB) hheadlen hfit
  have hP : ∀ k, dfind ((combineLoop2 (hlen A) (combineLoop1 A.rows B.rows false).1
      (combineLoop1 A.rows B.rows false).2.1).map
        (fun e => (e.1, e.2 ++ List.replicate ((wA + wB) - e.2.length) BLANK))) k =
      (dfind (combineLoop2 (hlen A) (combineLoop1 A.rows B.rows false).1
        (combineLoop1 A.rows B.rows false).2.1) k).map
        (fun row => row ++ List.replicate ((wA + wB) - row.length) BLANK) :=
    fun k => dfind_mapVal (fun _ row => row ++ List.replicate ((wA + wB) - row.length) BLANK) _ k
  have keyfacts : ∀ k, k ≠ HEADERS_ID →
      ∀ d : Dict, (∀ k1, k1 ≠ HEADERS_ID →
        dfind d k1 = dfind ((combineLoop2 (hlen A) (combineLoop1 A.rows B.rows false).1
          (combineLoop1 A.rows B.rows false).2.1).map
            (fun e => (e.1, e.2 ++ List.replicate ((wA + wB) - e.2.length) BLANK))) k1) →
      (∀ ra rb, dfind A.rows k = some ra → dfind B.rows k = some rb →
          dfind d k = some (ra ++ rb)) ∧
      (∀ ra, dfind A.rows k = some ra → dfind B.rows k = none →
          dfind d k = some (ra ++ List.replicate wB BLANK)) ∧
      (∀ rb, dfind A.rows k = none → dfind B.rows k = some rb →
          dfind d k = some (List.replicate wA BLANK ++ rb)) ∧
      (dfind A.rows k = none → dfind B.rows k = none → dfind d k = none) ∧
      (dfind d k).isSome = ((dfind A.rows k).isSome || (dfind B.rows k).isSome) := by
    intro k hk d hd
    have base : dfind d k =
        (dfind (combineLoop2 (hlen A) (combineLoop1 A.rows B.rows false).1
          (combineLoop1 A.rows B.rows false).2.1) k).map
          (fun row => row ++ List.replicate ((wA + wB) - row.length) BLANK) := by
      rw [hd k hk, hP k]
    have notmemA : ∀ _h : dfind A.rows k = none, ¬ (k ∈ A.rows.map Prod.fst) := by
      intro hfa hm
      have := (dfind_isSome_iff_mem A.rows k).mpr hm
      rw [hfa] at this
      simp at this
    refine ⟨?_, ?_, ?_, ?_, ?_⟩
    · intro ra rb hfa hfb
      have hmemA : k ∈ A.rows.map Prod.fst :=
        (dfind_isSome_iff_mem _ _).mp (by rw [hfa]; rfl)
      have hra : ra.length = wA := hrectA (k, ra) (dfind_mem _ _ _ hfa)
      have hrb : rb.length = wB := hrectB (k, rb) (dfind_mem _ _ _ hfb)
      rw [base, ha2 k, if_pos hmemA, ha1 k, hfa, hfb]
      simp [hrb, hwB, hra]
    · intro ra hfa hfb
      have hmemA : k ∈ A.rows.map Prod.fst :=
        (dfind_isSome_iff_mem _ _).mp (by rw [hfa]; rfl)
      have hra : ra.length = wA := hrectA (k, ra) (dfind_mem _ _ _ hfa)
      rw [base, ha2 k, if_pos hmemA, ha1 k, hfa, hfb]
      simp [hra]
    · intro rb hfa hfb
      have hrb : rb.length = wB := hrectB (k, rb) (dfind_mem _ _ _ hfb)
      rw [base, ha2 k, if_neg (notmemA hfa), hfb]
      simp [hrb]
    · intro hfa hfb
      rw [base, ha2 k, if_neg (notmemA hfa), hfb, ha1 k, hfa]
      rfl
    · rcases hfa : dfind A.rows k with _ | ra <;> rcases hfb : dfind B.rows k with _ | rb
      · rw [base, ha2 k, if_neg (notmemA hfa), hfb, ha1 k, hfa]
        rfl
      · rw [base, ha2 k, if_neg (notmemA hfa), hfb]
        rfl
      · have hmemA : k ∈ A.rows.map Prod.fst :=
          (dfind_isSome_iff_mem _ _).mp (by rw [hfa]; rfl)
        rw [base, ha2 k, if_pos hmemA, ha1 k, hfa]
        rfl
      · have hmemA : k ∈ A.rows.map Prod.fst :=
          (dfind_isSome_iff_mem _ _).mp (by rw [hfa]; rfl)
        rw [base, ha2 k, if_pos hmemA, ha1 k, hfa]
        rfl
  by_cases hm : ((combineLoop1 A.rows B.rows false).2.2 ||
      !(combineLoop1 A.rows B.rows false).2.1.isEmpty) = true
  · rcases hcomb : combine A B with e | C
    · exfalso
      unfold combine at hcomb
      simp only [hexp] at hcomb
      rw [if_pos hm] at hcomb
      exact Except.noConfusion hcomb
    · refine ⟨C, rfl, ?_⟩
      unfold combine at hcomb
      simp only [hexp] at hcomb
      rw [if_pos hm] at hcomb
      injection hcomb with hC
      subst hC
      intro k hk
      refine keyfacts k hk _ (fun k1 hk1 => ?_)
      show dfind (dset _ HEADERS_ID _) k1 = _
      rw [dfind_dset, if_neg (fun h => hk1 h.symm)]
  · rcases hcomb : combine A B with e | C
    · exfalso
      unfold combine at hcomb
      simp only [hexp] at hcomb
      rw [if_neg hm] at hcomb
      exact Except.noConfusion hcomb
    · refine ⟨C, rfl, ?_⟩
      unfold combine at hcomb
      simp only [hexp] at hcomb
      rw [if_neg hm] at hcomb
      injection hcomb with hC
      subst hC
      intro k hk
      exact keyfacts k hk _ (fun k1 hk1 => rfl)

/-- Concrete instantiation of the combine-union theorem on two two-column
    tables with ID sets 1,2 and 2,3. -/
theorem C1_witness :
    ∃ C,
      combine
        ⟨[(HEADERS_ID, [Cell.str "ID", Cell.str "A1"]),
          ("1", [Cell.str "1", Cell.str "x"]),
          ("2", [Cell.str "2", Cell.str "y"])], 0⟩
        ⟨[(HEADERS_ID, [Cell.str "ID", Cell.str "B1"]),
          ("2", [Cell.str "2", Cell.str "u"]),
          ("3", [Cell.str "3", Cell.str "v"])], 0⟩ = .ok C ∧
      ∀ k, k ≠ HEADERS_ID →
        (∀ ra rb,
            dfind [(HEADERS_ID, [Cell.str "ID", Cell.str "A1"]),
              ("1", [Cell.str "1", Cell.str "x"]),
              ("2", [Cell.str "2", Cell.str "y"])] k = some ra →
            dfind [(HEADERS_ID, [Cell.str "ID", Cell.str "B1"]),
              ("2", [Cell.str "2", Cell.str "u"]),
              ("3", [Cell.str "3", Cell.str "v"])] k = some rb →
            dfind C.rows k = some (ra ++ rb)) ∧
        (∀ ra,
            dfind [(HEADERS_ID, [Cell.str "ID", Cell.str "A1"]),
              ("1", [Cell.str "1", Cell.str "x"]),
              ("2", [Cell.str "2", Cell.str "y"])] k = some ra →
            dfind [(HEADERS_ID, [Cell.str "ID", Cell.str "B1"]),
              ("2", [Cell.str "2", Cell.str "u"]),
              ("3", [Cell.str "3", Cell.str "v"])] k = none →
            dfind C.rows k = some (ra ++ List.replicate 2 BLANK)) ∧
        (∀ rb,
            dfind [(HEADERS_ID, [Cell.str "ID", Cell.str "A1"]),
              ("1", [Cell.str "1", Cell.str "x"]),
              ("2", [Cell.str "2", Cell.str "y"])] k = none →
            dfind [(HEADERS_ID, [Cell.str "ID", Cell.str "B1"]),
              ("2", [Cell.str "2", Cell.str "u"]),
              ("3", [Cell.str "3", Cell.str "v"])] k = some rb →
            dfind C.rows k = some (List.replicate 2 BLANK ++ rb)) ∧
        (dfind [(HEADERS_ID, [Cell.str "ID", Cell.str "A1"]),
              ("1", [Cell.str "1", Cell.str "x"]),
              ("2", [Cell.str "2", Cell.str "y"])] k = none →
            dfind [(HEADERS_ID, [Cell.str "ID", Cell.str "B1"]),
              ("2", [Cell.str "2", Cell.str "u"]),
              ("3", [Cell.str "3", Cell.str "v"])] k = none →
            dfind C.rows k = none) ∧
        (dfind C.rows k).isSome =
          ((dfind [(HEADERS_ID, [Cell.str "ID", Cell.str "A1"]),
              ("1", [Cell.str "1", Cell.str "x"]),
              ("2", [Cell.str "2", Cell.str "y"])] k).isSome ||
           (dfind [(HEADERS_ID, [Cell.str "ID", Cell.str "B1"]),
              ("2", [Cell.str "2", Cell.str "u"]),
              ("3", [Cell.str "3", Cell.str "v"])] k).isSome) :=
  C1_combine_union
    ⟨[(HEADERS_ID, [Cell.str "ID", Cell.str "A1"]),
      ("1", [Cell.str "1", Cell.str "x"]),
      ("2", [Cell.str "2", Cell.str "y"])], 0⟩
    ⟨[(HEADERS_ID, [Cell.str "ID", Cell.str "B1"]),
      ("2", [Cell.str "2", Cell.str "u"]),
      ("3", [Cell.str "3", Cell.str "v"])], 0⟩ 2 2
    (by decide) (by decide) (by decide) (by decide)
    (by decide) (by decide) (by decide) (by decide) (by decide)

/-- C8: when `contract` folds a column pair whose kept column is the ID
    column, the row step merges the two cells with the `overwrite` policy --
    the caller-supplied mode is ignored -- and then re-keys the row under the
    merged ID value via the rename path. -/
theorem C8_contract_id_column_overwrites_and_rekeys
    (d : Dict) (idCol j : Nat) (mode : String) (k : String) (row : Row)
    (hk : k ≠ HEADERS_ID) (hrow : dfind d k = some row) :
    contractMergeRow d idCol idCol j mode k =
      (do
        let v ← mergedValue (row.getD idCol BLANK) (row.getD j BLANK) "overwrite"
        renameKeyOp (dset d k (row.set idCol v)) idCol v k) := by
  unfold contractMergeRow
  rw [if_neg hk]
  simp only [hrow]
  rw [if_pos trivial]

/-- Concrete instantiation: the ID-column fold on a one-data-row table with
    the invalid mode string `bogus` still succeeds, overwrites, and re-keys. -/
theorem C8_witness :
    contractMergeRow
        [(HEADERS_ID, [Cell.str "ID", Cell.str "id"]),
         ("x", [Cell.str "1", Cell.str "2"])] 0 0 1 "bogus" "x" =
      (do
        let v ← mergedValue (Cell.str "1") (Cell.str "2") "overwrite"
        renameKeyOp
          (dset [(HEADERS_ID, [Cell.str "ID", Cell.str "id"]),
                 ("x", [Cell.str "1", Cell.str "2"])] "x"
            ([Cell.str "1", Cell.str "2"].set 0 v)) 0 v "x") :=
  C8_contract_id_column_overwrites_and_rekeys
    [(HEADERS_ID, [Cell.str "ID", Cell.str "id"]),
     ("x", [Cell.str "1", Cell.str "2"])] 0 1 "bogus" "x"
    [Cell.str "1", Cell.str "2"] (by decide) (by decide)

/-- Applying `contract` twice can differ from applying it once: an ID-column
    fold can re-key a row onto the header sentinel, changing the header row
    between passes. -/
theorem C4_counterexample :
    (contract ⟨[(HEADERS_ID, [Cell.str "P", Cell.str "Q", Cell.str "ID", Cell.str "id"]),
        ("x", [Cell.str "A", Cell.str "a", Cell.str "x", Cell.str "__header__"])], 2⟩
      "smart_append").bind (fun q => contract q "smart_append") ≠
    contract ⟨[(HEADERS_ID, [Cell.str "P", Cell.str "Q", Cell.str "ID", Cell.str "id"]),
        ("x", [Cell.str "A", Cell.str "a", Cell.str "x", Cell.str "__header__"])], 2⟩
      "smart_append" := by decide

theorem pairList_mem {n : Nat} {ij : Nat × Nat} (h : ij ∈ pairList n) :
    ij.1 < ij.2 ∧ ij.2 < n := by
  unfold pairList at h
  rw [List.mem_flatMap] at h
  obtain ⟨i, hi, hj⟩ := h
  rw [List.mem_range] at hi
  rw [List.mem_map] at hj
  obtain ⟨j, hj2, rfl⟩ := hj
  rw [List.mem_range'] at hj2
  exact ⟨by omega, by omega⟩

theorem contractPair_skip (idCol : Nat) (mode : String) (d : Dict) (del : List Nat)
    (ij : Nat × Nat)
    (h : lowerRep (((dfind d HEADERS_ID).getD []).getD ij.1 BLANK) ≠
      lowerRep (((dfind d HEADERS_ID).getD []).getD ij.2 BLANK)) :
    contractPair idCol mode d del ij = .ok (d, del) := by
  unfold contractPair
  rw [if_neg h]

theorem contractPairs_skip (idCol : Nat) (mode : String) (l : List (Nat × Nat))
    (d : Dict) (del : List Nat)
    (h : ∀ ij ∈ l, lowerRep (((dfind d HEADERS_ID).getD []).getD ij.1 BLANK) ≠
      lowerRep (((dfind d HEADERS_ID).getD []).getD ij.2 BLANK)) :
    contractPairs idCol mode l d del = .ok (d, del) := by
  induction l generalizing del with
  | nil => rfl
  | cons ij rest IH =>
    have hstep := contractPair_skip idCol mode d del ij (h ij (List.mem_cons_self ij rest))
    show (do
      let x ← contractPair idCol mode d del ij
      contractPairs idCol mode rest x.1 x.2) = Except.ok (d, del)
    rw [hstep]
    exact IH del (fun ij2 hij2 => h ij2 (List.mem_cons_of_mem _ hij2))

/-- On a table whose normalised (lock-stripped, lower-cased) header names are
    pairwise distinct, a `contract` pass changes nothing. -/
theorem contract_distinct_headers_identity (p : Pysheet) (mode : String)
    (hdist : ((getHeaders p).map lowerRep).Nodup) :
    contract p mode = .ok p ∧
    (contract p mode).bind (fun q => contract q mode) = contract p mode := by
  have hcond : ∀ ij ∈ pairList (hlen p),
      lowerRep (((dfind p.rows HEADERS_ID).getD []).getD ij.1 BLANK) ≠
        lowerRep (((dfind p.rows HEADERS_ID).getD []).getD ij.2 BLANK) := by
    intro ij hij
    obtain ⟨h1, h2⟩ := pairList_mem hij
    have hj : ij.2 < (getHeaders p).length := h2
    have hi : ij.1 < (getHeaders p).length := lt_trans h1 hj
    have hmapped := (List.pairwise_iff_getElem.mp hdist) ij.1 ij.2
      (by simpa using hi) (by simpa using hj) h1
    have e1 : ((getHeaders p).map lowerRep).get ⟨ij.1, by simpa using hi⟩ =
        lowerRep ((getHeaders p).getD ij.1 BLANK) := by
      rw [List.get_eq_getElem, List.getElem_map, List.getD_eq_getElem?_getD,
        List.getElem?_eq_getElem hi, Option.getD_some]
    have e2 : ((getHeaders p).map lowerRep).get ⟨ij.2, by simpa using hj⟩ =
        lowerRep ((getHeaders p).getD ij.2 BLANK) := by
      rw [List.get_eq_getElem, List.getElem_map, List.getD_eq_getElem?_getD,
        List.getElem?_eq_getElem hj, Option.getD_some]
    intro heq
    exact hmapped (by rw [List.get_eq_getElem] at e1 e2; rw [e1, e2]; exact heq)
  have hrun := contractPairs_skip p.idColumn mode (pairList (hlen p)) p.rows [] hcond
  have hctr : contract p mode = .ok p := by
    unfold contract
    rw [hrun]
    rfl
  refine ⟨hctr, ?_⟩
  rw [hctr]
  show contract p mode = Except.ok p
  exact hctr



/-! ### Idempotence of `clean` -/

theorem lowerChar_idem (c : Char) : lowerChar (lowerChar c) = lowerChar c := by
  by_cases h : 'A' ≤ c ∧ c ≤ 'Z'
  · have hb : 65 ≤ c.toNat ∧ c.toNat ≤ 90 := by
      obtain ⟨h1, h2⟩ := h
      simp [Char.le_def] at h1 h2
      exact ⟨h1, h2⟩
    have hc1 : lowerChar c = Char.ofNat (c.toNat + 32) := by rw [lowerChar, if_pos h]
    have ht : (Char.ofNat (c.toNat + 32)).toNat = c.toNat + 32 := by
      rw [Char.ofNat, dif_pos (show (c.toNat + 32).isValidChar by left; omega)]
      rw [Char.ofNatAux]
      show (UInt32.ofNat' _ _).toNat = _
      rw [UInt32.ofNat']
      simp [UInt32.toNat, BitVec.toNat_ofNatLt]
    rw [hc1, lowerChar, if_neg]
    intro hcond
    have h2 := hcond.2
    simp [Char.le_def] at h2
    have h4 : (Char.ofNat (c.toNat + 32)).toNat ≤ 90 :=
      UInt32.toNat_le_of_le (by decide) h2
    rw [ht] at h4
    omega
  · have hc1 : lowerChar c = c := by
      rw [lowerChar, if_neg h]
    rw [hc1]
    exact hc1

theorem mem_trimChars {c : Char} {l : List Char} (h : c ∈ trimChars l) : c ∈ l := by
  unfold trimChars at h
  rw [List.mem_reverse] at h
  have h2 := (List.dropWhile_sublist _).mem h
  rw [List.mem_reverse] at h2
  exact (List.dropWhile_sublist _).mem h2

theorem mapLower_fixes {l : List Char} (h : ∀ c ∈ l, lowerChar c = c) :
    l.map lowerChar = l := by
  induction l with
  | nil => rfl
  | cons c cs IH =>
    rw [List.map_cons, h c (by simp), IH (fun x hx => h x (by simp [hx]))]

theorem trimChars_eq_rdropWhile (l : List Char) :
    trimChars l = List.rdropWhile isSpaceChar (l.dropWhile isSpaceChar) := rfl

theorem trimChars_idem (l : List Char) : trimChars (trimChars l) = trimChars l := by
  rw [trimChars_eq_rdropWhile, trimChars_eq_rdropWhile]
  have hA : (List.rdropWhile isSpaceChar (l.dropWhile isSpaceChar)).dropWhile isSpaceChar
      = List.rdropWhile isSpaceChar (l.dropWhile isSpaceChar) := by
    rcases hr : List.rdropWhile isSpaceChar (l.dropWhile isSpaceChar) with _ | ⟨x, r2⟩
    · rfl
    · obtain ⟨t, ht⟩ :=
        List.rdropWhile_prefix (p := isSpaceChar) (l := l.dropWhile isSpaceChar)
      rw [hr] at ht
      have ht2 : l.dropWhile isSpaceChar = x :: (r2 ++ t) := by rw [← ht]; rfl
      have hw : l.dropWhile isSpaceChar ≠ [] := by rw [ht2]; simp
      have hx := List.head_dropWhile_not isSpaceChar l hw
      simp only [ht2, List.head_cons] at hx
      rw [List.dropWhile_cons_of_neg (by simp [hx])]
  rw [hA, List.rdropWhile_idempotent]

theorem clean_idem (s : String) : clean (clean s) = clean s := by
  have hl : pyLower (clean s) = clean s := by
    show (⟨(trimChars ((s.data).map lowerChar)).map lowerChar⟩ : String)
        = ⟨trimChars ((s.data).map lowerChar)⟩
    exact congrArg String.mk (mapLower_fixes (fun c hc => by
      have hm := mem_trimChars hc
      rw [List.mem_map] at hm
      obtain ⟨y, _, rfl⟩ := hm
      exact lowerChar_idem y))
  show pyStrip (pyLower (clean s)) = clean s
  rw [hl]
  show (⟨trimChars (trimChars ((s.data).map lowerChar))⟩ : String)
      = ⟨trimChars ((s.data).map lowerChar)⟩
  rw [trimChars_idem]

/-! ### Rectangularity helpers -/

theorem hlen_pos_hasHeader (p : Pysheet) (h : 0 < hlen p) :
    (dfind p.rows HEADERS_ID).isSome = true := by
  rcases hf : dfind p.rows HEADERS_ID with _ | hs
  · exfalso
    unfold hlen getHeaders at h
    rw [hf] at h
    simp at h
  · rfl

theorem rect_of_rectInv (L : Nat) (d : Dict) (i : Nat) (h : RectInv L d) :
    Rectangular ⟨d, i⟩ ∧ hlen (⟨d, i⟩ : Pysheet) = L := by
  obtain ⟨hh, hu⟩ := h
  obtain ⟨hs, hf⟩ := Option.isSome_iff_exists.mp hh
  have hlen_eq : hlen (⟨d, i⟩ : Pysheet) = L := by
    rw [hlen_mk, hf]
    simp only [Option.getD_some]
    exact hu (HEADERS_ID, hs) (dfind_mem _ _ _ hf)
  refine ⟨?_, hlen_eq⟩
  intro e he
  rw [hlen_eq]
  exact hu e he

theorem rectInv_dset (L : Nat) (d : Dict) (k : String) (v : Row)
    (h : RectInv L d) (hv : v.length = L) : RectInv L (dset d k v) := by
  obtain ⟨hh, hu⟩ := h
  constructor
  · rw [dfind_dset]
    by_cases hk : k = HEADERS_ID
    · rw [if_pos hk]
      rfl
    · rw [if_neg hk]
      exact hh
  · intro e he
    rcases mem_dset d k v e he with hin | rfl
    · exact hu e hin
    · exact hv

theorem rectInv_derase (L : Nat) (d : Dict) (k : String)
    (h : RectInv L d) (hk : k ≠ HEADERS_ID) : RectInv L (derase d k) :=
  ⟨by rw [dfind_derase_ne d k HEADERS_ID hk]; exact h.1,
   fun e he => h.2 e (mem_derase d k e he)⟩

theorem rect_dset (p : Pysheet) (k : String) (v : Row) (i : Nat)
    (hr : Rectangular p) (hv : v.length = hlen p) :
    Rectangular ⟨dset p.rows k v, i⟩ ∧ hlen (⟨dset p.rows k v, i⟩ : Pysheet) = hlen p := by
  have hlen_eq : hlen (⟨dset p.rows k v, i⟩ : Pysheet) = hlen p := by
    rw [hlen_mk, dfind_dset]
    by_cases hk : k = HEADERS_ID
    · rw [if_pos hk]
      simpa using hv
    · rw [if_neg hk]
      rfl
  refine ⟨?_, hlen_eq⟩
  intro e he
  rw [hlen_eq]
  rcases mem_dset p.rows k v e he with hin | rfl
  · exact hr e hin
  · exact hv

theorem pyInsert_length (r : Row) (i : Nat) (v : Cell) :
    (pyInsert r i v).length = r.length + 1 := by
  unfold pyInsert
  by_cases h : r.length ≤ i
  · rw [if_pos h]
    simp
  · rw [if_neg h]
    exact List.length_insertIdx i r (by omega)

theorem pySetIdx_length (r : Row) (i : Int) (v : Cell) :
    (pySetIdx r i v).length = r.length := by
  unfold pySetIdx
  by_cases h : 0 ≤ i
  · rw [if_pos h]
    exact List.length_set r _ v
  · rw [if_neg h]
    exact List.length_set r _ v

theorem expand_rect (p q : Pysheet) (h : expand p = .ok q) :
    Rectangular q ∧ hlen q = hlen p ∧ q.idColumn = p.idColumn ∧
    q.rows = p.rows.map (fun e => (e.1, e.2 ++ List.replicate (hlen p - e.2.length) BLANK)) := by
  unfold expand at h
  simp only [] at h
  split at h
  case isFalse => exact absurd h (by simp)
  case isTrue hg =>
    injection h with h2
    subst h2
    have hlen_eq : hlen (⟨p.rows.map (fun e =>
          (e.1, e.2 ++ List.replicate (hlen p - e.2.length) BLANK)), p.idColumn⟩ : Pysheet)
        = hlen p := by
      rw [hlen_mk]
      rw [dfind_mapVal (fun _ row => row ++ List.replicate (hlen p - row.length) BLANK)]
      rcases hf : dfind p.rows HEADERS_ID with _ | hs
      · show ((0 : Nat)) = hlen p
        unfold hlen getHeaders
        rw [hf]
        rfl
      · have hhs : hs.length = hlen p := by
          unfold hlen getHeaders
          rw [hf]
          rfl
        simp [hhs]
    refine ⟨?_, hlen_eq, rfl, rfl⟩
    intro e he
    rw [hlen_eq]
    rw [List.mem_map] at he
    obtain ⟨e0, he0, rfl⟩ := he
    have hle : e0.2.length ≤ hlen p := by
      have := List.all_eq_true.mp hg e0 he0
      simpa using this
    simp [Nat.add_sub_cancel' hle]

theorem removeCell_rect (p : Pysheet) (key : String) (header? : Option String)
    (hr : Rectangular p)
    (hkey : header? = none → clean key ≠ HEADERS_ID) :
    Rectangular (removeCell p key header?).2 := by
  unfold removeCell
  rcases hf : dfind p.rows (clean key) with _ | row
  · simp only [hf]
    exact hr
  · simp only [hf]
    have hrow : row.length = hlen p := hr (clean key, row) (dfind_mem _ _ _ hf)
    rcases header? with _ | h
    · have hcl := hkey rfl
      show Rectangular ⟨derase p.rows (clean key), p.idColumn⟩
      have hlen_eq : hlen (⟨derase p.rows (clean key), p.idColumn⟩ : Pysheet) = hlen p := by
        rw [hlen_mk, dfind_derase_ne p.rows (clean key) HEADERS_ID hcl]
        rfl
      intro e he
      rw [hlen_eq]
      exact hr e (mem_derase _ _ _ he)
    · show Rectangular
        (if headerIndex p (pyStrip h) ≠ -1 then
          (RemoveRet.cell (pyGetIdx row (headerIndex p (pyStrip h))),
            (⟨dset p.rows (clean key) (pySetIdx row (headerIndex p (pyStrip h)) BLANK),
              p.idColumn⟩ : Pysheet))
        else (RemoveRet.nothing, p)).2
      by_cases hh : headerIndex p (pyStrip h) ≠ -1
      · rw [if_pos hh]
        exact (rect_dset p (clean key) _ p.idColumn hr
          (by rw [pySetIdx_length]; exact hrow)).1
      · rw [if_neg hh]
        exact hr

theorem insertColumnAt_rect (p : Pysheet) (h : String) (idx : Nat)
    (hr : Rectangular p) (hh : (dfind p.rows HEADERS_ID).isSome = true) :
    Rectangular (insertColumnAt p h idx) ∧
    hlen (insertColumnAt p h idx) = hlen p + 1 ∧
    (dfind (insertColumnAt p h idx).rows HEADERS_ID).isSome = true := by
  obtain ⟨hs, hf⟩ := Option.isSome_iff_exists.mp hh
  have hhs : hs.length = hlen p := by
    unfold hlen getHeaders
    rw [hf]
    rfl
  have hlen_eq : hlen (insertColumnAt p h idx) = hlen p + 1 := by
    unfold hlen getHeaders
    rw [insertColumnAt_find, hf]
    simp [pyInsert_length, hhs]
  have hsome : (dfind (insertColumnAt p h idx).rows HEADERS_ID).isSome = true := by
    rw [insertColumnAt_find, hf]
    rfl
  refine ⟨?_, hlen_eq, hsome⟩
  intro e he
  rw [hlen_eq]
  have he2 : e ∈ p.rows.map (fun e0 => (e0.1,
      if e0.1 = HEADERS_ID then
        pyInsert e0.2 idx (Cell.str (if startsUU (pyStrip h) then h else "__" ++ pyStrip h))
      else pyInsert e0.2 idx BLANK)) := he
  rw [List.mem_map] at he2
  obtain ⟨e0, he0, rfl⟩ := he2
  by_cases hk : e0.1 = HEADERS_ID <;> simp [hk, pyInsert_length, hr e0 he0]

theorem insertColumn_rect (p q : Pysheet) (h : String) (idx? : Option Nat)
    (hr : Rectangular p) (hh : (dfind p.rows HEADERS_ID).isSome = true)
    (hok : insertColumn p h idx? = .ok q) :
    Rectangular q ∧ (hlen q = hlen p ∨ hlen q = hlen p + 1) ∧
    (dfind q.rows HEADERS_ID).isSome = true := by
  unfold insertColumn at hok
  split at hok
  case isTrue =>
    injection hok with h2
    subst h2
    exact ⟨hr, Or.inl rfl, hh⟩
  case isFalse =>
    split at hok
    case h_1 =>
      injection hok with h2
      subst h2
      obtain ⟨h1, h2, h3⟩ := insertColumnAt_rect p h _ hr hh
      exact ⟨h1, Or.inr h2, h3⟩
    case h_2 i =>
      split at hok
      case isTrue =>
        injection hok with h2
        subst h2
        obtain ⟨h1, h2, h3⟩ := insertColumnAt_rect p h i hr hh
        exact ⟨h1, Or.inr h2, h3⟩
      case isFalse => exact absurd hok (by simp)

theorem foldl_eraseIdx_length (cols : List Nat) :
    ∀ (r : Row), (cols.foldl (fun s c => s.eraseIdx c) r).length =
      cols.foldl (fun n c => if c < n then n - 1 else n) r.length := by
  induction cols with
  | nil =>
    intro r
    rfl
  | cons c rest IH =>
    intro r
    rw [List.foldl_cons, List.foldl_cons, IH, List.length_eraseIdx]

theorem removeColumns_rect (p q : Pysheet) (cols : List Nat)
    (hr : Rectangular p) (hok : removeColumns p cols = .ok q) :
    Rectangular q ∧ (dfind q.rows HEADERS_ID).isSome = (dfind p.rows HEADERS_ID).isSome := by
  unfold removeColumns at hok
  split at hok
  case isTrue =>
    injection hok with h2
    subst h2
    exact ⟨hr, rfl⟩
  case isFalse =>
    simp only [] at hok
    split at hok
    case h_1 => exact absurd hok (by simp)
    case h_2 idc heq =>
      injection hok with h2
      subst h2
      have hmap := fun k => dfind_mapVal
        (fun _ row => (pyUnique (sortDesc cols)).foldl (fun r c => r.eraseIdx c) row) p.rows k
      constructor
      · have hlen_eq : hlen (⟨p.rows.map (fun e =>
            (e.1, (pyUnique (sortDesc cols)).foldl (fun r c => r.eraseIdx c) e.2)), idc⟩ : Pysheet)
            = (pyUnique (sortDesc cols)).foldl (fun n c => if c < n then n - 1 else n) (hlen p) := by
          rw [hlen_mk, hmap HEADERS_ID]
          rcases hf : dfind p.rows HEADERS_ID with _ | hs
          · show (0 : Nat) = _
            have h0 : hlen p = 0 := by
              unfold hlen getHeaders
              rw [hf]
              rfl
            rw [h0]
            clear hf hmap heq
            induction pyUnique (sortDesc cols) with
            | nil => rfl
            | cons c rest IH =>
              rw [List.foldl_cons, if_neg (by omega)]
              exact IH
          · have hhs : hs.length = hlen p := by
              unfold hlen getHeaders
              rw [hf]
              rfl
            simp [foldl_eraseIdx_length, hhs]
        intro e he
        rw [hlen_eq]
        rw [List.mem_map] at he
        obtain ⟨e0, he0, rfl⟩ := he
        show ((pyUnique (sortDesc cols)).foldl (fun r c => r.eraseIdx c) e0.2).length = _
        rw [foldl_eraseIdx_length, hr e0 he0]
      · rw [hmap HEADERS_ID]
        exact Option.isSome_map

theorem renameKeyOp_rect (d : Dict) (idc : Nat) (v : Cell) (key : String) (d' : Dict) (L : Nat)
    (hu : ∀ e ∈ d, e.2.length = L) (hcl : clean key ≠ HEADERS_ID)
    (hok : renameKeyOp d idc v key = .ok d') :
    (∀ e ∈ d', e.2.length = L) ∧
    ((dfind d HEADERS_ID).isSome = true → (dfind d' HEADERS_ID).isSome = true) := by
  unfold renameKeyOp at hok
  simp only [] at hok
  split at hok
  case isFalse =>
    injection hok with h2
    subst h2
    exact ⟨hu, fun hh => hh⟩
  case isTrue =>
    split at hok
    case h_2 => exact absurd hok (by simp)
    case h_1 row hf =>
      split at hok
      case isFalse =>
        injection hok with h2
        subst h2
        exact ⟨hu, fun hh => hh⟩
      case isTrue =>
        injection hok with h2
        subst h2
        have hrow : row.length = L := hu (clean key, row) (dfind_mem _ _ _ hf)
        constructor
        · intro e he
          rcases mem_dset _ _ _ e he with hin | rfl
          · exact hu e (mem_derase _ _ _ hin)
          · rw [List.length_set]
            exact hrow
        · intro hh
          rw [dfind_dset]
          split
          case isTrue => rfl
          case isFalse =>
            rw [dfind_derase_ne d (clean key) HEADERS_ID hcl]
            exact hh

theorem rename_rect (p q : Pysheet) (n : Cell) (header? : Option String) (key? : Option String)
    (hr : Rectangular p)
    (hkey : ∀ k, key? = some k → clean k ≠ HEADERS_ID)
    (hok : rename p n header? key? = .ok q) : Rectangular q := by
  unfold rename at hok
  split at hok
  case isTrue =>
    simp only [] at hok
    split at hok
    case isFalse => exact absurd hok (by simp)
    case isTrue =>
      injection hok with h2
      subst h2
      exact (rect_dset p HEADERS_ID _ p.idColumn hr (by rw [List.length_set]; rfl)).1
  case isFalse =>
    split at hok
    case h_2 =>
      injection hok with h2
      subst h2
      exact hr
    case h_1 k =>
      rcases hrk : renameKeyOp p.rows p.idColumn n k with e | d2
      · rw [hrk] at hok
        exact absurd hok (by simp [Except.map])
      · rw [hrk] at hok
        have h2 : (⟨d2, p.idColumn⟩ : Pysheet) = q := by
          simpa [Except.map] using hok
        subst h2
        obtain ⟨hu, hsome⟩ := renameKeyOp_rect p.rows p.idColumn n k d2 (hlen p)
          hr (hkey k rfl) hrk
        intro e he
        show e.2.length = ((dfind d2 HEADERS_ID).getD []).length
        rw [hu e he]
        rcases hf2 : dfind d2 HEADERS_ID with _ | hs2
        · show hlen p = 0
          rcases hfp : dfind p.rows HEADERS_ID with _ | hsp
          · unfold hlen getHeaders
            rw [hfp]
            rfl
          · have := hsome (by rw [hfp]; rfl)
            rw [hf2] at this
            simp at this
        · have hmem : (HEADERS_ID, hs2) ∈ d2 := dfind_mem _ _ _ hf2
          simp only [Option.getD_some]
          exact (hu (HEADERS_ID, hs2) hmem).symm

theorem except_bind_ok {a b : Type} (x : a) (f : a → Except PErr b) :
    (Except.ok x >>= f) = f x := rfl

theorem addCellEnsureRow_rect (p : Pysheet) (key : String)
    (hr : Rectangular p) (hpos : 0 < hlen p) :
    Rectangular (addCellEnsureRow p key) ∧ hlen (addCellEnsureRow p key) = hlen p ∧
    (dfind (addCellEnsureRow p key).rows HEADERS_ID).isSome = true := by
  have hh := hlen_pos_hasHeader p hpos
  unfold addCellEnsureRow
  rcases hf : dfind p.rows (clean key) with _ | row
  · simp only [hf]
    have hck : clean key ≠ HEADERS_ID := by
      intro hceq
      rw [← hceq, hf] at hh
      simp at hh
    have hv : (Cell.str (pyStrip key) :: List.replicate (hlen p - 1) BLANK).length = hlen p := by
      simp
      omega
    obtain ⟨h1, h2⟩ := rect_dset p (clean key) _ p.idColumn hr hv
    refine ⟨h1, h2, ?_⟩
    show (dfind (dset p.rows (clean key) _) HEADERS_ID).isSome = true
    rw [dfind_dset, if_neg hck]
    exact hh
  · simp only [hf]
    exact ⟨hr, by trivial, hh⟩

theorem addCellEnsureHeader_rect (p q : Pysheet) (h : String)
    (hr : Rectangular p) (hpos : 0 < hlen p)
    (hok : addCellEnsureHeader p h = .ok q) :
    Rectangular q ∧ 0 < hlen q ∧ (dfind q.rows HEADERS_ID).isSome = true := by
  have hh := hlen_pos_hasHeader p hpos
  unfold addCellEnsureHeader at hok
  split at hok
  case isFalse =>
    injection hok with h2
    subst h2
    exact ⟨hr, hpos, hh⟩
  case isTrue =>
    split at hok
    case isTrue =>
      obtain ⟨h1, h2, h3⟩ := insertColumn_rect p q h none hr hh hok
      refine ⟨h1, ?_, h3⟩
      rcases h2 with h2 | h2 <;> omega
    case isFalse =>
      obtain ⟨h1, h2, h3, h4⟩ := expand_rect _ q hok
      have hpre : hlen (⟨dset p.rows HEADERS_ID (getHeaders p ++ [Cell.str h]),
          p.idColumn⟩ : Pysheet) = hlen p + 1 := by
        rw [hlen_mk, dfind_dset, if_pos rfl]
        simp
        rfl
      refine ⟨h1, ?_, ?_⟩
      · rw [h2, hpre]
        omega
      · rw [h4]
        rw [dfind_mapVal (fun _ row => row ++ List.replicate (hlen (⟨dset p.rows HEADERS_ID
            (getHeaders p ++ [Cell.str h]), p.idColumn⟩ : Pysheet) - row.length) BLANK)]
        show ((dfind (dset p.rows HEADERS_ID (getHeaders p ++ [Cell.str h])) HEADERS_ID).map
          _).isSome = true
        rw [dfind_dset, if_pos rfl]
        rfl

theorem addCellWrite_rect (p q : Pysheet) (cleankey h : String) (v : Cell) (mode : String)
    (hr : Rectangular p)
    (hok : addCellWrite p cleankey h v mode = .ok q) : Rectangular q := by
  unfold addCellWrite at hok
  split at hok
  case h_1 => exact absurd hok (by simp)
  case h_2 row hf =>
    have hok2 : (do
        let merged ← mergedValue (pyGetIdx row (headerIndex p h)) v mode
        Except.ok (⟨dset p.rows cleankey (pySetIdx row (headerIndex p h) merged),
          p.idColumn⟩ : Pysheet)) = Except.ok q := hok
    have hrow : row.length = hlen p := hr (cleankey, row) (dfind_mem _ _ _ hf)
    rcases hm : mergedValue (pyGetIdx row (headerIndex p h)) v mode with e | merged
    · rw [hm] at hok2
      exact absurd hok2 (fun hc => Except.noConfusion hc)
    · rw [hm, except_bind_ok] at hok2
      injection hok2 with h2
      subst h2
      exact (rect_dset p cleankey _ p.idColumn hr
        (by rw [pySetIdx_length]; exact hrow)).1

theorem addCell_rect (p q : Pysheet) (key : String) (header? : Option String)
    (value? : Option Cell) (mode : String)
    (hr : Rectangular p) (hpos : 0 < hlen p)
    (hok : addCell p key header? value? mode = .ok q) : Rectangular q := by
  obtain ⟨h1, h2, h3⟩ := addCellEnsureRow_rect p key hr hpos
  unfold addCell at hok
  have hok2 : (match header? with
      | none => Except.ok (addCellEnsureRow p key)
      | some h => do
        let p2 ← addCellEnsureHeader (addCellEnsureRow p key) (pyStrip h)
        addCellWrite p2 (clean key) (pyStrip h) (value?.getD BLANK) mode) =
      Except.ok q := hok
  clear hok
  split at hok2
  case h_1 =>
    injection hok2 with h4
    subst h4
    exact h1
  case h_2 hh =>
    rcases he : addCellEnsureHeader (addCellEnsureRow p key) (pyStrip hh) with e | p2
    · rw [he] at hok2
      exact absurd hok2 (fun hc => Except.noConfusion hc)
    · rw [he, except_bind_ok] at hok2
      obtain ⟨h4, h5, h6⟩ := addCellEnsureHeader_rect _ p2 (pyStrip hh) h1 (by omega) he
      exact addCellWrite_rect p2 q (clean key) (pyStrip hh) (value?.getD BLANK) mode h4 hok2

theorem combine_rect (A B q : Pysheet) (hok : combine A B = .ok q) : Rectangular q := by
  unfold combine at hok
  split at hok
  case h_1 => exact absurd hok (by simp)
  case h_2 P hexp =>
    obtain ⟨hrP, hlP, hiP, hrowsP⟩ := expand_rect _ P hexp
    split at hok
    case isTrue =>
      injection hok with h2
      subst h2
      exact (rect_dset P HEADERS_ID _ P.idColumn hrP (by rw [List.length_set]; rfl)).1
    case isFalse =>
      injection hok with h2
      subst h2
      exact hrP

theorem renameKeyOp_clean (d : Dict) (idc : Nat) (v : Cell) (key : String) (d' : Dict)
    (hc : KeysClean d) (hok : renameKeyOp d idc v key = .ok d') : KeysClean d' := by
  unfold renameKeyOp at hok
  simp only [] at hok
  split at hok
  case isFalse =>
    injection hok with h2
    subst h2
    exact hc
  case isTrue =>
    split at hok
    case h_2 => exact absurd hok (fun hc2 => Except.noConfusion hc2)
    case h_1 row hf =>
      split at hok
      case isFalse =>
        injection hok with h2
        subst h2
        exact hc
      case isTrue =>
        injection hok with h2
        subst h2
        intro e he
        rcases mem_dset _ _ _ e he with hin | rfl
        · exact hc e (mem_derase _ _ _ hin)
        · exact clean_idem (cellStr v)

theorem contractMergeRow_inv (d : Dict) (idc i j : Nat) (mode k : String) (d' : Dict) (L : Nat)
    (hs : (dfind d HEADERS_ID).isSome = true)
    (hu : ∀ e ∈ d, e.2.length = L)
    (hc : KeysClean d)
    (hok : contractMergeRow d idc i j mode k = .ok d') :
    (dfind d' HEADERS_ID).isSome = true ∧ (∀ e ∈ d', e.2.length = L) ∧ KeysClean d' := by
  unfold contractMergeRow at hok
  split at hok
  case isTrue =>
    injection hok with h2
    subst h2
    exact ⟨hs, hu, hc⟩
  case isFalse hk =>
    split at hok
    case h_1 => exact absurd hok (fun hc2 => Except.noConfusion hc2)
    case h_2 row hf =>
      have hkmem : (k, row) ∈ d := dfind_mem _ _ _ hf
      have hck : clean k = k := hc (k, row) hkmem
      have hrow : row.length = L := hu _ hkmem
      have hmid : ∀ v : Cell,
          (dfind (dset d k (row.set i v)) HEADERS_ID).isSome = true ∧
          (∀ e ∈ dset d k (row.set i v), e.2.length = L) ∧
          KeysClean (dset d k (row.set i v)) := by
        intro v
        refine ⟨?_, ?_, ?_⟩
        · rw [dfind_dset, if_neg hk]
          exact hs
        · intro e he
          rcases mem_dset _ _ _ e he with hin | rfl
          · exact hu e hin
          · rw [List.length_set]
            exact hrow
        · intro e he
          rcases mem_dset _ _ _ e he with hin | rfl
          · exact hc e hin
          · exact hck
      split at hok
      case isTrue =>
        rcases hm : mergedValue (row.getD i BLANK) (row.getD j BLANK) "overwrite" with e | v
        · rw [hm] at hok
          exact absurd hok (fun hc2 => Except.noConfusion hc2)
        · rw [hm, except_bind_ok] at hok
          obtain ⟨hs1, hu1, hc1⟩ := hmid v
          have hclk : clean k ≠ HEADERS_ID := by
            rw [hck]
            exact hk
          obtain ⟨hu2, hs2⟩ :=
            renameKeyOp_rect (dset d k (List.set row i v)) _ v k d' L hu1 hclk hok
          refine ⟨hs2 hs1, hu2, ?_⟩
          exact renameKeyOp_clean (dset d k (List.set row i v)) _ v k d' hc1 hok
      case isFalse =>
        rcases hm : mergedValue (row.getD i BLANK) (row.getD j BLANK) mode with e | v
        · rw [hm] at hok
          exact absurd hok (fun hc2 => Except.noConfusion hc2)
        · rw [hm, except_bind_ok] at hok
          injection hok with h2
          subst h2
          exact hmid v

theorem contractInner_inv (idc : Nat) (mode : String) (i j : Nat) (keys : List String) :
    ∀ (d d' : Dict) (L : Nat), (dfind d HEADERS_ID).isSome = true →
    (∀ e ∈ d, e.2.length = L) → KeysClean d →
    contractInner idc mode i j keys d = .ok d' →
    (dfind d' HEADERS_ID).isSome = true ∧ (∀ e ∈ d', e.2.length = L) ∧ KeysClean d' := by
  induction keys with
  | nil =>
    intro d d' L hs hu hc hok
    injection hok with h2
    subst h2
    exact ⟨hs, hu, hc⟩
  | cons k rest IH =>
    intro d d' L hs hu hc hok
    have hok2 : (contractMergeRow d idc i j mode k >>=
        fun d1 => contractInner idc mode i j rest d1) = .ok d' := hok
    rcases hcm : contractMergeRow d idc i j mode k with e | d1
    · rw [hcm] at hok2
      exact absurd hok2 (fun hc2 => Except.noConfusion hc2)
    · rw [hcm, except_bind_ok] at hok2
      obtain ⟨hs1, hu1, hc1⟩ := contractMergeRow_inv d idc i j mode k d1 L hs hu hc hcm
      exact IH d1 d' L hs1 hu1 hc1 hok2

theorem contractPair_inv (idc : Nat) (mode : String) (d : Dict) (del : List Nat)
    (ij : Nat × Nat) (d' : Dict) (del' : List Nat) (L : Nat)
    (hs : (dfind d HEADERS_ID).isSome = true)
    (hu : ∀ e ∈ d, e.2.length = L)
    (hc : KeysClean d)
    (hok : contractPair idc mode d del ij = .ok (d', del')) :
    (dfind d' HEADERS_ID).isSome = true ∧ (∀ e ∈ d', e.2.length = L) ∧ KeysClean d' := by
  unfold contractPair at hok
  simp only [] at hok
  split at hok
  case isFalse =>
    injection hok with h2
    injection h2 with ha hb
    subst ha
    exact ⟨hs, hu, hc⟩
  case isTrue =>
    rcases hci : contractInner idc mode ij.1 ij.2 (d.map Prod.fst) d with e | d1
    · rw [hci] at hok
      exact absurd hok (fun hc2 => Except.noConfusion hc2)
    · rw [hci, except_bind_ok] at hok
      injection hok with h2
      injection h2 with ha hb
      subst ha
      exact contractInner_inv idc mode ij.1 ij.2 (d.map Prod.fst) d d1 L hs hu hc hci

theorem contractPairs_inv (idc : Nat) (mode : String) (l : List (Nat × Nat)) :
    ∀ (d : Dict) (del : List Nat) (d' : Dict) (del' : List Nat) (L : Nat),
    (dfind d HEADERS_ID).isSome = true →
    (∀ e ∈ d, e.2.length = L) → KeysClean d →
    contractPairs idc mode l d del = .ok (d', del') →
    (dfind d' HEADERS_ID).isSome = true ∧ (∀ e ∈ d', e.2.length = L) ∧ KeysClean d' := by
  induction l with
  | nil =>
    intro d del d' del' L hs hu hc hok
    injection hok with h2
    injection h2 with ha hb
    subst ha
    exact ⟨hs, hu, hc⟩
  | cons ij rest IH =>
    intro d del d' del' L hs hu hc hok
    have hok2 : (contractPair idc mode d del ij >>=
        fun st => contractPairs idc mode rest st.1 st.2) = .ok (d', del') := hok
    rcases hcp : contractPair idc mode d del ij with e | st
    · rw [hcp] at hok2
      exact absurd hok2 (fun hc2 => Except.noConfusion hc2)
    · rw [hcp, except_bind_ok] at hok2
      obtain ⟨d1, del1⟩ := st
      obtain ⟨hs1, hu1, hc1⟩ := contractPair_inv idc mode d del ij d1 del1 L hs hu hc hcp
      exact IH d1 del1 d' del' L hs1 hu1 hc1 hok2

theorem contract_rect (p q : Pysheet) (mode : String)
    (hr : Rectangular p) (hc : KeysClean p.rows) (hpos : 0 < hlen p)
    (hok : contract p mode = .ok q) :
    Rectangular q ∧ (dfind q.rows HEADERS_ID).isSome = true := by
  have hs := hlen_pos_hasHeader p hpos
  unfold contract at hok
  rcases hcp : contractPairs p.idColumn mode (pairList (hlen p)) p.rows [] with e | st
  · rw [hcp] at hok
    exact absurd hok (fun hc2 => Except.noConfusion hc2)
  · rw [hcp, except_bind_ok] at hok
    obtain ⟨d, del⟩ := st
    have hok2 : (if del.isEmpty then Except.ok (⟨d, p.idColumn⟩ : Pysheet)
        else removeColumns ⟨d, p.idColumn⟩ del) = .ok q := hok
    obtain ⟨hs2, hu2, _⟩ :=
      contractPairs_inv p.idColumn mode (pairList (hlen p)) p.rows [] d del (hlen p)
        hs hr hc hcp
    obtain ⟨hrect, _⟩ := rect_of_rectInv (hlen p) d p.idColumn ⟨hs2, hu2⟩
    split at hok2
    case isTrue =>
      injection hok2 with h2
      subst h2
      exact ⟨hrect, hs2⟩
    case isFalse =>
      obtain ⟨h1, h2⟩ := removeColumns_rect ⟨d, p.idColumn⟩ q del hrect hok2
      refine ⟨h1, ?_⟩
      rw [h2]
      exact hs2

theorem foldlM_inv {σ α : Type} (f : σ → α → Except PErr σ) (P : σ → Prop)
    (hf : ∀ s a s1, P s → f s a = .ok s1 → P s1) :
    ∀ (l : List α) (s s' : σ), P s → l.foldlM f s = .ok s' → P s' := by
  intro l
  induction l with
  | nil =>
    intro s s' hP hok
    rw [List.foldlM_nil] at hok
    injection hok with h
    subst h
    exact hP
  | cons a rest IH =>
    intro s s' hP hok
    rw [List.foldlM_cons] at hok
    rcases hf1 : f s a with e | s1
    · rw [hf1] at hok
      exact absurd hok (fun hc => Except.noConfusion hc)
    · rw [hf1, except_bind_ok] at hok
      exact IH s1 s' (hf s a s1 hP hf1) hok

theorem rect_CLEARED (i : Nat) : Rectangular ⟨CLEARED, i⟩ := by
  intro e he
  have he2 : e = (HEADERS_ID, [Cell.str "ID"]) := by simpa [CLEARED] using he
  subst he2
  rfl

/-- The invariant of `load`'s reading loop. -/
def LoadInv (idc : Int) (st : LoadSt) : Prop :=
  (st.row = 0 → st.headLen = none) ∧
  (st.headLen = none → st.rows = CLEARED) ∧
  ∀ hl, st.headLen = some hl →
    (dfind st.rows HEADERS_ID).isSome = true ∧
    ∀ e ∈ st.rows, e.2.length = hl + (if idc = -1 then 1 else 0)

theorem loadHeaderStep_inv (nh vs : Bool) (obj : String) (idc : Int)
    (st st1 : LoadSt) (line : List String)
    (hP : LoadInv idc st)
    (hok : loadHeaderStep nh vs obj idc st line = .ok st1) :
    (st1.headLen = none → st1.rows = CLEARED) ∧
    ∀ hl, st1.headLen = some hl →
      (dfind st1.rows HEADERS_ID).isSome = true ∧
      ∀ e ∈ st1.rows, e.2.length = hl + (if idc = -1 then 1 else 0) := by
  obtain ⟨hP1, hP2, hP3⟩ := hP
  unfold loadHeaderStep at hok
  split at hok
  case isFalse =>
    injection hok with h
    subst h
    exact ⟨hP2, hP3⟩
  case isTrue hrow =>
    have hrowsC : st.rows = CLEARED := hP2 (hP1 hrow)
    split at hok
    case isTrue => exact absurd hok (fun hc => Except.noConfusion hc)
    case isFalse =>
      injection hok with h
      subst h
      refine ⟨by intro hcon; exact absurd hcon (by simp), ?_⟩
      intro hl hhl
      have hhl2 : hl = line.length := by
        have : (some line.length : Option Nat) = some hl := hhl
        injection this with h2
        exact h2.symm
      subst hhl2
      have hrows2 : dset st.rows HEADERS_ID
          (if idc = -1 then
            (if nh then synthHeaders line.length vs obj
             else line.map (fun v => Cell.str (pyStrip v))) ++ [Cell.str AUTO_ID_HEADER]
           else if nh then synthHeaders line.length vs obj
             else line.map (fun v => Cell.str (pyStrip v))) =
          [(HEADERS_ID,
            if idc = -1 then
              (if nh then synthHeaders line.length vs obj
               else line.map (fun v => Cell.str (pyStrip v))) ++ [Cell.str AUTO_ID_HEADER]
            else if nh then synthHeaders line.length vs obj
              else line.map (fun v => Cell.str (pyStrip v)))] := by
        rw [hrowsC]
        rfl
      have hhdrlen : (if idc = -1 then
            (if nh then synthHeaders line.length vs obj
             else line.map (fun v => Cell.str (pyStrip v))) ++ [Cell.str AUTO_ID_HEADER]
           else if nh then synthHeaders line.length vs obj
             else line.map (fun v => Cell.str (pyStrip v))).length =
          line.length + (if idc = -1 then 1 else 0) := by
        have hbase : (if nh then synthHeaders line.length vs obj
            else line.map (fun v => Cell.str (pyStrip v))).length = line.length := by
          split
          · simp [synthHeaders]
          · simp
        split
        · simp [hbase]
        · simp [hbase]
      constructor
      · show (dfind (dset st.rows HEADERS_ID _) HEADERS_ID).isSome = true
        rw [hrows2]
        rfl
      · intro e he
        show e.2.length = line.length + (if idc = -1 then 1 else 0)
        rw [hrows2] at he
        have he2 := List.mem_singleton.mp he
        subst he2
        exact hhdrlen

theorem dfind_dset_isSome (d : Dict) (k : String) (v : Row)
    (h : (dfind d HEADERS_ID).isSome = true) :
    (dfind (dset d k v) HEADERS_ID).isSome = true := by
  rw [dfind_dset]
  by_cases hk : k = HEADERS_ID
  · rw [if_pos hk]
    rfl
  · rw [if_neg hk]
    exact h

theorem loadDataStep_inv (hst : Bool) (obj : String) (idc : Int)
    (st : LoadSt) (line : List String)
    (hP2 : st.headLen = none → st.rows = CLEARED)
    (hP3 : ∀ hl, st.headLen = some hl →
      (dfind st.rows HEADERS_ID).isSome = true ∧
      ∀ e ∈ st.rows, e.2.length = hl + (if idc = -1 then 1 else 0)) :
    ((loadDataStep hst obj idc st line).headLen = none →
      (loadDataStep hst obj idc st line).rows = CLEARED) ∧
    ∀ hl, (loadDataStep hst obj idc st line).headLen = some hl →
      (dfind (loadDataStep hst obj idc st line).rows HEADERS_ID).isSome = true ∧
      ∀ e ∈ (loadDataStep hst obj idc st line).rows,
        e.2.length = hl + (if idc = -1 then 1 else 0) := by
  by_cases hrow : 0 < st.row
  · rcases hhl : st.headLen with _ | headLen
    · have hout : loadDataStep hst obj idc st line = st := by
        unfold loadDataStep
        rw [if_pos hrow]
        simp only [hhl]
      rw [hout]
      exact ⟨hP2, hP3⟩
    · have hout : loadDataStep hst obj idc st line =
          ⟨st.row, some headLen, dset st.rows
            (if idc = -1 then
              clean ((if idc = -1 then
                (line.take headLen ++
                  List.replicate (headLen - (line.take headLen).length) "") ++
                  [if hst then "R" ++ padNum 5 st.row else "R" ++ padNum 5 st.row ++ obj]
              else line.take headLen ++
                List.replicate (headLen - (line.take headLen).length) "").getLastD "")
            else
              clean ((if idc = -1 then
                (line.take headLen ++
                  List.replicate (headLen - (line.take headLen).length) "") ++
                  [if hst then "R" ++ padNum 5 st.row else "R" ++ padNum 5 st.row ++ obj]
              else line.take headLen ++
                List.replicate (headLen - (line.take headLen).length) "").getD idc.toNat ""))
            ((if idc = -1 then
                (line.take headLen ++
                  List.replicate (headLen - (line.take headLen).length) "") ++
                  [if hst then "R" ++ padNum 5 st.row else "R" ++ padNum 5 st.row ++ obj]
              else line.take headLen ++
                List.replicate (headLen - (line.take headLen).length) "").map Cell.str)⟩ := by
        unfold loadDataStep
        rw [if_pos hrow]
        simp only [hhl]
      rw [hout]
      have hline : (if idc = -1 then
            (line.take headLen ++
              List.replicate (headLen - (line.take headLen).length) "") ++
              [if hst then "R" ++ padNum 5 st.row else "R" ++ padNum 5 st.row ++ obj]
          else line.take headLen ++
            List.replicate (headLen - (line.take headLen).length) "").length =
          headLen + (if idc = -1 then 1 else 0) := by
        have hbase : (line.take headLen ++
            List.replicate (headLen - (line.take headLen).length) "").length = headLen := by
          simp
          try omega
        by_cases hidc : idc = -1
        · simp only [if_pos hidc]
          rw [List.length_append, hbase]
          try simp
        · simp only [if_neg hidc]
          rw [hbase]
          try omega
      obtain ⟨hsome, hlens⟩ := hP3 headLen hhl
      refine ⟨by intro hcon; exact absurd hcon (by simp), ?_⟩
      intro hl hhl2
      have hhl3 : hl = headLen := by
        injection hhl2 with h2
        exact h2.symm
      subst hhl3
      constructor
      · exact dfind_dset_isSome _ _ _ hsome
      · intro e he
        rcases mem_dset _ _ _ e he with hin | rfl
        · exact hlens e hin
        · show (List.map Cell.str _).length = _
          rw [List.length_map]
          exact hline
  · have hout : loadDataStep hst obj idc st line = st := by
      unfold loadDataStep
      rw [if_neg hrow]
    rw [hout]
    exact ⟨hP2, hP3⟩

theorem loadStep_inv (nh vs hst : Bool) (obj : String) (minL : Nat) (idc : Int)
    (st st' : LoadSt) (line : List String)
    (hP : LoadInv idc st)
    (hok : loadStep nh vs hst obj minL idc st line = .ok st') : LoadInv idc st' := by
  unfold loadStep at hok
  split at hok
  case isTrue =>
    injection hok with h
    subst h
    exact hP
  case isFalse =>
    rcases hh : loadHeaderStep nh vs obj idc st line with e | st1
    · rw [hh] at hok
      exact absurd hok (fun hc => Except.noConfusion hc)
    · rw [hh, except_bind_ok] at hok
      obtain ⟨h2, h3⟩ := loadHeaderStep_inv nh vs obj idc st st1 line hP hh
      obtain ⟨hd2, hd3⟩ := loadDataStep_inv hst obj idc st1 line h2 h3
      injection hok with h
      subst h
      exact ⟨by intro hcon; exact absurd hcon (by simp), hd2, hd3⟩

theorem load_tail_rect (lines : List (List String)) (nh vs hst : Bool) (obj : String)
    (minL : Nat) (idc : Int) (q : Pysheet)
    (hok : ((lines.foldlM (loadStep nh vs hst obj minL idc)
        (⟨0, none, CLEARED⟩ : LoadSt) : Except PErr LoadSt) >>= fun st =>
      match st.headLen with
      | some headLen =>
        Except.ok (⟨st.rows, if idc = -1 then headLen else idc.toNat⟩ : Pysheet)
      | none =>
        if idc = -1 then Except.error PErr.autoIdEmpty
        else Except.ok ⟨st.rows, idc.toNat⟩) = .ok q) :
    Rectangular q := by
  rcases hfd : lines.foldlM (loadStep nh vs hst obj minL idc)
      (⟨0, none, CLEARED⟩ : LoadSt) with e | st
  · rw [hfd] at hok
    exact absurd hok (fun hc => Except.noConfusion hc)
  · rw [hfd, except_bind_ok] at hok
    have hinv : LoadInv idc st := by
      refine foldlM_inv (loadStep nh vs hst obj minL idc) (LoadInv idc)
        (fun s a s1 hP hstep => loadStep_inv nh vs hst obj minL idc s s1 a hP hstep)
        lines ⟨0, none, CLEARED⟩ st ?_ hfd
      exact ⟨fun _ => rfl, fun _ => rfl, fun hl hcon => absurd hcon (by simp)⟩
    obtain ⟨hi1, hi2, hi3⟩ := hinv
    split at hok
    case h_1 headLen hhl =>
      injection hok with h
      subst h
      obtain ⟨hsome, hlens⟩ := hi3 headLen hhl
      exact (rect_of_rectInv _ st.rows _ ⟨hsome, hlens⟩).1
    case h_2 hhl =>
      split at hok
      case isTrue => exact absurd hok (fun hc => Except.noConfusion hc)
      case isFalse =>
        injection hok with h
        subst h
        have := hi2 hhl
        rw [this]
        exact rect_CLEARED idc.toNat

theorem load_rect (p q : Pysheet) (input : List (List String)) (idColumn? : Option Int)
    (skip : Nat) (nh vs hst tr : Bool) (obj : String)
    (hok : load p input idColumn? skip nh vs hst tr obj = .ok q) : Rectangular q := by
  unfold load at hok
  split at hok
  case isTrue =>
    injection hok with h
    subst h
    exact rect_CLEARED p.idColumn
  case isFalse =>
    exact load_tail_rect _ _ _ _ _ _ _ q hok

theorem consolMergeFold_inv (hi : Int) (i : Nat) (mode : String) (ids : List Cell) :
    ∀ (d d' : Dict) (L : Nat), (dfind d HEADERS_ID).isSome = true →
    (∀ e ∈ d, e.2.length = L) →
    consolMergeFold hi i mode ids d = .ok d' →
    (dfind d' HEADERS_ID).isSome = true ∧ ∀ e ∈ d', e.2.length = L := by
  induction ids with
  | nil =>
    intro d d' L hs hu hok
    injection hok with h
    subst h
    exact ⟨hs, hu⟩
  | cons idv rest IH =>
    intro d d' L hs hu hok
    have hok2 : (match dfind d (clean (cellStr idv)) with
        | none => (Except.error PErr.typeError : Except PErr Dict)
        | some row => do
          let v ← mergedValue (pyGetIdx row hi) (row.getD i BLANK) mode
          consolMergeFold hi i mode rest
            (dset d (clean (cellStr idv)) (pySetIdx row hi v))) = .ok d' := hok
    split at hok2
    case h_1 => exact absurd hok2 (fun hc => Except.noConfusion hc)
    case h_2 row hf =>
      have hrow : row.length = L := hu _ (dfind_mem _ _ _ hf)
      rcases hm : mergedValue (pyGetIdx row hi) (row.getD i BLANK) mode with e | v
      · rw [hm] at hok2
        exact absurd hok2 (fun hc => Except.noConfusion hc)
      · rw [hm, except_bind_ok] at hok2
        refine IH _ d' L (dfind_dset_isSome _ _ _ hs) ?_ hok2
        intro e he
        rcases mem_dset _ _ _ e he with hin | rfl
        · exact hu e hin
        · rw [pySetIdx_length]
          exact hrow

theorem consolStep_inv (mode : String) (cons : List (List String))
    (st st' : Pysheet × List Nat) (i : Nat)
    (hr : Rectangular st.1) (hs : (dfind st.1.rows HEADERS_ID).isSome = true)
    (hok : consolStep mode cons st i = .ok st') :
    Rectangular st'.1 ∧ (dfind st'.1.rows HEADERS_ID).isSome = true := by
  obtain ⟨p, del⟩ := st
  have hok2 : (match cons.find? (fun g => consolMatch p i g) with
      | none => (Except.ok (p, del) : Except PErr (Pysheet × List Nat))
      | some g => do
        let d ← consolMergeFold (headerIndex p (g.headD "")) i mode (getIds p) p.rows
        Except.ok ((⟨d, p.idColumn⟩ : Pysheet), del ++ [i])) = .ok st' := hok
  split at hok2
  case h_1 =>
    injection hok2 with h
    subst h
    exact ⟨hr, hs⟩
  case h_2 g hfind =>
    rcases hmf : consolMergeFold (headerIndex p (g.headD "")) i mode (getIds p) p.rows
        with e | d
    · rw [hmf] at hok2
      exact absurd hok2 (fun hc => Except.noConfusion hc)
    · rw [hmf, except_bind_ok] at hok2
      injection hok2 with h
      subst h
      obtain ⟨hs2, hu2⟩ := consolMergeFold_inv (headerIndex p (g.headD "")) i mode
        (getIds p) p.rows d (hlen p) hs hr hmf
      exact ⟨(rect_of_rectInv (hlen p) d p.idColumn ⟨hs2, hu2⟩).1, hs2⟩

theorem consolidate_rect (p q : Pysheet) (cons : List (List String)) (cu : Bool)
    (mode : String)
    (hr : Rectangular p) (hc : KeysClean p.rows) (hpos : 0 < hlen p)
    (hok : consolidate p cons cu mode = .ok q) : Rectangular q := by
  unfold consolidate at hok
  rcases hct : contract p mode with e | p1
  · rw [hct] at hok
    exact absurd hok (fun hc2 => Except.noConfusion hc2)
  · rw [hct, except_bind_ok] at hok
    obtain ⟨hr1, hs1⟩ := contract_rect p p1 mode hr hc hpos hct
    split at hok
    case isTrue =>
      injection hok with h
      subst h
      exact hr1
    case isFalse =>
      split at hok
      case isTrue => exact absurd hok (fun hc2 => Except.noConfusion hc2)
      case isFalse =>
        have hok2 : (((cons.map (fun g => g.headD "")).foldlM
            (fun q2 h => insertColumn q2 h none) p1 : Except PErr Pysheet) >>= fun p2 =>
            ((List.range (hlen p2)).foldlM (consolStep mode cons) (p2, []) :
              Except PErr (Pysheet × List Nat)) >>= fun st =>
            if cu then removeColumns st.1 st.2 else Except.ok st.1) = .ok q := hok
        rcases hic : (cons.map (fun g => g.headD "")).foldlM
            (fun q2 h => insertColumn q2 h none) p1 with e | p2
        · rw [hic] at hok2
          exact absurd hok2 (fun hc2 => Except.noConfusion hc2)
        · rw [hic, except_bind_ok] at hok2
          have hp2 : Rectangular p2 ∧ (dfind p2.rows HEADERS_ID).isSome = true := by
            refine foldlM_inv (fun q2 h => insertColumn q2 h none)
              (fun s => Rectangular s ∧ (dfind s.rows HEADERS_ID).isSome = true)
              ?_ (cons.map (fun g => g.headD "")) p1 p2 ⟨hr1, hs1⟩ hic
            intro s a s1 hP hstep
            obtain ⟨h1, _, h3⟩ := insertColumn_rect s s1 a none hP.1 hP.2 hstep
            exact ⟨h1, h3⟩
          rcases hsc : (List.range (hlen p2)).foldlM (consolStep mode cons) (p2, [])
              with e | st
          · rw [hsc] at hok2
            exact absurd hok2 (fun hc2 => Except.noConfusion hc2)
          · rw [hsc, except_bind_ok] at hok2
            have hst : Rectangular st.1 ∧ (dfind st.1.rows HEADERS_ID).isSome = true := by
              refine foldlM_inv (consolStep mode cons)
                (fun s => Rectangular s.1 ∧ (dfind s.1.rows HEADERS_ID).isSome = true)
                ?_ (List.range (hlen p2)) (p2, []) st ⟨hp2.1, hp2.2⟩ hsc
              intro s a s1 hP hstep
              exact consolStep_inv mode cons s s1 a hP.1 hP.2 hstep
            split at hok2
            case isTrue =>
              exact (removeColumns_rect st.1 q st.2 hst.1 hok2).1
            case isFalse =>
              injection hok2 with h
              subst h
              exact hst.1

/-- Deleting the header-sentinel row through `removeCell` leaves a table
    whose rows are longer than its (now empty) header row. -/
theorem C3_counterexample :
    WF ⟨[(HEADERS_ID, [Cell.str "ID"]), ("1", [Cell.str "1"])], 0⟩ ∧
    applyOp ⟨[(HEADERS_ID, [Cell.str "ID"]), ("1", [Cell.str "1"])], 0⟩
        (.removeCellOp "__header__" none) =
      .ok ⟨[("1", [Cell.str "1"])], 0⟩ ∧
    ¬ Rectangular ⟨[("1", [Cell.str "1"])], 0⟩ := by decide

/-- C3 (amended): rectangularity is preserved by every mutating operation of
    the engine on a well-formed table, EXCEPT that a row delete (`removeCell`
    with no header) or a row rename whose key normalises to the header
    sentinel can remove or re-key the header row itself and break it (see the
    counterexample).  Under the premise that the operation is not such a
    sentinel-keyed row removal/rename, every row of the result is as long as
    the result's header row. -/
theorem C3_rectangularity_preserved (p q : Pysheet) (op : MutOp)
    (hwf : WF p)
    (hrc : ∀ k, op = .removeCellOp k none → clean k ≠ HEADERS_ID)
    (hrn : ∀ n h k, op = .renameOp n h (some k) → clean k ≠ HEADERS_ID)
    (happ : applyOp p op = .ok q) : Rectangular q := by
  obtain ⟨hnd, hcl, hh, hr, hpos⟩ := hwf
  cases op with
  | loadIt input idc skip nh vs hs2 tr obj =>
    exact load_rect p q input idc skip nh vs hs2 tr obj happ
  | addCellOp k h v m => exact addCell_rect p q k h v m hr hpos happ
  | removeCellOp k h =>
    injection happ with h2
    subst h2
    refine removeCell_rect p k h hr ?_
    intro hnone
    exact hrc k (by rw [hnone])
  | insertColumnOp h i =>
    exact (insertColumn_rect p q h i hr (hlen_pos_hasHeader p hpos) happ).1
  | removeColumnsOp cols => exact (removeColumns_rect p q cols hr happ).1
  | combineOp other => exact combine_rect p other q happ
  | contractOp m => exact (contract_rect p q m hr hcl hpos happ).1
  | consolidateOp cons cu m => exact consolidate_rect p q cons cu m hr hcl hpos happ
  | renameOp n h k =>
    refine rename_rect p q n h k hr ?_ happ
    intro k2 hk2
    exact hrn n h k2 (by rw [hk2])

/-- Concrete instantiation: deleting an ordinary row keeps the table
    rectangular. -/
theorem C3_witness : Rectangular ⟨[(HEADERS_ID, [Cell.str "ID"])], 0⟩ :=
  C3_rectangularity_preserved
    ⟨[(HEADERS_ID, [Cell.str "ID"]), ("1", [Cell.str "1"])], 0⟩
    ⟨[(HEADERS_ID, [Cell.str "ID"])], 0⟩ (.removeCellOp "1" none)
    (by decide)
    (by intro k hk; injection hk with h1 h2; subst h1; decide)
    (by intro n h k hk; exact MutOp.noConfusion hk)
    (by decide)

/-! ### `contract` idempotence on sentinel-free tables -/

theorem mergedValue_overwrite (a b : Cell) :
    mergedValue a b "overwrite" =
      if isBlank a then .ok b else if !isBlank b then .ok b else .ok a := by
  unfold mergedValue
  rw [if_neg (show ¬ pyLower "overwrite" ∉ mergeModes by decide)]
  by_cases ha : isBlank a = true
  · rw [if_pos ha, if_pos ha]
  · rw [if_neg ha, if_neg ha]
    rw [if_neg (show ¬ pyLower "overwrite" = "smart_append" by decide),
      if_neg (show ¬ pyLower "overwrite" = "append" by decide),
      if_pos (show pyLower "overwrite" = "overwrite" by decide)]

theorem mergedValue_overwrite_cases (a b v : Cell)
    (h : mergedValue a b "overwrite" = .ok v) : v = a ∨ v = b := by
  rw [mergedValue_overwrite] at h
  by_cases ha : isBlank a = true
  · rw [if_pos ha] at h
    injection h with h2
    exact Or.inr h2.symm
  · rw [if_neg ha] at h
    by_cases hb : isBlank b = true
    · rw [if_neg (by simp [hb])] at h
      injection h with h2
      exact Or.inl h2.symm
    · rw [if_pos (by simp [hb])] at h
      injection h with h2
      exact Or.inr h2.symm

theorem getD_set (r : Row) (i col : Nat) (v : Cell) :
    (r.set i v).getD col BLANK =
      if i = col then (if i < r.length then v else BLANK) else r.getD col BLANK := by
  rw [List.getD_eq_getElem?_getD, List.getD_eq_getElem?_getD, List.getElem?_set]
  by_cases h : i = col
  · rw [if_pos h, if_pos h]
    by_cases h2 : i < r.length
    · rw [if_pos h2, if_pos h2]
      rfl
    · rw [if_neg h2, if_neg h2]
      rfl
  · rw [if_neg h, if_neg h]

theorem blank_not_sentinel : clean (cellStr BLANK) ≠ HEADERS_ID := by decide

/-- A row that is sentinel-safe above `idc` stays so after writing a safe
    value at or above `idc`. -/
theorem noSentinelHi_set (idc i : Nat) (row : Row) (v : Cell)
    (hrow : ∀ col, idc ≤ col → clean (cellStr (row.getD col BLANK)) ≠ HEADERS_ID)
    (hv : clean (cellStr v) ≠ HEADERS_ID) :
    ∀ col, idc ≤ col → clean (cellStr ((row.set i v).getD col BLANK)) ≠ HEADERS_ID := by
  intro col hcol
  rw [getD_set]
  by_cases h : i = col
  · rw [if_pos h]
    by_cases h2 : i < row.length
    · rw [if_pos h2]
      exact hv
    · rw [if_neg h2]
      exact blank_not_sentinel
  · rw [if_neg h]
    exact hrow col hcol

theorem renameKeyOp_phase (d : Dict) (idc : Nat) (v : Cell) (k : String) (d' : Dict)
    (hs0 : Row)
    (hknot : clean k ≠ HEADERS_ID)
    (hvnot : clean (cellStr v) ≠ HEADERS_ID)
    (hsent : dfind d HEADERS_ID = some hs0)
    (hcl : KeysClean d)
    (hhi : NoSentinelHi idc d)
    (hok : renameKeyOp d idc v k = .ok d') :
    dfind d' HEADERS_ID = some hs0 ∧ KeysClean d' ∧ NoSentinelHi idc d' := by
  unfold renameKeyOp at hok
  simp only [] at hok
  split at hok
  case isFalse =>
    injection hok with h2
    subst h2
    exact ⟨hsent, hcl, hhi⟩
  case isTrue =>
    split at hok
    case h_2 => exact absurd hok (fun hc2 => Except.noConfusion hc2)
    case h_1 row hf =>
      split at hok
      case isFalse =>
        injection hok with h2
        subst h2
        exact ⟨hsent, hcl, hhi⟩
      case isTrue =>
        injection hok with h2
        subst h2
        have hrowmem : (clean k, row) ∈ d := dfind_mem _ _ _ hf
        have hrowsafe : ∀ col, idc ≤ col →
            clean (cellStr (row.getD col BLANK)) ≠ HEADERS_ID :=
          hhi (clean k, row) hrowmem hknot
        refine ⟨?_, ?_, ?_⟩
        · rw [dfind_dset, if_neg hvnot, dfind_derase_ne d (clean k) HEADERS_ID hknot]
          exact hsent
        · intro e he
          rcases mem_dset _ _ _ e he with hin | rfl
          · exact hcl e (mem_derase _ _ _ hin)
          · exact clean_idem (cellStr v)
        · intro e he hne col hcol
          rcases mem_dset _ _ _ e he with hin | rfl
          · exact hhi e (mem_derase _ _ _ hin) hne col hcol
          · exact noSentinelHi_set idc idc row v hrowsafe hvnot col hcol

theorem contractMergeRow_phase12 (d : Dict) (idc i j : Nat) (m k : String) (d' : Dict)
    (hs0 : Row)
    (hile : i ≤ idc) (hij : i < j)
    (hsent : dfind d HEADERS_ID = some hs0)
    (hcl : KeysClean d)
    (hhi : NoSentinelHi idc d)
    (hok : contractMergeRow d idc i j m k = .ok d') :
    dfind d' HEADERS_ID = some hs0 ∧ KeysClean d' ∧ NoSentinelHi idc d' := by
  unfold contractMergeRow at hok
  split at hok
  case isTrue =>
    injection hok with h2
    subst h2
    exact ⟨hsent, hcl, hhi⟩
  case isFalse hk =>
    split at hok
    case h_1 => exact absurd hok (fun hc2 => Except.noConfusion hc2)
    case h_2 row hf =>
      have hkmem : (k, row) ∈ d := dfind_mem _ _ _ hf
      have hck : clean k = k := hcl (k, row) hkmem
      have hmid : ∀ v : Cell, clean (cellStr v) ≠ HEADERS_ID →
          dfind (dset d k (row.set i v)) HEADERS_ID = some hs0 ∧
          KeysClean (dset d k (row.set i v)) ∧
          NoSentinelHi idc (dset d k (row.set i v)) := by
        intro v hv
        refine ⟨?_, ?_, ?_⟩
        · rw [dfind_dset, if_neg hk]
          exact hsent
        · intro e he
          rcases mem_dset _ _ _ e he with hin | rfl
          · exact hcl e hin
          · exact hck
        · intro e he hne col hcol
          rcases mem_dset _ _ _ e he with hin | rfl
          · exact hhi e hin hne col hcol
          · exact noSentinelHi_set idc i row v (hhi (k, row) hkmem hk) hv col hcol
      have hmid2 : ∀ v : Cell,
          dfind (dset d k (row.set i v)) HEADERS_ID = some hs0 ∧
          KeysClean (dset d k (row.set i v)) := by
        intro v
        refine ⟨?_, ?_⟩
        · rw [dfind_dset, if_neg hk]
          exact hsent
        · intro e he
          rcases mem_dset _ _ _ e he with hin | rfl
          · exact hcl e hin
          · exact hck
      split at hok
      case isTrue h_i =>
        rcases hm : mergedValue (row.getD i BLANK) (row.getD j BLANK) "overwrite" with e | v
        · rw [hm] at hok
          exact absurd hok (fun hc2 => Except.noConfusion hc2)
        · rw [hm, except_bind_ok] at hok
          have hieq : i = idc := h_i
          have hrowsafe : ∀ col, idc ≤ col →
              clean (cellStr (row.getD col BLANK)) ≠ HEADERS_ID :=
            hhi (k, row) hkmem hk
          have hv : clean (cellStr v) ≠ HEADERS_ID := by
            rcases mergedValue_overwrite_cases _ _ _ hm with rfl | rfl
            · exact hrowsafe i (by omega)
            · exact hrowsafe j (by omega)
          obtain ⟨hs1, hc1, hh1⟩ := hmid v hv
          have hclk : clean k ≠ HEADERS_ID := by
            rw [hck]
            exact hk
          exact renameKeyOp_phase (dset d k (List.set row i v)) _ v k d' hs0
            hclk hv hs1 hc1 hh1 hok
      case isFalse =>
        rcases hm : mergedValue (row.getD i BLANK) (row.getD j BLANK) m with e | v
        · rw [hm] at hok
          exact absurd hok (fun hc2 => Except.noConfusion hc2)
        · rw [hm, except_bind_ok] at hok
          injection hok with h2
          subst h2
          have hinelt : i < idc := by
            rcases Nat.lt_or_ge i idc with h | h
            · exact h
            · exfalso
              rename_i hne
              exact hne (by omega)
          refine ⟨?_, ?_, ?_⟩
          · rw [dfind_dset, if_neg hk]
            exact hsent
          · intro e he
            rcases mem_dset _ _ _ e he with hin | rfl
            · exact hcl e hin
            · exact hck
          · intro e he hne col hcol
            rcases mem_dset _ _ _ e he with hin | rfl
            · exact hhi e hin hne col hcol
            · rw [getD_set, if_neg (by omega : ¬ i = col)]
              exact hhi (k, row) hkmem hk col hcol

theorem contractMergeRow_sent (d : Dict) (idc i j : Nat) (m k : String) (d' : Dict)
    (hs0 : Row)
    (hine : i ≠ idc)
    (hsent : dfind d HEADERS_ID = some hs0)
    (hok : contractMergeRow d idc i j m k = .ok d') :
    dfind d' HEADERS_ID = some hs0 := by
  unfold contractMergeRow at hok
  split at hok
  case isTrue =>
    injection hok with h2
    subst h2
    exact hsent
  case isFalse hk =>
    split at hok
    case h_1 => exact absurd hok (fun hc2 => Except.noConfusion hc2)
    case h_2 row hf =>
      rcases hm : mergedValue (row.getD i BLANK) (row.getD j BLANK) m with e | v
      · rw [hm] at hok
        exact absurd hok (fun hc2 => Except.noConfusion hc2)
      · rw [hm, except_bind_ok] at hok
        injection hok with h2
        subst h2
        rw [dfind_dset, if_neg hk]
        exact hsent

theorem contractInner_phase12 (idc : Nat) (m : String) (i j : Nat) (hs0 : Row)
    (hile : i ≤ idc) (hij : i < j) (keys : List String) :
    ∀ (d d' : Dict),
    dfind d HEADERS_ID = some hs0 → KeysClean d → NoSentinelHi idc d →
    contractInner idc m i j keys d = .ok d' →
    dfind d' HEADERS_ID = some hs0 ∧ KeysClean d' ∧ NoSentinelHi idc d' := by
  induction keys with
  | nil =>
    intro d d' hsent hcl hhi hok
    injection hok with h2
    subst h2
    exact ⟨hsent, hcl, hhi⟩
  | cons k rest IH =>
    intro d d' hsent hcl hhi hok
    have hok2 : (contractMergeRow d idc i j m k >>=
        fun d1 => contractInner idc m i j rest d1) = .ok d' := hok
    rcases hcm : contractMergeRow d idc i j m k with e | d1
    · rw [hcm] at hok2
      exact absurd hok2 (fun hc2 => Except.noConfusion hc2)
    · rw [hcm, except_bind_ok] at hok2
      obtain ⟨hs1, hc1, hh1⟩ :=
        contractMergeRow_phase12 d idc i j m k d1 hs0 hile hij hsent hcl hhi hcm
      exact IH d1 d' hs1 hc1 hh1 hok2

theorem contractInner_sent (idc : Nat) (m : String) (i j : Nat) (hs0 : Row)
    (hine : i ≠ idc) (keys : List String) :
    ∀ (d d' : Dict), dfind d HEADERS_ID = some hs0 →
    contractInner idc m i j keys d = .ok d' → dfind d' HEADERS_ID = some hs0 := by
  induction keys with
  | nil =>
    intro d d' hsent hok
    injection hok with h2
    subst h2
    exact hsent
  | cons k rest IH =>
    intro d d' hsent hok
    have hok2 : (contractMergeRow d idc i j m k >>=
        fun d1 => contractInner idc m i j rest d1) = .ok d' := hok
    rcases hcm : contractMergeRow d idc i j m k with e | d1
    · rw [hcm] at hok2
      exact absurd hok2 (fun hc2 => Except.noConfusion hc2)
    · rw [hcm, except_bind_ok] at hok2
      exact IH d1 d' (contractMergeRow_sent d idc i j m k d1 hs0 hine hsent hcm) hok2

theorem contractPair_phase12 (idc : Nat) (m : String) (d : Dict) (del : List Nat)
    (ij : Nat × Nat) (d' : Dict) (del' : List Nat) (hs0 : Row)
    (hile : ij.1 ≤ idc) (hij : ij.1 < ij.2)
    (hsent : dfind d HEADERS_ID = some hs0) (hcl : KeysClean d) (hhi : NoSentinelHi idc d)
    (hok : contractPair idc m d del ij = .ok (d', del')) :
    (dfind d' HEADERS_ID = some hs0 ∧ KeysClean d' ∧ NoSentinelHi idc d') ∧
    del' = del ++ (if lowerRep (hs0.getD ij.1 BLANK) = lowerRep (hs0.getD ij.2 BLANK)
      then [ij.2] else []) := by
  unfold contractPair at hok
  simp only [hsent, Option.getD_some] at hok
  split at hok
  case isTrue hcond =>
    rcases hci : contractInner idc m ij.1 ij.2 (d.map Prod.fst) d with e | d1
    · rw [hci] at hok
      exact absurd hok (fun hc2 => Except.noConfusion hc2)
    · rw [hci, except_bind_ok] at hok
      injection hok with h2
      injection h2 with ha hb
      subst ha
      subst hb
      refine ⟨contractInner_phase12 idc m ij.1 ij.2 hs0 hile hij (d.map Prod.fst)
        d d1 hsent hcl hhi hci, ?_⟩
      rw [if_pos hcond]
  case isFalse hcond =>
    injection hok with h2
    injection h2 with ha hb
    subst ha
    subst hb
    refine ⟨⟨hsent, hcl, hhi⟩, ?_⟩
    rw [if_neg hcond]
    simp

theorem contractPair_sent (idc : Nat) (m : String) (d : Dict) (del : List Nat)
    (ij : Nat × Nat) (d' : Dict) (del' : List Nat) (hs0 : Row)
    (hine : ij.1 ≠ idc)
    (hsent : dfind d HEADERS_ID = some hs0)
    (hok : contractPair idc m d del ij = .ok (d', del')) :
    dfind d' HEADERS_ID = some hs0 ∧
    del' = del ++ (if lowerRep (hs0.getD ij.1 BLANK) = lowerRep (hs0.getD ij.2 BLANK)
      then [ij.2] else []) := by
  unfold contractPair at hok
  simp only [hsent, Option.getD_some] at hok
  split at hok
  case isTrue hcond =>
    rcases hci : contractInner idc m ij.1 ij.2 (d.map Prod.fst) d with e | d1
    · rw [hci] at hok
      exact absurd hok (fun hc2 => Except.noConfusion hc2)
    · rw [hci, except_bind_ok] at hok
      injection hok with h2
      injection h2 with ha hb
      subst ha
      subst hb
      refine ⟨contractInner_sent idc m ij.1 ij.2 hs0 hine (d.map Prod.fst)
        d d1 hsent hci, ?_⟩
      rw [if_pos hcond]
  case isFalse hcond =>
    injection hok with h2
    injection h2 with ha hb
    subst ha
    subst hb
    refine ⟨hsent, ?_⟩
    rw [if_neg hcond]
    simp

theorem contractPairs_phase12 (idc : Nat) (m : String) (hs0 : Row) (l : List (Nat × Nat)) :
    ∀ (d : Dict) (del : List Nat) (d' : Dict) (del' : List Nat),
    (∀ ij ∈ l, ij.1 ≤ idc ∧ ij.1 < ij.2) →
    dfind d HEADERS_ID = some hs0 → KeysClean d → NoSentinelHi idc d →
    contractPairs idc m l d del = .ok (d', del') →
    (dfind d' HEADERS_ID = some hs0 ∧ KeysClean d' ∧ NoSentinelHi idc d') ∧
    del' = del ++ (l.filter (fun ij =>
      decide (lowerRep (hs0.getD ij.1 BLANK) = lowerRep (hs0.getD ij.2 BLANK)))).map
        Prod.snd := by
  induction l with
  | nil =>
    intro d del d' del' hprops hsent hcl hhi hok
    injection hok with h2
    injection h2 with ha hb
    subst ha
    subst hb
    exact ⟨⟨hsent, hcl, hhi⟩, by simp⟩
  | cons ij rest IH =>
    intro d del d' del' hprops hsent hcl hhi hok
    have hok2 : (contractPair idc m d del ij >>=
        fun st => contractPairs idc m rest st.1 st.2) = .ok (d', del') := hok
    rcases hcp : contractPair idc m d del ij with e | st
    · rw [hcp] at hok2
      exact absurd hok2 (fun hc2 => Except.noConfusion hc2)
    · rw [hcp, except_bind_ok] at hok2
      obtain ⟨d1, del1⟩ := st
      obtain ⟨hp1, hp2⟩ := hprops ij (List.mem_cons_self ij rest)
      obtain ⟨⟨hs1, hc1, hh1⟩, hdel1⟩ :=
        contractPair_phase12 idc m d del ij d1 del1 hs0 hp1 hp2 hsent hcl hhi hcp
      obtain ⟨hinv, hdel'⟩ := IH d1 del1 d' del'
        (fun ij2 h2 => hprops ij2 (List.mem_cons_of_mem _ h2)) hs1 hc1 hh1 hok2
      refine ⟨hinv, ?_⟩
      rw [hdel', hdel1]
      by_cases hcond : lowerRep (hs0.getD ij.1 BLANK) = lowerRep (hs0.getD ij.2 BLANK)
      · rw [if_pos hcond, List.filter_cons_of_pos (by simpa using hcond)]
        simp
      · rw [if_neg hcond, List.filter_cons_of_neg (by simpa using hcond)]
        simp

theorem contractPairs_sent3 (idc : Nat) (m : String) (hs0 : Row) (l : List (Nat × Nat)) :
    ∀ (d : Dict) (del : List Nat) (d' : Dict) (del' : List Nat),
    (∀ ij ∈ l, ij.1 ≠ idc) →
    dfind d HEADERS_ID = some hs0 →
    contractPairs idc m l d del = .ok (d', del') →
    dfind d' HEADERS_ID = some hs0 ∧
    del' = del ++ (l.filter (fun ij =>
      decide (lowerRep (hs0.getD ij.1 BLANK) = lowerRep (hs0.getD ij.2 BLANK)))).map
        Prod.snd := by
  induction l with
  | nil =>
    intro d del d' del' hprops hsent hok
    injection hok with h2
    injection h2 with ha hb
    subst ha
    subst hb
    exact ⟨hsent, by simp⟩
  | cons ij rest IH =>
    intro d del d' del' hprops hsent hok
    have hok2 : (contractPair idc m d del ij >>=
        fun st => contractPairs idc m rest st.1 st.2) = .ok (d', del') := hok
    rcases hcp : contractPair idc m d del ij with e | st
    · rw [hcp] at hok2
      exact absurd hok2 (fun hc2 => Except.noConfusion hc2)
    · rw [hcp, except_bind_ok] at hok2
      obtain ⟨d1, del1⟩ := st
      obtain ⟨hs1, hdel1⟩ := contractPair_sent idc m d del ij d1 del1 hs0
        (hprops ij (List.mem_cons_self ij rest)) hsent hcp
      obtain ⟨hs', hdel'⟩ := IH d1 del1 d' del'
        (fun ij2 h2 => hprops ij2 (List.mem_cons_of_mem _ h2)) hs1 hok2
      refine ⟨hs', ?_⟩
      rw [hdel', hdel1]
      by_cases hcond : lowerRep (hs0.getD ij.1 BLANK) = lowerRep (hs0.getD ij.2 BLANK)
      · rw [if_pos hcond, List.filter_cons_of_pos (by simpa using hcond)]
        simp
      · rw [if_neg hcond, List.filter_cons_of_neg (by simpa using hcond)]
        simp

theorem contractPairs_cons (idc : Nat) (m : String) (ij : Nat × Nat)
    (rest : List (Nat × Nat)) (d : Dict) (del : List Nat) :
    contractPairs idc m (ij :: rest) d del =
      contractPair idc m d del ij >>= fun st => contractPairs idc m rest st.1 st.2 := rfl

theorem contractPairs_append (idc : Nat) (m : String) (l1 l2 : List (Nat × Nat)) :
    ∀ (d : Dict) (del : List Nat),
    contractPairs idc m (l1 ++ l2) d del =
      contractPairs idc m l1 d del >>= fun st => contractPairs idc m l2 st.1 st.2 := by
  induction l1 with
  | nil =>
    intro d del
    rfl
  | cons ij rest IH =>
    intro d del
    rw [List.cons_append, contractPairs_cons, contractPairs_cons, bind_assoc]
    exact congrArg (fun cont => contractPair idc m d del ij >>= cont)
      (funext fun st => IH st.1 st.2)

theorem pairList_split (n idc : Nat) :
    ∃ l12 l3 : List (Nat × Nat),
      pairList n = l12 ++ l3 ∧
      (∀ ij ∈ l12, ij.1 ≤ idc ∧ ij.1 < ij.2 ∧ ij.2 < n) ∧
      (∀ ij ∈ l3, idc < ij.1 ∧ ij.1 < ij.2 ∧ ij.2 < n) := by
  refine ⟨(List.range (min (idc + 1) (n - 1))).flatMap
      (fun i => (List.range' (i + 1) (n - 1 - i)).map (fun j => (i, j))),
    (List.range' (min (idc + 1) (n - 1)) ((n - 1) - min (idc + 1) (n - 1))).flatMap
      (fun i => (List.range' (i + 1) (n - 1 - i)).map (fun j => (i, j))), ?_, ?_, ?_⟩
  · unfold pairList
    rw [← List.flatMap_append]
    congr 1
    rw [List.range_eq_range', List.range_eq_range']
    have h1 := List.range'_append_1 0 (min (idc + 1) (n - 1))
      ((n - 1) - min (idc + 1) (n - 1))
    rw [Nat.zero_add] at h1
    rw [show (n - 1) - min (idc + 1) (n - 1) + min (idc + 1) (n - 1) = n - 1 by omega]
      at h1
    exact h1.symm
  · intro ij hij
    rw [List.mem_flatMap] at hij
    obtain ⟨i, hi, hj⟩ := hij
    rw [List.mem_range] at hi
    rw [List.mem_map] at hj
    obtain ⟨j, hj2, rfl⟩ := hj
    rw [List.mem_range'] at hj2
    obtain ⟨k, hk, rfl⟩ := hj2
    refine ⟨by omega, by omega, by omega⟩
  · intro ij hij
    rw [List.mem_flatMap] at hij
    obtain ⟨i, hi, hj⟩ := hij
    rw [List.mem_range'] at hi
    obtain ⟨k1, hk1, rfl⟩ := hi
    rw [List.mem_map] at hj
    obtain ⟨j, hj2, rfl⟩ := hj
    rw [List.mem_range'] at hj2
    obtain ⟨k, hk, rfl⟩ := hj2
    refine ⟨by omega, by omega, by omega⟩

theorem mem_pairList {n i j : Nat} (hij : i < j) (hjn : j < n) : (i, j) ∈ pairList n := by
  unfold pairList
  rw [List.mem_flatMap]
  refine ⟨i, List.mem_range.mpr (by omega), ?_⟩
  rw [List.mem_map]
  refine ⟨j, ?_, rfl⟩
  rw [List.mem_range']
  exact ⟨j - (i + 1), by omega, by omega⟩

theorem rcCheck_lt (cols : List Nat) :
    ∀ (n idc idc' : Nat), rcCheck cols n idc = .ok idc' → ∀ c ∈ cols, c < n := by
  induction cols with
  | nil =>
    intro n idc idc' hok c hc
    exact absurd hc (by simp)
  | cons c0 rest IH =>
    intro n idc idc' hok c hc
    unfold rcCheck at hok
    split at hok
    case isTrue => exact absurd hok (fun hc2 => Except.noConfusion hc2)
    case isFalse =>
      split at hok
      case isTrue => exact absurd hok (fun hc2 => Except.noConfusion hc2)
      case isFalse hlt =>
        rcases List.mem_cons.mp hc with rfl | hc2
        · omega
        · exact IH n _ idc' hok c hc2

theorem mem_insertDesc (x a : Nat) (l : List Nat) :
    a ∈ insertDesc x l ↔ a = x ∨ a ∈ l := by
  induction l with
  | nil => simp [insertDesc]
  | cons y ys IH =>
    unfold insertDesc
    by_cases h : y ≤ x
    · rw [if_pos h]
      simp only [List.mem_cons]
    · rw [if_neg h]
      simp only [List.mem_cons, IH]
      tauto

theorem pairwise_ge_insertDesc (x : Nat) (l : List Nat)
    (h : List.Pairwise (fun a b => b ≤ a) l) :
    List.Pairwise (fun a b => b ≤ a) (insertDesc x l) := by
  induction l with
  | nil => simp [insertDesc]
  | cons y ys IH =>
    obtain ⟨hhead, htail⟩ := List.pairwise_cons.mp h
    unfold insertDesc
    by_cases hx : y ≤ x
    · rw [if_pos hx]
      refine List.pairwise_cons.mpr ⟨?_, h⟩
      intro b hb
      rcases List.mem_cons.mp hb with rfl | hb2
      · exact hx
      · exact le_trans (hhead b hb2) hx
    · rw [if_neg hx]
      refine List.pairwise_cons.mpr ⟨?_, IH htail⟩
      intro b hb
      rcases (mem_insertDesc x b ys).mp hb with rfl | hb2
      · omega
      · exact hhead b hb2

theorem pairwise_ge_sortDesc (l : List Nat) :
    List.Pairwise (fun a b => b ≤ a) (sortDesc l) := by
  unfold sortDesc
  induction l with
  | nil => simp
  | cons x xs IH => exact pairwise_ge_insertDesc x _ IH

theorem mem_sortDesc_of_mem (l : List Nat) (a : Nat) (h : a ∈ l) : a ∈ sortDesc l := by
  unfold sortDesc
  induction l with
  | nil => simp at h
  | cons x xs IH =>
    rw [List.foldr_cons, mem_insertDesc]
    rcases List.mem_cons.mp h with rfl | h2
    · exact Or.inl rfl
    · exact Or.inr (IH h2)

theorem pyUniqueAux_sublist (l : List Nat) :
    ∀ acc : List Nat, ∃ t, List.foldl
      (fun acc e => if e ∈ acc then acc else acc ++ [e]) acc l = acc ++ t ∧ t.Sublist l := by
  induction l with
  | nil =>
    intro acc
    exact ⟨[], by simp, List.Sublist.refl []⟩
  | cons e rest IH =>
    intro acc
    rw [List.foldl_cons]
    by_cases h : e ∈ acc
    · rw [if_pos h]
      obtain ⟨t, ht, hs⟩ := IH acc
      exact ⟨t, ht, List.Sublist.cons e hs⟩
    · rw [if_neg h]
      obtain ⟨t, ht, hs⟩ := IH (acc ++ [e])
      refine ⟨e :: t, ?_, List.Sublist.cons₂ e hs⟩
      rw [ht, List.append_assoc]
      rfl

theorem pyUnique_sublist (l : List Nat) : (pyUnique l).Sublist l := by
  obtain ⟨t, ht, hs⟩ := pyUniqueAux_sublist l []
  unfold pyUnique
  rw [ht, List.nil_append]
  exact hs

theorem pyUniqueAux_nodup (l : List Nat) :
    ∀ acc : List Nat, acc.Nodup →
    (List.foldl (fun acc e => if e ∈ acc then acc else acc ++ [e]) acc l).Nodup := by
  induction l with
  | nil =>
    intro acc h
    exact h
  | cons e rest IH =>
    intro acc h
    rw [List.foldl_cons]
    by_cases he : e ∈ acc
    · rw [if_pos he]
      exact IH acc h
    · rw [if_neg he]
      refine IH (acc ++ [e]) ?_
      refine List.Nodup.append h (List.nodup_singleton e) ?_
      intro a ha hae
      rw [List.mem_singleton] at hae
      subst hae
      exact he ha

theorem pyUnique_nodup (l : List Nat) : (pyUnique l).Nodup :=
  pyUniqueAux_nodup l [] List.nodup_nil

theorem pyUniqueAux_mem_acc (l : List Nat) :
    ∀ (acc : List Nat) (a : Nat), a ∈ acc →
    a ∈ List.foldl (fun acc e => if e ∈ acc then acc else acc ++ [e]) acc l := by
  induction l with
  | nil =>
    intro acc a h
    exact h
  | cons e rest IH =>
    intro acc a h
    rw [List.foldl_cons]
    by_cases he : e ∈ acc
    · rw [if_pos he]
      exact IH acc a h
    · rw [if_neg he]
      exact IH (acc ++ [e]) a (by simp [h])

theorem mem_pyUnique_of_mem (l : List Nat) (a : Nat) (h : a ∈ l) : a ∈ pyUnique l := by
  unfold pyUnique
  have hgen : ∀ (l2 : List Nat) (acc : List Nat), a ∈ l2 →
      a ∈ List.foldl (fun acc e => if e ∈ acc then acc else acc ++ [e]) acc l2 := by
    intro l2
    induction l2 with
    | nil =>
      intro acc h2
      simp at h2
    | cons e rest IH =>
      intro acc h2
      rw [List.foldl_cons]
      rcases List.mem_cons.mp h2 with rfl | h3
      · by_cases he : a ∈ acc
        · rw [if_pos he]
          exact pyUniqueAux_mem_acc rest acc a he
        · rw [if_neg he]
          exact pyUniqueAux_mem_acc rest (acc ++ [a]) a (by simp)
      · by_cases he : e ∈ acc
        · rw [if_pos he]
          exact IH acc h3
        · rw [if_neg he]
          exact IH (acc ++ [e]) h3
  exact hgen l [] h

theorem getD_eraseIdx_lt (xs : Row) (c i : Nat) (h : i < c) :
    (xs.eraseIdx c).getD i BLANK = xs.getD i BLANK := by
  rw [List.getD_eq_getElem?_getD, List.getD_eq_getElem?_getD,
    List.getElem?_eraseIdx_of_lt _ _ _ h]

theorem getD_eraseIdx_ge (xs : Row) (c i : Nat) (h : c ≤ i) :
    (xs.eraseIdx c).getD i BLANK = xs.getD (i + 1) BLANK := by
  rw [List.getD_eq_getElem?_getD, List.getD_eq_getElem?_getD,
    List.getElem?_eraseIdx_of_ge _ _ _ h]

theorem range_map_getD (xs : Row) :
    (List.range xs.length).map (fun i => xs.getD i BLANK) = xs := by
  induction xs with
  | nil => rfl
  | cons c cs IH =>
    rw [List.length_cons, List.range_succ_eq_map, List.map_cons, List.map_map]
    have h2 : ((fun i => (c :: cs).getD i BLANK) ∘ (· + 1)) =
        fun i => cs.getD i BLANK := by
      funext i
      rfl
    rw [h2, IH]
    rfl

theorem foldl_eraseIdx_desc (cols : List Nat) :
    ∀ (xs : Row), List.Pairwise (fun a b => b < a) cols → (∀ c ∈ cols, c < xs.length) →
    cols.foldl (fun r c => r.eraseIdx c) xs =
      ((List.range xs.length).filter (fun i => !decide (i ∈ cols))).map
        (fun i => xs.getD i BLANK) := by
  induction cols with
  | nil =>
    intro xs _ _
    rw [List.filter_eq_self.mpr (fun a _ => by simp)]
    exact (range_map_getD xs).symm
  | cons c rest IH =>
    intro xs hpair hlt
    rw [List.foldl_cons]
    obtain ⟨hhead, htail⟩ := List.pairwise_cons.mp hpair
    have hc : c < xs.length := hlt c (List.mem_cons_self c rest)
    have hlen1 : (xs.eraseIdx c).length = xs.length - 1 := by
      rw [List.length_eraseIdx, if_pos hc]
    have IH2 := IH (xs.eraseIdx c) htail (fun c2 hc2 => by
      rw [hlen1]
      have := hhead c2 hc2
      omega)
    rw [IH2, hlen1]
    -- split both ranges at c
    have hsplitS : List.range (xs.length - 1) =
        List.range c ++ List.range' c (xs.length - 1 - c) := by
      rw [List.range_eq_range', List.range_eq_range']
      have h1 := List.range'_append_1 0 c (xs.length - 1 - c)
      rw [Nat.zero_add] at h1
      rw [show xs.length - 1 - c + c = xs.length - 1 by omega] at h1
      exact h1.symm
    have hsplitT : List.range xs.length =
        List.range c ++ List.range' c (xs.length - c) := by
      rw [List.range_eq_range', List.range_eq_range']
      have h1 := List.range'_append_1 0 c (xs.length - c)
      rw [Nat.zero_add] at h1
      rw [show xs.length - c + c = xs.length by omega] at h1
      exact h1.symm
    rw [hsplitS, hsplitT, List.filter_append, List.filter_append, List.map_append,
      List.map_append]
    congr 1
    -- low part: indices below c
    · have hfeq : (List.range c).filter (fun i => !decide (i ∈ rest)) =
          (List.range c).filter (fun i => !decide (i ∈ c :: rest)) := by
        refine List.filter_congr (fun i hi => ?_)
        have hic : i < c := List.mem_range.mp hi
        have hiff : (i ∈ c :: rest) ↔ (i ∈ rest) := by
          simp only [List.mem_cons]
          constructor
          · rintro (rfl | h2)
            · omega
            · exact h2
          · exact Or.inr
        simp [hiff]
      rw [← hfeq]
      refine List.map_congr_left (fun i hi => ?_)
      have hic : i < c := List.mem_range.mp (List.mem_filter.mp hi).1
      exact getD_eraseIdx_lt xs c i hic
    -- high part: index c is dropped, larger indices shift by one
    · have hTc : List.range' c (xs.length - c) =
          c :: List.range' (c + 1) (xs.length - c - 1) := by
        have h2 := List.range'_succ c (xs.length - c - 1) 1
        rw [show xs.length - c - 1 + 1 = xs.length - c by omega] at h2
        exact h2
      rw [hTc, List.filter_cons_of_neg (by simp)]
      have hTrest : (List.range' (c + 1) (xs.length - c - 1)).filter
          (fun i => !decide (i ∈ c :: rest)) = List.range' (c + 1) (xs.length - c - 1) := by
        refine List.filter_eq_self.mpr (fun i hi => ?_)
        rw [List.mem_range'] at hi
        obtain ⟨k, hk, rfl⟩ := hi
        simp only [Bool.not_eq_true', decide_eq_false_iff_not, List.mem_cons, not_or]
        refine ⟨by omega, fun hmem => ?_⟩
        have := hhead _ hmem
        omega
      have hSrest : (List.range' c (xs.length - 1 - c)).filter
          (fun i => !decide (i ∈ rest)) = List.range' c (xs.length - 1 - c) := by
        refine List.filter_eq_self.mpr (fun i hi => ?_)
        rw [List.mem_range'] at hi
        obtain ⟨k, hk, rfl⟩ := hi
        simp only [Bool.not_eq_true', decide_eq_false_iff_not]
        intro hmem
        have := hhead _ hmem
        omega
      rw [hTrest, hSrest]
      have hmapS : (List.range' c (xs.length - 1 - c)).map
          (fun i => (xs.eraseIdx c).getD i BLANK) =
          (List.range' c (xs.length - 1 - c)).map (fun i => xs.getD (i + 1) BLANK) := by
        refine List.map_congr_left (fun i hi => ?_)
        rw [List.mem_range'] at hi
        obtain ⟨k, hk, rfl⟩ := hi
        exact getD_eraseIdx_ge xs c _ (by omega)
      rw [hmapS]
      have hshift : (List.range' c (xs.length - 1 - c)).map
          (fun i => xs.getD (i + 1) BLANK) =
          (List.range' (c + 1) (xs.length - c - 1)).map (fun i => xs.getD i BLANK) := by
        have h1 : List.range' (c + 1) (xs.length - c - 1) =
            (List.range' c (xs.length - 1 - c)).map (fun i => 1 + i) := by
          rw [List.map_add_range']
          congr 1 <;> omega
        rw [h1, List.map_map]
        refine List.map_congr_left (fun i _ => ?_)
        show xs.getD (i + 1) BLANK = xs.getD (1 + i) BLANK
        rw [Nat.add_comm]
      rw [hshift]

/-- C4 (amended): on a well-formed table none of whose data cells normalises
    to the header sentinel, applying `contract` twice in succession yields the
    same result as applying it once.  The header row then survives the first
    pass unchanged (the only way it could change is an ID-column re-key onto
    the sentinel), so every column pair with equal normalised headers is folded
    and the duplicate deleted in the first pass, the surviving headers are
    pairwise distinct, and the second pass changes nothing.  Without the
    sentinel-freedom premise the claim fails (see the counterexample). -/
theorem C4_contract_idempotent (p : Pysheet) (mode : String)
    (hwf : WF p) (hns : NoSentinelCells p) :
    (contract p mode).bind (fun q => contract q mode) = contract p mode := by
  rcases hc : contract p mode with e | q
  · rfl
  · show contract q mode = Except.ok q
    obtain ⟨hnd, hcl, hh, hr, hpos⟩ := hwf
    obtain ⟨hs0, hf0⟩ := Option.isSome_iff_exists.mp hh
    have hlen_hs0 : hs0.length = hlen p := by
      unfold hlen getHeaders
      rw [hf0]
      rfl
    have hhi0 : NoSentinelHi p.idColumn p.rows := by
      intro e he hne col hcol
      rw [List.getD_eq_getElem?_getD]
      rcases hg : e.2[col]? with _ | cell
      · exact blank_not_sentinel
      · exact hns e he hne cell (List.getElem?_mem hg)
    unfold contract at hc
    rcases hcp : contractPairs p.idColumn mode (pairList (hlen p)) p.rows [] with e2 | st
    · rw [hcp] at hc
      exact absurd hc (fun hc2 => Except.noConfusion hc2)
    · rw [hcp, except_bind_ok] at hc
      obtain ⟨dF, del⟩ := st
      have hc2 : (if del.isEmpty then Except.ok (⟨dF, p.idColumn⟩ : Pysheet)
          else removeColumns ⟨dF, p.idColumn⟩ del) = .ok q := hc
      obtain ⟨l12, l3, hsplit, h12props, h3props⟩ := pairList_split (hlen p) p.idColumn
      rw [hsplit, contractPairs_append] at hcp
      rcases hm12 : contractPairs p.idColumn mode l12 p.rows [] with e2 | stM
      · rw [hm12] at hcp
        exact absurd hcp (fun hc3 => Except.noConfusion hc3)
      · rw [hm12, except_bind_ok] at hcp
        obtain ⟨dM, delM⟩ := stM
        obtain ⟨⟨hsM, hclM, hhiM⟩, hdelM⟩ := contractPairs_phase12 p.idColumn mode hs0 l12
          p.rows [] dM delM (fun ij h => ⟨(h12props ij h).1, (h12props ij h).2.1⟩)
          hf0 hcl hhi0 hm12
        obtain ⟨hsF, hdelF⟩ := contractPairs_sent3 p.idColumn mode hs0 l3 dM delM dF del
          (fun ij h => by have := (h3props ij h).1; omega) hsM hcp
        have hdel : del = ((pairList (hlen p)).filter (fun ij =>
            decide (lowerRep (hs0.getD ij.1 BLANK) = lowerRep (hs0.getD ij.2 BLANK)))).map
              Prod.snd := by
          rw [hdelF, hdelM, hsplit, List.filter_append, List.map_append]
          simp
        have hkey : ∀ i1 i2, i1 < i2 → i2 < hlen p → i2 ∉ del →
            lowerRep (hs0.getD i1 BLANK) ≠ lowerRep (hs0.getD i2 BLANK) := by
          intro i1 i2 h12 h2n hnotin heq
          apply hnotin
          rw [hdel, List.mem_map]
          refine ⟨(i1, i2), ?_, rfl⟩
          rw [List.mem_filter]
          exact ⟨mem_pairList h12 h2n, by simpa using heq⟩
        by_cases hdele : del.isEmpty = true
        · rw [if_pos hdele] at hc2
          injection hc2 with h2
          subst h2
          have hdelnil : del = [] := List.isEmpty_iff.mp hdele
          have hgh : getHeaders (⟨dF, p.idColumn⟩ : Pysheet) = hs0 := by
            unfold getHeaders
            rw [hsF]
            rfl
          have hdist : ((getHeaders (⟨dF, p.idColumn⟩ : Pysheet)).map lowerRep).Nodup := by
            rw [hgh]
            refine List.pairwise_iff_getElem.mpr ?_
            intro i j hi hj hij
            rw [List.length_map] at hi hj
            rw [List.getElem_map, List.getElem_map]
            have e1 : hs0[i] = hs0.getD i BLANK := by
              rw [List.getD_eq_getElem?_getD, List.getElem?_eq_getElem hi, Option.getD_some]
            have e2 : hs0[j] = hs0.getD j BLANK := by
              rw [List.getD_eq_getElem?_getD, List.getElem?_eq_getElem hj, Option.getD_some]
            rw [e1, e2]
            exact hkey i j hij (hlen_hs0 ▸ hj) (by rw [hdelnil]; simp)
          exact (contract_distinct_headers_identity _ mode hdist).1
        · rw [if_neg hdele] at hc2
          unfold removeColumns at hc2
          rw [if_neg hdele] at hc2
          simp only [] at hc2
          split at hc2
          next => exact absurd hc2 (fun hc3 => Except.noConfusion hc3)
          next idc2 hrc =>
            injection hc2 with h2
            subst h2
            have hge : List.Pairwise (fun a b => b ≤ a) (pyUnique (sortDesc del)) :=
              List.Pairwise.sublist (pyUnique_sublist (sortDesc del))
                (pairwise_ge_sortDesc del)
            have hndc : (pyUnique (sortDesc del)).Nodup := pyUnique_nodup _
            have hdesc : List.Pairwise (fun a b => b < a) (pyUnique (sortDesc del)) := by
              refine (hge.and hndc).imp ?_
              intro a b hab
              omega
            have hlenF : hlen (⟨dF, p.idColumn⟩ : Pysheet) = hs0.length := by
              rw [hlen_mk, hsF]
              simp
            have hlt : ∀ c ∈ pyUnique (sortDesc del), c < hs0.length := by
              intro c hcm
              have h3 := rcCheck_lt (pyUnique (sortDesc del))
                (hlen (⟨dF, p.idColumn⟩ : Pysheet)) p.idColumn idc2 hrc c hcm
              rw [hlenF] at h3
              exact h3
            have hghq : getHeaders (⟨dF.map (fun e => (e.1,
                (pyUnique (sortDesc del)).foldl (fun r c => r.eraseIdx c) e.2)),
                  idc2⟩ : Pysheet) =
                (pyUnique (sortDesc del)).foldl (fun r c => r.eraseIdx c) hs0 := by
              unfold getHeaders
              rw [dfind_mapVal (fun _ row =>
                (pyUnique (sortDesc del)).foldl (fun r c => r.eraseIdx c) row), hsF]
              rfl
            have hdist : ((getHeaders (⟨dF.map (fun e => (e.1,
                (pyUnique (sortDesc del)).foldl (fun r c => r.eraseIdx c) e.2)),
                  idc2⟩ : Pysheet)).map lowerRep).Nodup := by
              rw [hghq, foldl_eraseIdx_desc (pyUnique (sortDesc del)) hs0 hdesc hlt,
                List.map_map]
              refine List.Pairwise.map _ (fun a b h => h) ?_
              refine List.Pairwise.imp_of_mem ?_
                ((List.pairwise_lt_range hs0.length).filter _)
              intro i1 i2 h1m h2m h12
              have h2f := List.mem_filter.mp h2m
              have h2r : i2 < hs0.length := List.mem_range.mp h2f.1
              have h2nc : i2 ∉ pyUnique (sortDesc del) := by
                have h4 := h2f.2
                simpa using h4
              have h2nd : i2 ∉ del := fun hmem =>
                h2nc (mem_pyUnique_of_mem _ _ (mem_sortDesc_of_mem _ _ hmem))
              exact hkey i1 i2 h12 (hlen_hs0 ▸ h2r) h2nd
            exact (contract_distinct_headers_identity _ mode hdist).1

/-- Concrete instantiation: a table with duplicate normalised headers Age and
    AGE; `contract` really folds and deletes a column in the first pass and
    applying it twice equals applying it once. -/
theorem C4_witness :
    (contract ⟨[(HEADERS_ID, [Cell.str "ID", Cell.str "Age", Cell.str "AGE"]),
        ("1", [Cell.str "1", Cell.str "7", Cell.str "8"])], 0⟩ "smart_append").bind
      (fun q => contract q "smart_append") =
    contract ⟨[(HEADERS_ID, [Cell.str "ID", Cell.str "Age", Cell.str "AGE"]),
        ("1", [Cell.str "1", Cell.str "7", Cell.str "8"])], 0⟩ "smart_append" :=
  C4_contract_idempotent
    ⟨[(HEADERS_ID, [Cell.str "ID", Cell.str "Age", Cell.str "AGE"]),
      ("1", [Cell.str "1", Cell.str "7", Cell.str "8"])], 0⟩ "smart_append"
    (by decide) (by decide)

end Py